import Mathlib

/-!
# GEP stream messenger and looper scheduler of `ArduinoMFReader`

A shallow embedding of

* `acp/messenger/gep_stream_messenger/gepstream_messenger.h`
  (`GEPStreamController`: `computeCRC8`, `sendByte`, `sendMessage`, `loop`), and
* `sources/core.cpp` (`processLoopers`, `enableLooper`, `disableLooper`),

followed by theorems about them.

Conventions of the embedding.

* A `uint8_t` is a `Nat`; where the C++ code stores a value into a `uint8_t`
  the embedding reduces it `% 256`.  `int` / `long` values are `Int`
  (`messageLength`, the tag, the template parameters).
* The byte stream is split into the list of bytes still to be read (input) and
  the list of bytes written (output).  `stream == NULL` is the Boolean field
  `stream = false`.
* The callback `messageReceivedEvent` is a Boolean (non-null or null); every
  invocation is recorded as a `Call` holding the buffer the pointer argument
  designates, the length argument and the tag argument.
* The scheduler tables are a record; a pointer `loopers + i` is the index `i`.
  Functions that can access memory outside the tables return an `Option`
  (`none`: undefined behaviour in C++).  A handler is a function of the state
  `W` of the rest of the program that yields the new state, the calls of
  `enableLooper` / `disableLooper` it makes and the delay it returns.  The
  `while (true)` loop of `processLoopers` is followed for a bounded number of
  iterations; the result records whether the function has returned.
-/


namespace acp_messenger_gep_stream

/-- Byte indicating start of a new message. -/
def MESSAGE_START_BYTE : Nat := 0x0C

/-- Byte indicating end of the message without tag. -/
def MESSAGE_END_BYTE : Nat := 0x03

/-- Byte indicating end of the message with tag. -/
def MESSAGE_END_WITH_TAG_BYTE : Nat := 0x06

/-- State of the receive process (the anonymous `enum` of `GEPStreamController`). -/
inductive State where
  | WAIT_START
  | WAIT_DESTINATION_ID
  | WAIT_MESSAGE_BYTE_HIGH
  | WAIT_MESSAGE_BYTE_LOW
  | WAIT_CRC
  | WAIT_CRC_WITH_TAG
  | MESSAGE_RECEIVED
  | MESSAGE_RECEIVED_WITH_TAG
  deriving DecidableEq, Repr

/-- Body of the inner `for` loop of `computeCRC8`, on the pair `(crc, inByte)`. -/
def crcBit (p : Nat × Nat) : Nat × Nat :=
  let mix := (p.1 ^^^ p.2) &&& 0x01
  let crc := p.1 >>> 1
  let crc := if mix ≠ 0 then crc ^^^ 0x8C else crc
  (crc, p.2 >>> 1)

/-- Body of the outer `while` loop of `computeCRC8`: the eight rounds of the
`for` loop on one data byte (`uint8_t inByte = *data`). -/
def crcByte (crc inByte : Nat) : Nat :=
  (crcBit^[8] (crc, inByte % 256)).1

/-- The `while (dataLength > 0)` loop of `computeCRC8`. -/
def crcLoop (crc : Nat) : List Nat → Nat
  | [] => crc
  | inByte :: data => crcLoop (crcByte crc inByte) data

/-- Function `computeCRC8(crc, data, dataLength)`; `data` is the list of the
`dataLength` bytes the pointer designates, `crc` is a `uint8_t` parameter. -/
def computeCRC8 (crc : Nat) (data : List Nat) : Nat :=
  crcLoop (crc % 256) data

/-- The expression `(nibble << 4) | (nibble ^ 0x0F)` stored into a `uint8_t`
(lines 70, 74 and 94 of the header). -/
def encodeNibble (nibble : Nat) : Nat :=
  ((nibble <<< 4) ||| (nibble ^^^ 0x0F)) % 256

/-- Function `sendByte(dataByte)`: the two bytes handed to `stream->write`. -/
def sendByte (dataByte : Nat) : List Nat :=
  let dataByte := dataByte % 256
  [encodeNibble (dataByte / 16), encodeNibble (dataByte % 16)]

/-- Function `sendMessage(destinationId, message, messageLength, tag)`: the list
of bytes written to the stream, in order.  `stream` says whether the stream
pointer is non-null, `message = none` is the null pointer, and `some bytes`
is a pointer to the given bytes (of which the first `messageLength` are read). -/
def sendMessage (stream : Bool) (destinationId : Nat) (message : Option (List Nat))
    (messageLength : Int) (tag : Int) : List Nat :=
  if stream = false ∨ messageLength < 0 ∨ (messageLength > 0 ∧ message = none) then
    []
  else
    let destinationId := destinationId % 256
    let crcChecksum := 0
    let destinationId := if destinationId ≥ 16 then 0 else destinationId
    let crcChecksum := computeCRC8 crcChecksum [destinationId]
    let destinationId := encodeNibble destinationId
    let payload := (message.getD []).take messageLength.toNat
    let written := [MESSAGE_START_BYTE, destinationId] ++ payload.flatMap sendByte
    let crcChecksum := computeCRC8 crcChecksum payload
    if tag < 0 then
      written ++ [MESSAGE_END_BYTE] ++ [crcChecksum]
    else
      let tagBuffer0 := ((tag / 256) % 256).toNat
      let tagBuffer1 := ((tag % 256) % 256).toNat
      let crcChecksum := computeCRC8 crcChecksum [tagBuffer0, tagBuffer1]
      written ++ sendByte tagBuffer0 ++ sendByte tagBuffer1
        ++ [MESSAGE_END_WITH_TAG_BYTE] ++ [crcChecksum]

/-- One invocation of `messageReceivedEvent(message, messageLength, messageTag)`:
`message` is the content of the receive buffer the pointer designates at the
time of the call. -/
structure Call where
  message : List Nat
  messageLength : Int
  messageTag : Int
  deriving DecidableEq, Repr

/-- The fields of `GEPStreamController<MESSENGER_ID, MAX_MESSAGE_SIZE>`.
`message` is the buffer `uint8_t message[MAX_MESSAGE_SIZE+2]`. -/
structure GEPStreamController where
  stream : Bool
  messageDestinationId : Nat
  message : List Nat
  messageLength : Int
  state : State
  messageReceivedEvent : Bool
  deriving DecidableEq, Repr

/-- The constructor `GEPStreamController()`; the buffer is not initialised by
the constructor, `message` is its (arbitrary) initial content. -/
def GEPStreamController.new (message : List Nat) : GEPStreamController :=
  { stream := false, messageDestinationId := 0, message := message,
    messageLength := 0, state := State.WAIT_START, messageReceivedEvent := false }

/-- Lines 176-251 of `loop()`: what one iteration of the `while` loop does with
`dataByte` after the CRC states have been handled.  The Boolean of the result is
`true` when the iteration leaves the loop with `break`. -/
def loopTail (MESSENGER_ID MAX_MESSAGE_SIZE : Int) (c : GEPStreamController)
    (dataByte : Nat) : GEPStreamController × Bool :=
  if dataByte = MESSAGE_START_BYTE then
    ({ c with state := State.WAIT_DESTINATION_ID }, false)
  else if c.state = State.WAIT_START then
    (c, false)
  else if c.state = State.WAIT_DESTINATION_ID then
    let inByte := dataByte % 256
    let c := { c with messageDestinationId := inByte / 16 }
    if c.messageDestinationId ≠ ((inByte ^^^ 0x0F) &&& 0x0F) then
      ({ c with state := State.WAIT_START }, false)
    else if MESSENGER_ID > 0 ∧
        (c.messageDestinationId > 0 ∧ (c.messageDestinationId : Int) ≠ MESSENGER_ID) then
      ({ c with state := State.WAIT_START }, false)
    else
      ({ c with state := State.WAIT_MESSAGE_BYTE_HIGH, messageLength := 0 }, false)
  else if c.state = State.WAIT_MESSAGE_BYTE_HIGH ∧ dataByte = MESSAGE_END_BYTE then
    ({ c with state := State.WAIT_CRC }, false)
  else if c.state = State.WAIT_MESSAGE_BYTE_HIGH ∧ dataByte = MESSAGE_END_WITH_TAG_BYTE then
    if c.messageLength ≥ 2 then
      ({ c with state := State.WAIT_CRC_WITH_TAG }, false)
    else
      ({ c with state := State.WAIT_START }, false)
  else if c.state = State.WAIT_MESSAGE_BYTE_HIGH ∨ c.state = State.WAIT_MESSAGE_BYTE_LOW then
    let inByte := dataByte % 256
    let nibble := inByte / 16
    if nibble ≠ ((inByte ^^^ 0x0F) &&& 0x0F) then
      ({ c with state := State.WAIT_START }, false)
    else if c.state = State.WAIT_MESSAGE_BYTE_HIGH then
      if c.messageLength ≥ MAX_MESSAGE_SIZE + 2 then
        ({ c with state := State.WAIT_START }, false)
      else
        ({ c with
            message := c.message.set c.messageLength.toNat (nibble * 16)
            messageLength := c.messageLength + 1
            state := State.WAIT_MESSAGE_BYTE_LOW }, false)
    else
      ({ c with
          message := c.message.set (c.messageLength - 1).toNat
            ((c.message.getD (c.messageLength - 1).toNat 0 + nibble) % 256)
          state := State.WAIT_MESSAGE_BYTE_HIGH }, false)
  else
    (c, false)

/-- One iteration of the `while` loop of `loop()` on the byte `dataByte` that
`stream->read()` returned (lines 147-251). -/
def loopBody (MESSENGER_ID MAX_MESSAGE_SIZE : Int) (c : GEPStreamController)
    (dataByte : Nat) : GEPStreamController × Bool :=
  if c.state = State.WAIT_START ∧ dataByte ≠ MESSAGE_START_BYTE then
    (c, false)
  else if c.state = State.WAIT_CRC ∨ c.state = State.WAIT_CRC_WITH_TAG then
    let crcInitialValue := computeCRC8 0 [c.messageDestinationId]
    if dataByte ≠ computeCRC8 crcInitialValue (c.message.take c.messageLength.toNat) then
      loopTail MESSENGER_ID MAX_MESSAGE_SIZE { c with state := State.WAIT_START } dataByte
    else if c.state = State.WAIT_CRC_WITH_TAG then
      ({ c with messageLength := c.messageLength - 2,
                state := State.MESSAGE_RECEIVED_WITH_TAG }, true)
    else
      let c := if c.messageLength > MAX_MESSAGE_SIZE then
        { c with state := State.WAIT_START } else c
      ({ c with state := State.MESSAGE_RECEIVED }, true)
  else
    loopTail MESSENGER_ID MAX_MESSAGE_SIZE c dataByte

/-- The `while ((stream != NULL) && (stream->available() > 0))` loop of `loop()`
for a non-null stream holding the given bytes; returns the controller and the
bytes left unread.  (`stream->read()` returns a byte when `available() > 0`, so
the `dataByte < 0` exit is not taken.) -/
def readLoop (MESSENGER_ID MAX_MESSAGE_SIZE : Int) (c : GEPStreamController) :
    List Nat → GEPStreamController × List Nat
  | [] => (c, [])
  | dataByte :: rest =>
    if (loopBody MESSENGER_ID MAX_MESSAGE_SIZE c dataByte).2 then
      ((loopBody MESSENGER_ID MAX_MESSAGE_SIZE c dataByte).1, rest)
    else
      readLoop MESSENGER_ID MAX_MESSAGE_SIZE
        (loopBody MESSENGER_ID MAX_MESSAGE_SIZE c dataByte).1 rest

/-- Lines 254-263 of `loop()`: notify a new message without a tag. -/
def notifyNoTag (c : GEPStreamController) : GEPStreamController × List Call :=
  if c.state = State.MESSAGE_RECEIVED then
    if c.messageReceivedEvent then
      let c := { c with message := c.message.set c.messageLength.toNat 0 }
      ({ c with state := State.WAIT_START }, [⟨c.message, c.messageLength, -1⟩])
    else
      ({ c with state := State.WAIT_START }, [])
  else
    (c, [])

/-- Lines 265-278 of `loop()`: notify a new message with a tag.  The tag is an
`unsigned int` (16 bits on the AVR target). -/
def notifyWithTag (c : GEPStreamController) : GEPStreamController × List Call :=
  if c.state = State.MESSAGE_RECEIVED_WITH_TAG then
    if c.messageReceivedEvent then
      let tag := (c.message.getD c.messageLength.toNat 0 * 256
        + c.message.getD (c.messageLength.toNat + 1) 0) % 65536
      let c := { c with message := c.message.set c.messageLength.toNat 0 }
      ({ c with state := State.WAIT_START }, [⟨c.message, c.messageLength, (tag : Int)⟩])
    else
      ({ c with state := State.WAIT_START }, [])
  else
    (c, [])

/-- Function `loop()` on a stream whose readable bytes are `input`: the new
controller, the bytes left unread and the callback invocations made. -/
def loop (MESSENGER_ID MAX_MESSAGE_SIZE : Int) (c : GEPStreamController)
    (input : List Nat) : GEPStreamController × List Nat × List Call :=
  let r := if c.stream then readLoop MESSENGER_ID MAX_MESSAGE_SIZE c input else (c, input)
  let n1 := notifyNoTag r.1
  let n2 := notifyWithTag n1.1
  (n2.1, r.2, n1.2 ++ n2.2)

/-- Calling `loop()` again and again while the stream still holds unread bytes
(at most `fuel` times): the final controller and all callback invocations. -/
def loopUntilConsumed (MESSENGER_ID MAX_MESSAGE_SIZE : Int) :
    Nat → GEPStreamController → List Nat → GEPStreamController × List Call
  | 0, c, _ => (c, [])
  | _ + 1, c, [] => (c, [])
  | fuel + 1, c, b :: input =>
    let r := loop MESSENGER_ID MAX_MESSAGE_SIZE c (b :: input)
    let q := loopUntilConsumed MESSENGER_ID MAX_MESSAGE_SIZE fuel r.1 r.2.1
    (q.1, r.2.2 ++ q.2)

/-- The receiver's test of a well formed data byte (lines 192 and 230):
`inByte / 16 == ((inByte ^ 0x0F) & 0x0F)`. -/
def wellFormed (dataByte : Nat) : Prop :=
  (dataByte % 256) / 16 = (((dataByte % 256) ^^^ 0x0F) &&& 0x0F)

instance (b : Nat) : Decidable (wellFormed b) := by unfold wellFormed; infer_instance

/-- The CRC the receiver computes in the CRC states (lines 156-157). -/
def expectedCRC (c : GEPStreamController) : Nat :=
  computeCRC8 (computeCRC8 0 [c.messageDestinationId]) (c.message.take c.messageLength.toNat)

/-- The receive buffer after the bytes `bytes` have been stored at the
positions `k`, `k+1`, ... (one `message[messageLength]` store and one
`message[messageLength-1] +=` per byte). -/
def storeBytes (m : List Nat) (k : Nat) : List Nat → List Nat
  | [] => m
  | b :: bs => storeBytes (m.set k (b % 256)) (k + 1) bs

/-- The byte `ENC(x) = (x << 4) | (x XOR 0x0F)` of the frame description. -/
def ENC (x : Nat) : Nat := (x <<< 4) ||| (x ^^^ 0x0F)

/-- The frame layout in the words of the specification: start byte, encoded
destination id, the two encoded nibbles of every payload byte, then the end
byte or the four encoded tag nibbles and the end-with-tag byte, then the CRC
(seed 0) over the raw bytes. -/
def frameLayout (d : Nat) (p : List Nat) (t : Int) : List Nat :=
  let d' := if d < 16 then d else 0
  let hi := (t / 256).toNat
  let lo := (t % 256).toNat
  [0x0C, ENC d'] ++ p.flatMap (fun b => [ENC (b / 16), ENC (b % 16)])
    ++ (if t < 0 then [0x03]
        else [ENC (hi / 16), ENC (hi % 16), ENC (lo / 16), ENC (lo % 16), 0x06])
    ++ [computeCRC8 0 ([d'] ++ p ++ (if t < 0 then [] else [hi, lo]))]

/-- The receive buffer of the build `GEPStreamController<0, 50>` (52 bytes), zeroed. -/
def buffer52 : List Nat := List.replicate 52 0

/-- The controller of the build (`GEPStreamController<0, 50>`) after the
constructor, `setStream` and the assignment of `messageReceivedEvent`. -/
def controller_1 : GEPStreamController :=
  { GEPStreamController.new buffer52 with stream := true, messageReceivedEvent := true }

/-- What the callback can observe of an invocation: the `messageLength` bytes
the pointer designates, the length and the tag. -/
def Call.observe (call : Call) : List Nat × Int × Int :=
  (call.message.take call.messageLength.toNat, call.messageLength, call.messageTag)

/-- Number of leading buffer bytes that belong to the frame in reconstruction
(payload bytes, and the two tag bytes still to be read out after a tagged frame
has been accepted). -/
def GEPStreamController.extent (c : GEPStreamController) : Nat :=
  if c.state = State.MESSAGE_RECEIVED_WITH_TAG then (c.messageLength + 2).toNat
  else c.messageLength.toNat

/-- Two receivers are in the same position of the same frame: same stream and
callback settings, same state, buffers of the same size and, unless they wait
for a start byte or a destination id, the same destination id, length and
frame bytes.  Bytes of the buffers beyond the frame may differ. -/
def sameFrame (c1 c2 : GEPStreamController) : Prop :=
  c1.stream = c2.stream ∧ c1.messageReceivedEvent = c2.messageReceivedEvent ∧
  c1.state = c2.state ∧ c1.message.length = c2.message.length ∧
  (c1.state = State.WAIT_START ∨ c1.state = State.WAIT_DESTINATION_ID ∨
    (c1.messageDestinationId = c2.messageDestinationId ∧
      c1.messageLength = c2.messageLength ∧
      c1.message.take c1.extent = c2.message.take c1.extent ∧
      (c1.state = State.WAIT_CRC_WITH_TAG → 2 ≤ c1.messageLength) ∧
      (c1.state = State.MESSAGE_RECEIVED_WITH_TAG → 0 ≤ c1.messageLength)))

/-- The notification part of `loop()` (lines 254-278). -/
def notify (c : GEPStreamController) : GEPStreamController × List Call :=
  ((notifyWithTag (notifyNoTag c).1).1, (notifyNoTag c).2 ++ (notifyWithTag (notifyNoTag c).1).2)

/-- A receiver of the build that has read the start byte, destination id 0, the
payload byte `0xAC` and the end byte, and now waits for the CRC of that frame,
which is `0x0C`. -/
def crcIsStartByte : GEPStreamController :=
  { stream := true, messageDestinationId := 0, message := 0xAC :: List.replicate 51 0,
    messageLength := 1, state := State.WAIT_CRC, messageReceivedEvent := true }

/-- One round of the CRC shift register on the combined value `crc ^ inByte`. -/
def crcShift (x : Nat) : Nat :=
  if x &&& 0x01 ≠ 0 then (x >>> 1) ^^^ 0x8C else x >>> 1

/-- Inverse of `crcShift` on bytes. -/
def crcUnshift (y : Nat) : Nat :=
  if y &&& 0x80 ≠ 0 then (((y ^^^ 0x8C) <<< 1) ||| 1) else y <<< 1

/-- A receiver of the build waiting for the CRC of the frame (destination 2,
payload "AB"). -/
def waitingForCrc : GEPStreamController :=
  { stream := true, messageDestinationId := 2, message := 0x41 :: 0x42 :: List.replicate 50 0,
    messageLength := 2, state := State.WAIT_CRC, messageReceivedEvent := true }

end acp_messenger_gep_stream

namespace acp_private

/-- Looper state `DISABLED`. -/
def DISABLED : Nat := 0
/-- Looper state `ENABLED`. -/
def ENABLED : Nat := 1
/-- Looper state `EXECUTED_ENABLED`. -/
def EXECUTED_ENABLED : Nat := 2
/-- Looper state `EXECUTED_DISABLED`. -/
def EXECUTED_DISABLED : Nat := 3

/-- Number of values of an `unsigned long` (32 bits on the AVR target). -/
def ULONG_RANGE : Nat := 2 ^ 32

/-- Looper record (`struct Looper`).  The `handler` field is constant; the
handlers are given separately, by looper index. -/
structure Looper where
  nextCall : Nat
  state : Nat
  deriving DecidableEq, Repr

/-- The global scheduler tables: `loopers[LOOPERS_COUNT]`, `pq[LOOPERS_COUNT]`
(a pointer `loopers + i` is the index `i`), `pqSize` and `now`. -/
structure Scheduler where
  loopers : List Looper
  pq : List Nat
  pqSize : Int
  now : Nat
  deriving DecidableEq, Repr

/-- A call of `acp::enableLooper(id)` or `acp::disableLooper(id)`. -/
inductive LooperCall where
  | enable (looperId : Nat)
  | disable (looperId : Nat)
  deriving DecidableEq, Repr

/-- What one invocation of a looper handler does, as far as the scheduler is
concerned: the new state of the rest of the program, the calls of
`enableLooper` / `disableLooper` it makes, in order, and the delay it returns. -/
structure HandlerRun (W : Type) where
  world : W
  calls : List LooperCall
  result : Nat

/-- The handlers of the loopers, by looper index, as functions of the state `W`
of the rest of the program. -/
abbrev Handlers (W : Type) := Nat → W → HandlerRun W

/-- The loop `while (*readPos != looper) readPos++` on the part of `pq` that
starts at index `readPos`; `none` when the loop runs past the array. -/
def findLooper (looper : Nat) : List Nat → Nat → Option Nat
  | [], _ => none
  | p :: rest, readPos =>
    if p ≠ looper then findLooper looper rest (readPos + 1) else some readPos

/-- The loop `while (readPos != end) { *writePos = *readPos; writePos++; readPos++; }`
with `writePos = readPos - 1`; `none` when it accesses memory outside `pq`.
The first argument bounds the number of iterations (`pq` is finite). -/
def shiftLeft : Nat → Int → List Nat → Nat → Option (List Nat)
  | 0, _, _, _ => none
  | fuel + 1, end_, pq, readPos =>
    if (readPos : Int) ≠ end_ then
      match pq[readPos]? with
      | none => none
      | some p => shiftLeft fuel end_ (pq.set (readPos - 1) p) (readPos + 1)
    else
      some pq

/-- The loop `while ((readPos != end) && ((*readPos)->nextCall <= nextCall))
{ *writePos = *readPos; writePos++; readPos++; }` with `writePos = readPos - 1`;
returns `pq` and the final `writePos`, `none` when it accesses memory outside
`pq` or `loopers`. -/
def shiftLeftWhile (loopers : List Looper) (nextCall : Nat) :
    Nat → Int → List Nat → Nat → Option (List Nat × Nat)
  | 0, _, _, _ => none
  | fuel + 1, end_, pq, readPos =>
    if (readPos : Int) ≠ end_ then
      match pq[readPos]? with
      | none => none
      | some p =>
        match loopers[p]? with
        | none => none
        | some looper =>
          if looper.nextCall ≤ nextCall then
            shiftLeftWhile loopers nextCall fuel end_ (pq.set (readPos - 1) p) (readPos + 1)
          else
            some (pq, readPos - 1)
    else
      some (pq, readPos - 1)

/-- The loop `while (writePos != pq) { *writePos = *readPos; writePos--; readPos--; }`
of `enableLooper` with `readPos = writePos - 1`; `none` when it writes outside
`pq`. -/
def shiftRight (pq : List Nat) : Nat → Option (List Nat)
  | 0 => some pq
  | readPos + 1 =>
    match pq[readPos]? with
    | none => none
    | some p =>
      if readPos + 1 < pq.length then shiftRight (pq.set (readPos + 1) p) readPos else none

end acp_private

namespace acp

open acp_private

/-- Function `enableLooper(looperId)`; `none` when it accesses memory outside
the tables. -/
def enableLooper (s : Scheduler) (looperId : Nat) : Option Scheduler :=
  match s.loopers[looperId]? with
  | none => none
  | some looper =>
    if looper.state = ENABLED ∨ looper.state = EXECUTED_ENABLED then
      some s
    else if looper.state = EXECUTED_DISABLED then
      some { s with loopers := s.loopers.set looperId { looper with state := EXECUTED_ENABLED } }
    else if s.pqSize < 0 then
      none
    else
      match shiftRight s.pq s.pqSize.toNat with
      | none => none
      | some pq =>
        if 0 < pq.length then
          some { s with
            loopers := s.loopers.set looperId { nextCall := s.now, state := ENABLED }
            pq := pq.set 0 looperId
            pqSize := s.pqSize + 1 }
        else none

/-- Function `disableLooper(looperId)`; `none` when it accesses memory outside
the tables. -/
def disableLooper (s : Scheduler) (looperId : Nat) : Option Scheduler :=
  match s.loopers[looperId]? with
  | none => none
  | some looper =>
    if looper.state = DISABLED ∨ looper.state = EXECUTED_DISABLED then
      some s
    else if looper.state = EXECUTED_ENABLED then
      some { s with loopers := s.loopers.set looperId { looper with state := EXECUTED_DISABLED } }
    else
      match findLooper looperId s.pq 0 with
      | none => none
      | some pos =>
        match shiftLeft (s.pq.length + 1) s.pqSize s.pq (pos + 1) with
        | none => none
        | some pq =>
          some { s with
            loopers := s.loopers.set looperId { looper with state := DISABLED }
            pq := pq
            pqSize := s.pqSize - 1 }

/-- The calls a handler makes, executed in order. -/
def runCalls : List LooperCall → Scheduler → Option Scheduler
  | [], s => some s
  | LooperCall.enable looperId :: calls, s =>
    match enableLooper s looperId with
    | none => none
    | some s1 => runCalls calls s1
  | LooperCall.disable looperId :: calls, s =>
    match disableLooper s looperId with
    | none => none
    | some s1 => runCalls calls s1

end acp

namespace acp_private

open acp

/-- State of a run of `processLoopers`: the scheduler tables, the state of the
rest of the program, the loopers whose handler has been invoked (in order) and
whether the function has returned. -/
structure Pass (W : Type) where
  sched : Scheduler
  world : W
  trace : List Nat
  returned : Bool

/-- One iteration of the `while (true)` loop of `processLoopers` (lines 106-147);
`none` when it accesses memory outside the tables. -/
def passIteration {W : Type} (handlers : Handlers W) (p : Pass W) : Option (Pass W) :=
  match p.sched.pq[0]? with
  | none => none
  | some activeLooper =>
    if p.sched.pqSize = 0 then
      some { p with returned := true }
    else
      match p.sched.loopers[activeLooper]? with
      | none => none
      | some looper =>
        if looper.nextCall > p.sched.now then
          some { p with returned := true }
        else
          let s := { p.sched with
            loopers := p.sched.loopers.set activeLooper { looper with state := EXECUTED_ENABLED } }
          let run := handlers activeLooper p.world
          match runCalls run.calls s with
          | none => none
          | some s =>
            match s.loopers[activeLooper]? with
            | none => none
            | some looper =>
              let looper := { looper with nextCall := (s.now + run.result) % ULONG_RANGE }
              let s := { s with loopers := s.loopers.set activeLooper looper }
              match findLooper activeLooper s.pq 0 with
              | none => none
              | some pos =>
                if looper.state = EXECUTED_ENABLED then
                  match shiftLeftWhile s.loopers looper.nextCall (s.pq.length + 1) s.pqSize
                      s.pq (pos + 1) with
                  | none => none
                  | some (pq, writePos) =>
                    some { sched := { s with
                              loopers := s.loopers.set activeLooper { looper with state := ENABLED }
                              pq := pq.set writePos activeLooper }
                           world := run.world
                           trace := p.trace ++ [activeLooper]
                           returned := false }
                else
                  match shiftLeft (s.pq.length + 1) s.pqSize s.pq (pos + 1) with
                  | none => none
                  | some pq =>
                    some { sched := { s with
                              loopers := s.loopers.set activeLooper { looper with state := DISABLED }
                              pq := pq
                              pqSize := s.pqSize - 1 }
                           world := run.world
                           trace := p.trace ++ [activeLooper]
                           returned := false }

/-- The `while (true)` loop of `processLoopers`, for at most `fuel` iterations. -/
def passLoop {W : Type} (handlers : Handlers W) : Nat → Pass W → Option (Pass W)
  | 0, p => some p
  | fuel + 1, p =>
    if p.returned then some p
    else
      match passIteration handlers p with
      | none => none
      | some p1 => passLoop handlers fuel p1

/-- Function `processLoopers()` called when `millis()` returns `millis`, run for
at most `fuel` iterations of its loop, with an empty trace. -/
def processLoopers {W : Type} (handlers : Handlers W) (millis : Nat) (fuel : Nat)
    (s : Scheduler) (w : W) : Option (Pass W) :=
  if s.pqSize = 0 then
    some { sched := s, world := w, trace := [], returned := true }
  else
    passLoop handlers fuel
      { sched := { s with now := millis % ULONG_RANGE }, world := w, trace := [], returned := false }

end acp_private

namespace acp_private

/-- The loopers in the ordering: `pq[0..pqSize)`. -/
def Scheduler.active (s : Scheduler) : List Nat :=
  s.pq.take s.pqSize.toNat

/-- The `state` field of looper `i` (`none` when `i` is not a slot). -/
def Scheduler.stateOf (s : Scheduler) (i : Nat) : Option Nat :=
  (s.loopers[i]?).map Looper.state

/-- The `nextCall` field of looper `i` (0 when `i` is not a slot). -/
def Scheduler.nextCallOf (s : Scheduler) (i : Nat) : Nat :=
  match s.loopers[i]? with
  | some looper => looper.nextCall
  | none => 0

/-- The test `(*readPos)->nextCall <= nextCall` of the reinsertion loop, as a
Boolean function of the entry of `pq`. -/
def dueBefore (loopers : List Looper) (nextCall : Nat) (p : Nat) : Bool :=
  match loopers[p]? with
  | some looper => decide (looper.nextCall ≤ nextCall)
  | none => false

/-- Consistency of the scheduler tables: `pq` has one entry per slot,
`0 ≤ pqSize ≤ LOOPERS_COUNT`, `pq[0..pqSize)` holds slot indices without
repetition, every state is one of the four state constants, and a looper is in
`pq[0..pqSize)` exactly when its state is not `DISABLED`. -/
def Scheduler.Consistent (s : Scheduler) : Prop :=
  s.pq.length = s.loopers.length ∧ 0 ≤ s.pqSize ∧ s.pqSize ≤ s.pq.length ∧
  s.active.Nodup ∧ (∀ i ∈ s.active, i < s.loopers.length) ∧
  (∀ i st, s.stateOf i = some st → st ≤ 3 ∧ (i ∈ s.active ↔ st ≠ DISABLED))

/-- The state `enableLooper` leaves a looper in, as a function of its state
before the call. -/
def enabledState (st : Nat) : Nat :=
  if st = ENABLED ∨ st = EXECUTED_ENABLED then st
  else if st = EXECUTED_DISABLED then EXECUTED_ENABLED
  else ENABLED

/-- The state `disableLooper` leaves a looper in, as a function of its state
before the call. -/
def disabledState (st : Nat) : Nat :=
  if st = DISABLED ∨ st = EXECUTED_DISABLED then st
  else if st = EXECUTED_ENABLED then EXECUTED_DISABLED
  else DISABLED

/-- Handlers that make no call of `enableLooper` / `disableLooper` and return
a positive delay that does not wrap around when added to `millis`. -/
def PlainHandlers {W : Type} (handlers : Handlers W) (millis : Nat) : Prop :=
  ∀ i w, (handlers i w).calls = [] ∧ 0 < (handlers i w).result ∧
    millis + (handlers i w).result < ULONG_RANGE

end acp_private

namespace acp_private

open acp

/-- What the program does with the scheduler outside the handlers: a call of
`processLoopers()` at the time `millis` (followed for at most `fuel` iterations
of its loop), or a call of `enableLooper` / `disableLooper`. -/
inductive Event where
  | pass (millis fuel : Nat)
  | call (c : LooperCall)
  deriving DecidableEq

/-- A sequence of events executed in order: the final tables and state of the
rest of the program, and the loopers whose handler was invoked, in order.  A
pass that has not returned when its fuel is used up ends the run. -/
def runEvents {W : Type} (handlers : Handlers W) :
    List Event → Scheduler → W → Option (Scheduler × W × List Nat)
  | [], s, w => some (s, w, [])
  | Event.pass millis fuel :: events, s, w =>
    match processLoopers handlers millis fuel s w with
    | none => none
    | some p =>
      if p.returned then
        match runEvents handlers events p.sched p.world with
        | none => none
        | some r => some (r.1, r.2.1, p.trace ++ r.2.2)
      else
        some (p.sched, p.world, p.trace)
  | Event.call c :: events, s, w =>
    match runCalls [c] s with
    | none => none
    | some s1 => runEvents handlers events s1 w

end acp_private

namespace acp_private

open acp

/-- The tables of a build with three loopers, due at 5, 3 and 7. -/
def threeLoopers : Scheduler :=
  { loopers := [⟨5, ENABLED⟩, ⟨3, ENABLED⟩, ⟨7, ENABLED⟩], pq := [1, 0, 2], pqSize := 3, now := 0 }

/-- Handlers that return the delay 10 and call nothing. -/
def delayTen : Handlers Unit := fun _ w => ⟨w, [], 10⟩

/-- Handlers of which the one of looper 1 disables its own looper. -/
def selfDisabling : Handlers Unit := fun i w =>
  if i = 1 then ⟨w, [LooperCall.disable 1], 10⟩ else ⟨w, [], 10⟩

/-- The pass state in which looper 1 of `threeLoopers` is about to run. -/
def passAtEight : Pass Unit :=
  { sched := { threeLoopers with now := 8 }, world := (), trace := [], returned := false }

end acp_private

namespace acp_messenger_gep_stream

/-- The bytes `sendMessage` reads through its `message` pointer: the first
`messageLength` bytes (none for the null pointer, which is only read when
`messageLength` is 0). -/
def payloadOf (message : Option (List Nat)) (messageLength : Int) : List Nat :=
  (message.getD []).take messageLength.toNat

/-- The two tag bytes of a frame for a tag `tag ≥ 0`: `(tag / 256) % 256` and
`tag % 256`. -/
def tagBytes (tag : Int) : List Nat :=
  [((tag / 256) % 256).toNat, ((tag % 256) % 256).toNat]

/-- The destination id `sendMessage` uses: the `uint8_t` argument, replaced by
0 when it is 16 or more. -/
def coercedId (destinationId : Nat) : Nat :=
  if destinationId % 256 ≥ 16 then 0 else destinationId % 256

/-- CRC-8/MAXIM in the words of the specification (iterative, per bit,
reflected): every data byte is XORed into the register, which is then shifted
right eight times, with `0x8C` XORed in whenever the bit shifted out is 1. -/
def crc8Maxim (crc : Nat) (data : List Nat) : Nat :=
  data.foldl (fun c b => crcShift^[8] (c ^^^ (b % 256))) crc

/-- A complete frame in the words of the specification, for the destination id
`d`, the payload `p` and the tag `tag`: the start byte `0x0C`, `ENC(d)`, the two
encoded nibbles `ENC(b / 16)`, `ENC(b % 16)` of every payload byte, then the end
byte `0x03`, or the four encoded nibbles of the two tag bytes and the
end-with-tag byte `0x06`, then the CRC-8/MAXIM (seed 0) of the raw bytes: id,
payload, tag bytes. -/
def completeFrame (d : Nat) (p : List Nat) (tag : Int) : List Nat :=
  [0x0C, ENC d] ++ p.flatMap (fun b => [ENC (b % 256 / 16), ENC (b % 256 % 16)])
    ++ (if tag < 0 then [0x03]
        else (tagBytes tag).flatMap (fun b => [ENC (b / 16), ENC (b % 16)]) ++ [0x06])
    ++ [crc8Maxim 0 ([d] ++ p ++ (if tag < 0 then [] else tagBytes tag))]

/-- A receiver (with a six byte buffer) that holds destination id 2, the payload
"AB" and the tag bytes 1, 2. -/
def taggedBody : GEPStreamController :=
  { stream := true, messageDestinationId := 2, message := [0x41, 0x42, 1, 2, 0, 0],
    messageLength := 4, state := State.WAIT_CRC_WITH_TAG, messageReceivedEvent := true }

end acp_messenger_gep_stream

namespace acp_common_timer

open acp_private

/-- The fields of `TimerController`; `tickEvent` says whether the callback
pointer is non-null. -/
structure TimerController where
  interval : Nat
  enabled : Bool
  looperId : Nat
  tickEvent : Bool
  deriving DecidableEq, Repr

/-- Method `init(interval, enabled)`: the controller afterwards and the call of
`enableLooper` / `disableLooper` it makes. -/
def TimerController.init (c : TimerController) (interval : Nat) (enabled : Bool) :
    TimerController × LooperCall :=
  let c := { c with enabled := enabled, interval := interval }
  if enabled then (c, LooperCall.enable c.looperId) else (c, LooperCall.disable c.looperId)

/-- Method `looper()`.  `tick` is what running the callback `tickEvent()` does to
this controller (the callback can reach it through the `TTimer` view).  The
result is the controller afterwards, whether the callback was invoked, and the
value returned. -/
def TimerController.looper (tick : TimerController → TimerController) (c : TimerController) :
    TimerController × Bool × Nat :=
  if c.enabled = true ∧ c.tickEvent = true then
    ((tick c), true, (tick c).interval)
  else
    (c, false, c.interval)

/-- Method `setEnabled(newEnabled)`: the controller afterwards and the call of
`enableLooper` / `disableLooper` it makes, if any. -/
def TimerController.setEnabled (c : TimerController) (newEnabled : Bool) :
    TimerController × Option LooperCall :=
  if c.enabled = newEnabled then
    (c, none)
  else
    let c := { c with enabled := newEnabled }
    if c.enabled then (c, some (LooperCall.enable c.looperId))
    else (c, some (LooperCall.disable c.looperId))

/-- Method `TTimer::setInterval(interval)` on the associated controller. -/
def TimerController.setInterval (c : TimerController) (interval : Nat) : TimerController :=
  { c with interval := interval }

/-- The controller of `cardCheckTimer` after `setup()`: `init(250ul, true)` with
`looperId = 0` and `tickEvent = onCardCheck`. -/
def controller_0 : TimerController :=
  (TimerController.init { interval := 0, enabled := false, looperId := 0, tickEvent := true }
    250 true).1

end acp_common_timer

namespace acp_private

open acp

/-- Handlers of which the one of looper 1 calls `disableLooper(1)` and then
`enableLooper(1)`. -/
def selfRestarting : Handlers Unit := fun i w =>
  if i = 1 then ⟨w, [LooperCall.disable 1, LooperCall.enable 1], 10⟩ else ⟨w, [], 10⟩

end acp_private

namespace acp_messenger_gep_stream

/-- Invariant of the receiver fields: the buffer `message` has
`MAX_MESSAGE_SIZE + 2` elements, all of them bytes, `messageLength` is between
0 and `MAX_MESSAGE_SIZE + 2`, at least 1 while the low nibble of a byte is
awaited, at least 2 while the CRC of a tagged frame is awaited, and at most
`MAX_MESSAGE_SIZE` once the two tag bytes of an accepted frame are taken off. -/
def GEPStreamController.Valid (MAX_MESSAGE_SIZE : Int) (c : GEPStreamController) : Prop :=
  (c.message.length : Int) = MAX_MESSAGE_SIZE + 2 ∧ (∀ x ∈ c.message, x < 256) ∧
  0 ≤ c.messageLength ∧ c.messageLength ≤ MAX_MESSAGE_SIZE + 2 ∧
  (c.state = State.WAIT_MESSAGE_BYTE_LOW → 1 ≤ c.messageLength) ∧
  (c.state = State.WAIT_CRC_WITH_TAG → 2 ≤ c.messageLength) ∧
  (c.state = State.MESSAGE_RECEIVED_WITH_TAG → c.messageLength ≤ MAX_MESSAGE_SIZE)

/-- The indices of `message` that lines 176-251 of `loop()` access for the byte
`dataByte`: the store `message[messageLength] = nibble * 16` (line 238) and the
update `message[messageLength-1] += nibble` (line 242). -/
def loopTailAccess (MAX_MESSAGE_SIZE : Int) (c : GEPStreamController)
    (dataByte : Nat) : List Int :=
  if dataByte = MESSAGE_START_BYTE then []
  else if c.state = State.WAIT_START then []
  else if c.state = State.WAIT_DESTINATION_ID then []
  else if c.state = State.WAIT_MESSAGE_BYTE_HIGH ∧ dataByte = MESSAGE_END_BYTE then []
  else if c.state = State.WAIT_MESSAGE_BYTE_HIGH ∧ dataByte = MESSAGE_END_WITH_TAG_BYTE then []
  else if c.state = State.WAIT_MESSAGE_BYTE_HIGH ∨ c.state = State.WAIT_MESSAGE_BYTE_LOW then
    let inByte := dataByte % 256
    let nibble := inByte / 16
    if nibble ≠ ((inByte ^^^ 0x0F) &&& 0x0F) then []
    else if c.state = State.WAIT_MESSAGE_BYTE_HIGH then
      if c.messageLength ≥ MAX_MESSAGE_SIZE + 2 then [] else [c.messageLength]
    else [c.messageLength - 1]
  else []

/-- The indices of `message` that one iteration of the `while` loop of `loop()`
accesses: in the CRC states `computeCRC8` reads `message[0..messageLength)`
(line 157); the rest is `loopTailAccess`. -/
def loopBodyAccess (MAX_MESSAGE_SIZE : Int) (c : GEPStreamController)
    (dataByte : Nat) : List Int :=
  if c.state = State.WAIT_START ∧ dataByte ≠ MESSAGE_START_BYTE then
    []
  else if c.state = State.WAIT_CRC ∨ c.state = State.WAIT_CRC_WITH_TAG then
    let crcInitialValue := computeCRC8 0 [c.messageDestinationId]
    (List.range c.messageLength.toNat).map Int.ofNat ++
      (if dataByte ≠ computeCRC8 crcInitialValue (c.message.take c.messageLength.toNat) then
        loopTailAccess MAX_MESSAGE_SIZE { c with state := State.WAIT_START } dataByte
      else [])
  else
    loopTailAccess MAX_MESSAGE_SIZE c dataByte

/-- The indices of `message` accessed by the `while` loop of `loop()` on the
given readable bytes. -/
def readLoopAccess (MESSENGER_ID MAX_MESSAGE_SIZE : Int) (c : GEPStreamController) :
    List Nat → List Int
  | [] => []
  | dataByte :: rest =>
    loopBodyAccess MAX_MESSAGE_SIZE c dataByte ++
      (if (loopBody MESSENGER_ID MAX_MESSAGE_SIZE c dataByte).2 then []
       else readLoopAccess MESSENGER_ID MAX_MESSAGE_SIZE
        (loopBody MESSENGER_ID MAX_MESSAGE_SIZE c dataByte).1 rest)

/-- The index of `message` written by lines 254-263 of `loop()`: the store
`message[messageLength] = 0` (line 258). -/
def notifyNoTagAccess (c : GEPStreamController) : List Int :=
  if c.state = State.MESSAGE_RECEIVED then
    if c.messageReceivedEvent then [c.messageLength] else []
  else []

/-- The indices of `message` accessed by lines 265-278 of `loop()`: the reads
`tagStart[0]`, `tagStart[1]` (lines 268-269) and the store
`message[messageLength] = 0` (line 272). -/
def notifyWithTagAccess (c : GEPStreamController) : List Int :=
  if c.state = State.MESSAGE_RECEIVED_WITH_TAG then
    if c.messageReceivedEvent then [c.messageLength, c.messageLength + 1, c.messageLength]
    else []
  else []

/-- A payload of 52 bytes, two more than `MAX_MESSAGE_SIZE` of the build. -/
def payload52 : List Nat := List.replicate 52 0x41

end acp_messenger_gep_stream

namespace acp_private

open acp

/-- The slot index a call of `enableLooper` / `disableLooper` is made with. -/
def LooperCall.slot : LooperCall → Nat
  | LooperCall.enable looperId => looperId
  | LooperCall.disable looperId => looperId

/-- Well-formed scheduler tables: `pq` has one entry per slot,
`0 ≤ pqSize ≤ LOOPERS_COUNT`, every looper's state is `ENABLED` or `DISABLED`,
and `pq[0..pqSize)` lists exactly the `ENABLED` loopers, each exactly once. -/
def Scheduler.WellFormed (s : Scheduler) : Prop :=
  s.pq.length = s.loopers.length ∧ 0 ≤ s.pqSize ∧ s.pqSize ≤ s.pq.length ∧
  (∀ i st, s.stateOf i = some st → st = ENABLED ∨ st = DISABLED) ∧
  s.active.Nodup ∧ (∀ i, i ∈ s.active ↔ s.stateOf i = some ENABLED)

/-- The slots whose looper is `ENABLED`, in slot order. -/
def Scheduler.enabledSlots (s : Scheduler) : List Nat :=
  (List.range s.loopers.length).filter (fun i => decide (s.stateOf i = some ENABLED))

/-- Handlers of three loopers that call `enableLooper` and `disableLooper` on
other slots and on their own. -/
def crossCalling : Handlers Unit := fun i w =>
  if i = 0 then ⟨w, [LooperCall.disable 1, LooperCall.enable 2, LooperCall.disable 0], 10⟩
  else if i = 1 then ⟨w, [LooperCall.disable 1, LooperCall.enable 1, LooperCall.disable 2], 4⟩
  else ⟨w, [LooperCall.enable 0, LooperCall.enable 1], 6⟩

end acp_private

namespace acp_private

open acp

/-- Tables of a build with three loopers: loopers 0 and 1 are enabled, due at 3
and 5, looper 2 is disabled. -/
def twoOfThree : Scheduler :=
  { loopers := [⟨3, ENABLED⟩, ⟨5, ENABLED⟩, ⟨0, DISABLED⟩], pq := [0, 1, 2], pqSize := 2,
    now := 0 }

end acp_private

namespace acp_private

open acp

/-- The loopers of `pq[0..pqSize)` appear in ascending (non-decreasing) order
of `nextCall`. -/
def Scheduler.Ascending (s : Scheduler) : Prop :=
  s.active.Pairwise (fun i j => s.nextCallOf i ≤ s.nextCallOf j)

instance (s : Scheduler) : Decidable s.Ascending := by
  unfold Scheduler.Ascending
  infer_instance

/-- Handlers of which the one of looper 0 calls `enableLooper(2)`; all return
the delay 10. -/
def lateStarter : Handlers Unit := fun i w =>
  if i = 0 then ⟨w, [LooperCall.enable 2], 10⟩ else ⟨w, [], 10⟩

/-- The tables `twoOfThree` at the time 4, when looper 0 (due at 3) is the only
looper of the ordering with `nextCall < now`. -/
def twoOfThreeAtFour : Scheduler := { twoOfThree with now := 4 }

end acp_private

namespace acp_private

open acp

/-- The ordering `pq[0..pqSize)` between two iterations of a pass: first the
loopers due at `now` or before, in any order, then the loopers due later, in
ascending order of `nextCall`. -/
def Scheduler.DueFirst (s : Scheduler) : Prop :=
  ∃ D F, s.active = D ++ F ∧ (∀ j ∈ D, s.nextCallOf j ≤ s.now) ∧
    (∀ j ∈ F, s.now < s.nextCallOf j) ∧
    F.Pairwise (fun i j => s.nextCallOf i ≤ s.nextCallOf j)

end acp_private

namespace acp_messenger_gep_stream

theorem encodeNibble_facts : ∀ n < 16,
    encodeNibble n < 256 ∧ encodeNibble n / 16 = n ∧ wellFormed (encodeNibble n) ∧
      encodeNibble n ≠ MESSAGE_START_BYTE ∧ encodeNibble n ≠ MESSAGE_END_BYTE ∧
      encodeNibble n ≠ MESSAGE_END_WITH_TAG_BYTE := by
  decide

theorem flipped_facts : ∀ n < 16, ∀ i < 8,
    ¬ wellFormed (encodeNibble n ^^^ 2 ^ i) ∧
      (encodeNibble n ^^^ 2 ^ i) ≠ MESSAGE_START_BYTE ∧
      (encodeNibble n ^^^ 2 ^ i) ≠ MESSAGE_END_BYTE ∧
      (encodeNibble n ^^^ 2 ^ i) ≠ MESSAGE_END_WITH_TAG_BYTE := by
  decide

theorem readLoop_cons_continue (ID MAX : Int) (c : GEPStreamController) (b : Nat)
    (rest : List Nat) (h : (loopBody ID MAX c b).2 = false) :
    readLoop ID MAX c (b :: rest) = readLoop ID MAX (loopBody ID MAX c b).1 rest := by
  simp [readLoop, h]

theorem readLoop_cons_break (ID MAX : Int) (c : GEPStreamController) (b : Nat)
    (rest : List Nat) (h : (loopBody ID MAX c b).2 = true) :
    readLoop ID MAX c (b :: rest) = ((loopBody ID MAX c b).1, rest) := by
  simp [readLoop, h]

theorem readLoop_wait_start (ID MAX : Int) (c : GEPStreamController)
    (hs : c.state = State.WAIT_START) (bs : List Nat)
    (hb : ∀ b ∈ bs, b ≠ MESSAGE_START_BYTE) :
    readLoop ID MAX c bs = (c, []) := by
  induction bs with
  | nil => rfl
  | cons b rest ih =>
    have hb0 : b ≠ MESSAGE_START_BYTE := hb b (by simp)
    have h1 : loopBody ID MAX c b = (c, false) := by
      simp [loopBody, hs, hb0]
    rw [readLoop_cons_continue _ _ _ _ _ (by rw [h1]), h1]
    exact ih (fun x hx => hb x (by simp [hx]))

theorem loop_of_readLoop (ID MAX : Int) (c c1 : GEPStreamController) (input rest : List Nat)
    (hstream : c.stream = true) (h : readLoop ID MAX c input = (c1, rest))
    (h1 : c1.state ≠ State.MESSAGE_RECEIVED) (h2 : c1.state ≠ State.MESSAGE_RECEIVED_WITH_TAG) :
    loop ID MAX c input = (c1, rest, []) := by
  simp [loop, hstream, h, notifyNoTag, notifyWithTag, h1, h2]

theorem loop_reject (ID MAX : Int) (c c1 : GEPStreamController) (b : Nat) (rest : List Nat)
    (hstream : c.stream = true) (h : loopBody ID MAX c b = (c1, false))
    (hc1 : c1.state = State.WAIT_START) (hrest : ∀ x ∈ rest, x ≠ MESSAGE_START_BYTE) :
    loop ID MAX c (b :: rest) = (c1, [], []) := by
  apply loop_of_readLoop _ _ _ _ _ _ hstream
  · rw [readLoop_cons_continue _ _ _ _ _ (by rw [h]), h]
    exact readLoop_wait_start ID MAX c1 hc1 rest hrest
  · rw [hc1]; decide
  · rw [hc1]; decide

theorem loopBody_destination (ID MAX : Int) (c : GEPStreamController) (d : Nat) (hd : d < 16)
    (hs : c.state = State.WAIT_DESTINATION_ID) :
    loopBody ID MAX c (encodeNibble d) =
      if ID > 0 ∧ (d > 0 ∧ (d : Int) ≠ ID) then
        ({ c with messageDestinationId := d, state := State.WAIT_START }, false)
      else
        ({ c with messageDestinationId := d, state := State.WAIT_MESSAGE_BYTE_HIGH,
                  messageLength := 0 }, false) := by
  obtain ⟨h256, hdiv, hwf, hst, -, -⟩ := encodeNibble_facts d hd
  unfold wellFormed at hwf
  rw [Nat.mod_eq_of_lt h256] at hwf
  simp only [loopBody, loopTail, hs, hst, Nat.mod_eq_of_lt h256, hdiv, ← hwf]
  simp

/-- Claim C3 (addressing).  A receiver in `WAIT_DESTINATION_ID` reads the well formed id
byte `ENC(d)`, `d < 16`, with `MESSENGER_ID ≥ 0`.  If `MESSENGER_ID = 0`, `d = 0` or `d =
MESSENGER_ID` the state becomes `WAIT_MESSAGE_BYTE_HIGH` with `messageLength = 0` and
`messageDestinationId = d`; otherwise the state becomes `WAIT_START`, and as long as no
start byte follows, `loop()` reads the following bytes without invoking the callback. -/
theorem addressing (ID MAX : Int) (c : GEPStreamController) (d : Nat) (hd : d < 16)
    (hs : c.state = State.WAIT_DESTINATION_ID) (hID : 0 ≤ ID) :
    ((ID = 0 ∨ d = 0 ∨ (d : Int) = ID) →
      loopBody ID MAX c (encodeNibble d) =
        ({ c with messageDestinationId := d, state := State.WAIT_MESSAGE_BYTE_HIGH,
                  messageLength := 0 }, false)) ∧
    (¬ (ID = 0 ∨ d = 0 ∨ (d : Int) = ID) →
      loopBody ID MAX c (encodeNibble d) =
        ({ c with messageDestinationId := d, state := State.WAIT_START }, false) ∧
      (c.stream = true → ∀ rest : List Nat, (∀ x ∈ rest, x ≠ MESSAGE_START_BYTE) →
        loop ID MAX c (encodeNibble d :: rest) =
          ({ c with messageDestinationId := d, state := State.WAIT_START }, [], []))) := by
  have key := loopBody_destination ID MAX c d hd hs
  constructor
  · intro hacc
    rw [key, if_neg]
    rintro ⟨h1, h2, h3⟩
    rcases hacc with h | h | h
    · omega
    · omega
    · exact h3 h
  · intro hrej
    have hcond : ID > 0 ∧ (d > 0 ∧ (d : Int) ≠ ID) := by
      refine ⟨?_, ?_, ?_⟩
      · rcases lt_or_eq_of_le hID with h | h
        · exact h
        · exact absurd h.symm (fun h0 => hrej (Or.inl h0))
      · exact Nat.pos_of_ne_zero (fun h0 => hrej (Or.inr (Or.inl h0)))
      · exact fun h0 => hrej (Or.inr (Or.inr h0))
    rw [key, if_pos hcond]
    refine ⟨rfl, fun hstream rest hrest => ?_⟩
    exact loop_reject ID MAX c _ _ rest hstream (by rw [key, if_pos hcond]) rfl hrest

/-- Claim C3 at identity 2 and destination id 2. -/
theorem addressing_witness :
    loopBody 2 50 { GEPStreamController.new (List.replicate 52 0) with
        state := State.WAIT_DESTINATION_ID } (encodeNibble 2) =
      ({ GEPStreamController.new (List.replicate 52 0) with
        messageDestinationId := 2, state := State.WAIT_MESSAGE_BYTE_HIGH }, false) :=
  (addressing 2 50 { GEPStreamController.new (List.replicate 52 0) with
    state := State.WAIT_DESTINATION_ID } 2 (by decide) rfl (by decide)).1 (by decide)

theorem loopTail_snd (ID MAX : Int) (c : GEPStreamController) (b : Nat) :
    (loopTail ID MAX c b).2 = false := by
  unfold loopTail
  dsimp only
  split_ifs <;> rfl

theorem loopTail_state (ID MAX : Int) (c : GEPStreamController) (b : Nat) :
    (loopTail ID MAX c b).1.state = c.state ∨
    (loopTail ID MAX c b).1.state = State.WAIT_START ∨
    (loopTail ID MAX c b).1.state = State.WAIT_DESTINATION_ID ∨
    (loopTail ID MAX c b).1.state = State.WAIT_MESSAGE_BYTE_HIGH ∨
    (loopTail ID MAX c b).1.state = State.WAIT_MESSAGE_BYTE_LOW ∨
    (loopTail ID MAX c b).1.state = State.WAIT_CRC ∨
    (loopTail ID MAX c b).1.state = State.WAIT_CRC_WITH_TAG := by
  unfold loopTail
  dsimp only
  split_ifs <;> simp

theorem loopTail_not_received (ID MAX : Int) (c : GEPStreamController) (b : Nat)
    (h1 : c.state ≠ State.MESSAGE_RECEIVED) (h2 : c.state ≠ State.MESSAGE_RECEIVED_WITH_TAG) :
    (loopTail ID MAX c b).2 = false ∧
    (loopTail ID MAX c b).1.state ≠ State.MESSAGE_RECEIVED ∧
    (loopTail ID MAX c b).1.state ≠ State.MESSAGE_RECEIVED_WITH_TAG := by
  refine ⟨loopTail_snd ID MAX c b, ?_, ?_⟩ <;>
  · rcases loopTail_state ID MAX c b with h | h | h | h | h | h | h <;> rw [h] <;>
      first | assumption | decide

theorem loopBody_cases (ID MAX : Int) (c : GEPStreamController) (b : Nat)
    (h1 : c.state ≠ State.MESSAGE_RECEIVED) (h2 : c.state ≠ State.MESSAGE_RECEIVED_WITH_TAG) :
    ((loopBody ID MAX c b).2 = false ∧
      (loopBody ID MAX c b).1.state ≠ State.MESSAGE_RECEIVED ∧
      (loopBody ID MAX c b).1.state ≠ State.MESSAGE_RECEIVED_WITH_TAG) ∨
    ((loopBody ID MAX c b).2 = true ∧
      (c.state = State.WAIT_CRC ∨ c.state = State.WAIT_CRC_WITH_TAG) ∧ b = expectedCRC c ∧
      ((loopBody ID MAX c b).1.state = State.MESSAGE_RECEIVED ∨
        (loopBody ID MAX c b).1.state = State.MESSAGE_RECEIVED_WITH_TAG)) := by
  have t1 := loopTail_not_received ID MAX c b h1 h2
  have t2 := loopTail_not_received ID MAX { c with state := State.WAIT_START } b
    (by simp) (by simp)
  by_cases g1 : c.state = State.WAIT_START ∧ b ≠ MESSAGE_START_BYTE
  · left
    rw [loopBody, if_pos g1]
    exact ⟨rfl, h1, h2⟩
  · by_cases g2 : c.state = State.WAIT_CRC ∨ c.state = State.WAIT_CRC_WITH_TAG
    · by_cases g3 : b = expectedCRC c
      · right
        refine ⟨?_, g2, g3, ?_⟩
        · rw [loopBody, if_neg g1, if_pos g2]
          unfold expectedCRC at g3
          simp only [ne_eq, g3, not_true_eq_false, if_false]
          split_ifs <;> rfl
        · rw [loopBody, if_neg g1, if_pos g2]
          unfold expectedCRC at g3
          simp only [ne_eq, g3, not_true_eq_false, if_false]
          split_ifs <;> simp
      · left
        rw [loopBody, if_neg g1, if_pos g2]
        unfold expectedCRC at g3
        simp only [ne_eq, g3, not_false_eq_true, if_true]
        exact t2
    · left
      rw [loopBody, if_neg g1, if_neg g2]
      exact t1

theorem loopBody_received (ID MAX : Int) (c : GEPStreamController) (b : Nat)
    (h1 : c.state ≠ State.MESSAGE_RECEIVED) (h2 : c.state ≠ State.MESSAGE_RECEIVED_WITH_TAG)
    (h : (loopBody ID MAX c b).2 = true ∨
      (loopBody ID MAX c b).1.state = State.MESSAGE_RECEIVED ∨
      (loopBody ID MAX c b).1.state = State.MESSAGE_RECEIVED_WITH_TAG) :
    (c.state = State.WAIT_CRC ∨ c.state = State.WAIT_CRC_WITH_TAG) ∧ b = expectedCRC c := by
  rcases loopBody_cases ID MAX c b h1 h2 with ⟨a1, a2, a3⟩ | ⟨_, a2, a3, _⟩
  · rcases h with h | h | h
    · rw [a1] at h; exact absurd h (by decide)
    · exact absurd h a2
    · exact absurd h a3
  · exact ⟨a2, a3⟩

theorem readLoop_received (ID MAX : Int) (input : List Nat) :
    ∀ c : GEPStreamController,
    c.state ≠ State.MESSAGE_RECEIVED → c.state ≠ State.MESSAGE_RECEIVED_WITH_TAG →
    ((readLoop ID MAX c input).1.state = State.MESSAGE_RECEIVED ∨
      (readLoop ID MAX c input).1.state = State.MESSAGE_RECEIVED_WITH_TAG) →
    ∃ (pre : List Nat) (b : Nat) (c0 : GEPStreamController),
      input = pre ++ b :: (readLoop ID MAX c input).2 ∧
      readLoop ID MAX c pre = (c0, []) ∧
      (c0.state = State.WAIT_CRC ∨ c0.state = State.WAIT_CRC_WITH_TAG) ∧
      b = expectedCRC c0 ∧ (readLoop ID MAX c input).1 = (loopBody ID MAX c0 b).1 := by
  induction input with
  | nil =>
    intro c h1 h2 h
    simp only [readLoop] at h
    rcases h with h | h
    · exact absurd h h1
    · exact absurd h h2
  | cons b rest ih =>
    intro c h1 h2 h
    rcases loopBody_cases ID MAX c b h1 h2 with ⟨a1, a2, a3⟩ | ⟨a1, a2, a3, _⟩
    · rw [readLoop_cons_continue _ _ _ _ _ a1] at h ⊢
      obtain ⟨pre, x, c0, e1, e2, e3, e4, e5⟩ := ih _ a2 a3 h
      refine ⟨b :: pre, x, c0, ?_, ?_, e3, e4, e5⟩
      · rw [List.cons_append, ← e1]
      · rw [readLoop_cons_continue _ _ _ _ _ a1, e2]
    · rw [readLoop_cons_break _ _ _ _ _ a1]
      exact ⟨[], b, c, rfl, rfl, a2, a3, rfl⟩

theorem loop_calls_of_ne_nil (ID MAX : Int) (c : GEPStreamController) (input : List Nat)
    (h1 : c.state ≠ State.MESSAGE_RECEIVED) (h2 : c.state ≠ State.MESSAGE_RECEIVED_WITH_TAG)
    (h : (loop ID MAX c input).2.2 ≠ []) :
    c.stream = true ∧ (loop ID MAX c input).2.1 = (readLoop ID MAX c input).2 ∧
    ((readLoop ID MAX c input).1.state = State.MESSAGE_RECEIVED ∨
      (readLoop ID MAX c input).1.state = State.MESSAGE_RECEIVED_WITH_TAG) := by
  by_cases hs : c.stream = true
  · refine ⟨hs, by simp [loop, hs], ?_⟩
    by_contra hn
    push_neg at hn
    apply h
    simp [loop, hs, notifyNoTag, notifyWithTag, hn.1, hn.2]
  · exfalso
    apply h
    simp [loop, hs, notifyNoTag, notifyWithTag, h1, h2]

/-- Claim C6 (checksum mismatch).  A receiver in `WAIT_CRC` or `WAIT_CRC_WITH_TAG` that
reads a byte different from `computeCRC8(computeCRC8(0, [messageDestinationId]),
message[0..messageLength))` and from the start byte is left in `WAIT_START`, and `loop()`
invokes no callback for it and for the following bytes up to the next start byte.
Conversely, whenever a call of `loop()` invokes the callback, the last byte it read was read
in `WAIT_CRC` or `WAIT_CRC_WITH_TAG` and is equal to that computed CRC. -/
theorem checksum_mismatch (ID MAX : Int) (c : GEPStreamController) :
    (∀ b : Nat, (c.state = State.WAIT_CRC ∨ c.state = State.WAIT_CRC_WITH_TAG) →
      b ≠ expectedCRC c → b ≠ MESSAGE_START_BYTE →
      loopBody ID MAX c b = ({ c with state := State.WAIT_START }, false) ∧
      (c.stream = true → ∀ rest : List Nat, (∀ x ∈ rest, x ≠ MESSAGE_START_BYTE) →
        loop ID MAX c (b :: rest) = ({ c with state := State.WAIT_START }, [], []))) ∧
    (∀ input : List Nat,
      c.state ≠ State.MESSAGE_RECEIVED → c.state ≠ State.MESSAGE_RECEIVED_WITH_TAG →
      (loop ID MAX c input).2.2 ≠ [] →
      ∃ (pre : List Nat) (b : Nat) (c0 : GEPStreamController),
        input = pre ++ b :: (loop ID MAX c input).2.1 ∧
        readLoop ID MAX c pre = (c0, []) ∧
        (c0.state = State.WAIT_CRC ∨ c0.state = State.WAIT_CRC_WITH_TAG) ∧
        b = expectedCRC c0) := by
  constructor
  · intro b hs hb hst
    have key : loopBody ID MAX c b = ({ c with state := State.WAIT_START }, false) := by
      have g1 : ¬ (c.state = State.WAIT_START ∧ b ≠ MESSAGE_START_BYTE) := by
        rintro ⟨g, -⟩
        rcases hs with hs | hs <;> rw [g] at hs <;> exact absurd hs (by decide)
      unfold expectedCRC at hb
      rw [loopBody, if_neg g1, if_pos hs]
      simp only [ne_eq, hb, not_false_eq_true, if_true]
      simp [loopTail, hst]
    exact ⟨key, fun hstream rest hrest => loop_reject ID MAX c _ b rest hstream key rfl hrest⟩
  · intro input h1 h2 h
    obtain ⟨_, e1, e2⟩ := loop_calls_of_ne_nil ID MAX c input h1 h2 h
    obtain ⟨pre, b, c0, f1, f2, f3, f4, _⟩ := readLoop_received ID MAX input c h1 h2 e2
    exact ⟨pre, b, c0, by rw [e1]; exact f1, f2, f3, f4⟩

theorem crcBit_fst_lt (p : Nat × Nat) (h : p.1 < 256) : (crcBit p).1 < 256 := by
  unfold crcBit
  have h1 : p.1 >>> 1 < 2 ^ 8 := by
    rw [Nat.shiftRight_eq_div_pow]; omega
  dsimp only
  split_ifs
  · exact Nat.xor_lt_two_pow h1 (by norm_num)
  · exact h1

theorem crcBit_iterate_fst_lt (k : Nat) (p : Nat × Nat) (h : p.1 < 256) :
    (crcBit^[k] p).1 < 256 := by
  induction k generalizing p with
  | zero => simpa using h
  | succ k ih =>
    rw [Function.iterate_succ_apply]
    exact ih _ (crcBit_fst_lt p h)

theorem crcByte_lt (crc b : Nat) (h : crc < 256) : crcByte crc b < 256 :=
  crcBit_iterate_fst_lt 8 _ h

theorem crcLoop_lt (data : List Nat) : ∀ crc, crc < 256 → crcLoop crc data < 256 := by
  induction data with
  | nil => intro crc h; exact h
  | cons b rest ih => intro crc h; exact ih _ (crcByte_lt crc b h)

theorem computeCRC8_lt (crc : Nat) (data : List Nat) : computeCRC8 crc data < 256 :=
  crcLoop_lt data _ (Nat.mod_lt _ (by norm_num))

theorem crcLoop_append (a b : List Nat) : ∀ crc, crcLoop crc (a ++ b) = crcLoop (crcLoop crc a) b := by
  induction a with
  | nil => intro crc; rfl
  | cons x rest ih => intro crc; exact ih _

theorem computeCRC8_append (s : Nat) (a b : List Nat) :
    computeCRC8 (computeCRC8 s a) b = computeCRC8 s (a ++ b) := by
  unfold computeCRC8
  rw [crcLoop_append, Nat.mod_eq_of_lt (crcLoop_lt a _ (Nat.mod_lt _ (by norm_num)))]

theorem loopBody_start (ID MAX : Int) (c : GEPStreamController)
    (h1 : c.state ≠ State.WAIT_CRC) (h2 : c.state ≠ State.WAIT_CRC_WITH_TAG) :
    loopBody ID MAX c MESSAGE_START_BYTE = ({ c with state := State.WAIT_DESTINATION_ID }, false) := by
  simp [loopBody, loopTail, h1, h2]

theorem loopBody_high (ID MAX : Int) (s : Bool) (d : Nat) (m : List Nat) (k : Int) (e : Bool)
    (n : Nat) (hn : n < 16) (hk : k < MAX + 2) :
    loopBody ID MAX ⟨s, d, m, k, State.WAIT_MESSAGE_BYTE_HIGH, e⟩ (encodeNibble n) =
      (⟨s, d, m.set k.toNat (n * 16), k + 1, State.WAIT_MESSAGE_BYTE_LOW, e⟩, false) := by
  obtain ⟨h256, hdiv, hwf, hst, hend, hendt⟩ := encodeNibble_facts n hn
  unfold wellFormed at hwf
  rw [Nat.mod_eq_of_lt h256] at hwf
  have hk2 : ¬ (k ≥ MAX + 2) := by omega
  simp only [loopBody, loopTail, hst, hend, hendt, Nat.mod_eq_of_lt h256, hdiv, ← hwf, hk2]
  simp

theorem loopBody_low (ID MAX : Int) (s : Bool) (d : Nat) (m : List Nat) (k : Int) (e : Bool)
    (n : Nat) (hn : n < 16) :
    loopBody ID MAX ⟨s, d, m, k, State.WAIT_MESSAGE_BYTE_LOW, e⟩ (encodeNibble n) =
      (⟨s, d, m.set (k - 1).toNat ((m.getD (k - 1).toNat 0 + n) % 256), k,
        State.WAIT_MESSAGE_BYTE_HIGH, e⟩, false) := by
  obtain ⟨h256, hdiv, hwf, hst, hend, hendt⟩ := encodeNibble_facts n hn
  unfold wellFormed at hwf
  rw [Nat.mod_eq_of_lt h256] at hwf
  simp only [loopBody, loopTail, hst, hend, hendt, Nat.mod_eq_of_lt h256, hdiv, ← hwf]
  simp

theorem readLoop_sendByte (ID MAX : Int) (s : Bool) (d : Nat) (m : List Nat) (k : Nat) (e : Bool)
    (b : Nat) (rest : List Nat) (hk : (k : Int) < MAX + 2) (hm : k < m.length) :
    readLoop ID MAX ⟨s, d, m, k, State.WAIT_MESSAGE_BYTE_HIGH, e⟩ (sendByte b ++ rest) =
      readLoop ID MAX ⟨s, d, m.set k (b % 256), (k + 1 : Nat), State.WAIT_MESSAGE_BYTE_HIGH, e⟩
        rest := by
  have h1 : b % 256 / 16 < 16 := by omega
  have h2 : b % 256 % 16 < 16 := by omega
  simp only [sendByte, List.cons_append, List.nil_append]
  rw [readLoop_cons_continue _ _ _ _ _ (by rw [loopBody_high ID MAX s d m k e _ h1 hk]),
    loopBody_high ID MAX s d m k e _ h1 hk]
  dsimp only
  rw [readLoop_cons_continue _ _ _ _ _ (by rw [loopBody_low ID MAX s d _ _ e _ h2]),
    loopBody_low ID MAX s d _ _ e _ h2]
  dsimp only
  have e1 : ((k : Int) + 1 - 1).toNat = k := by omega
  have e2 : (k : Int).toNat = k := by omega
  have e3 : (b % 256 / 16 * 16 + b % 256 % 16) % 256 = b % 256 := by omega
  rw [e1, e2, List.set_set, List.getD_eq_getElem _ _ (by simpa using hm)]
  simp only [List.getElem_set_self, e3]
  norm_cast

theorem take_succ_set (m : List Nat) : ∀ (k b : Nat), k < m.length →
    (m.set k b).take (k + 1) = m.take k ++ [b] := by
  induction m with
  | nil => intro k b h; simp at h
  | cons x xs ih =>
    intro k b h
    cases k with
    | zero => simp
    | succ k =>
      simp only [List.length_cons] at h
      simp [List.set_cons_succ, List.take_succ_cons, ih k b (by omega)]

theorem storeBytes_length (bs : List Nat) : ∀ (m : List Nat) (k : Nat),
    (storeBytes m k bs).length = m.length := by
  induction bs with
  | nil => intro m k; rfl
  | cons b rest ih => intro m k; simp [storeBytes, ih]

theorem storeBytes_take (bs : List Nat) : ∀ (m : List Nat) (k : Nat),
    (∀ b ∈ bs, b < 256) → k + bs.length ≤ m.length →
    (storeBytes m k bs).take (k + bs.length) = m.take k ++ bs := by
  induction bs with
  | nil => intro m k _ _; simp [storeBytes]
  | cons b rest ih =>
    intro m k hb hlen
    simp only [List.length_cons] at hlen
    have hb0 : b < 256 := hb b (by simp)
    have h1 := ih (m.set k (b % 256)) (k + 1) (fun x hx => hb x (by simp [hx]))
      (by simp only [List.length_set]; omega)
    simp only [storeBytes, List.length_cons]
    rw [show k + (rest.length + 1) = k + 1 + rest.length by omega, h1,
      Nat.mod_eq_of_lt hb0, take_succ_set m k b (by omega)]
    simp

theorem readLoop_payload (ID MAX : Int) (s : Bool) (d : Nat) (e : Bool) (rest : List Nat)
    (payload : List Nat) : ∀ (m : List Nat) (k : Nat),
    k + payload.length ≤ m.length → ((k + payload.length : Nat) : Int) ≤ MAX + 2 →
    readLoop ID MAX ⟨s, d, m, k, State.WAIT_MESSAGE_BYTE_HIGH, e⟩
        (payload.flatMap sendByte ++ rest) =
      readLoop ID MAX ⟨s, d, storeBytes m k payload, ((k + payload.length : Nat) : Int),
        State.WAIT_MESSAGE_BYTE_HIGH, e⟩ rest := by
  induction payload with
  | nil => intro m k _ _; simp [storeBytes]
  | cons b bs ih =>
    intro m k h1 h2
    simp only [List.length_cons] at h1 h2
    simp only [List.flatMap_cons, List.append_assoc, storeBytes, List.length_cons]
    rw [readLoop_sendByte ID MAX s d m k e b _ (by omega) (by omega)]
    rw [ih (m.set k (b % 256)) (k + 1) (by simp only [List.length_set]; omega) (by omega)]
    rw [show k + 1 + bs.length = k + (bs.length + 1) by omega]

theorem loopBody_end (ID MAX : Int) (s : Bool) (d : Nat) (m : List Nat) (k : Int) (e : Bool) :
    loopBody ID MAX ⟨s, d, m, k, State.WAIT_MESSAGE_BYTE_HIGH, e⟩ MESSAGE_END_BYTE =
      (⟨s, d, m, k, State.WAIT_CRC, e⟩, false) := by
  simp [loopBody, loopTail, MESSAGE_END_BYTE, MESSAGE_START_BYTE]

theorem loopBody_end_with_tag (ID MAX : Int) (s : Bool) (d : Nat) (m : List Nat) (k : Int)
    (e : Bool) :
    loopBody ID MAX ⟨s, d, m, k, State.WAIT_MESSAGE_BYTE_HIGH, e⟩ MESSAGE_END_WITH_TAG_BYTE =
      (⟨s, d, m, k, if k ≥ 2 then State.WAIT_CRC_WITH_TAG else State.WAIT_START, e⟩, false) := by
  by_cases hk : k ≥ 2 <;>
    simp [loopBody, loopTail, MESSAGE_END_WITH_TAG_BYTE, MESSAGE_END_BYTE, MESSAGE_START_BYTE, hk]

theorem loopBody_crc_match (ID MAX : Int) (s : Bool) (d : Nat) (m : List Nat) (k : Int)
    (e : Bool) :
    loopBody ID MAX ⟨s, d, m, k, State.WAIT_CRC, e⟩
        (computeCRC8 (computeCRC8 0 [d]) (m.take k.toNat)) =
      (⟨s, d, m, k, State.MESSAGE_RECEIVED, e⟩, true) := by
  by_cases hk : k > MAX <;> simp [loopBody, hk]

theorem loopBody_crc_with_tag_match (ID MAX : Int) (s : Bool) (d : Nat) (m : List Nat) (k : Int)
    (e : Bool) :
    loopBody ID MAX ⟨s, d, m, k, State.WAIT_CRC_WITH_TAG, e⟩
        (computeCRC8 (computeCRC8 0 [d]) (m.take k.toNat)) =
      (⟨s, d, m, k - 2, State.MESSAGE_RECEIVED_WITH_TAG, e⟩, true) := by
  simp [loopBody]

/-- Reading a frame head (start byte, encoded destination id) and the encoded
bytes `data` brings an accepting receiver to `WAIT_MESSAGE_BYTE_HIGH` with
`data` stored in the buffer. -/
theorem readLoop_frame_data (ID MAX : Int) (s : Bool) (d0 : Nat) (m : List Nat) (k0 : Int)
    (e : Bool) (st : State) (hst1 : st ≠ State.WAIT_CRC) (hst2 : st ≠ State.WAIT_CRC_WITH_TAG)
    (d : Nat) (hd : d < 16) (hacc : ID ≤ 0 ∨ d = 0 ∨ (d : Int) = ID)
    (data rest : List Nat) (hlen : data.length ≤ m.length)
    (hmax : (data.length : Int) ≤ MAX + 2) :
    readLoop ID MAX ⟨s, d0, m, k0, st, e⟩
        (MESSAGE_START_BYTE :: encodeNibble d :: (data.flatMap sendByte ++ rest)) =
      readLoop ID MAX ⟨s, d, storeBytes m 0 data, (data.length : Int),
        State.WAIT_MESSAGE_BYTE_HIGH, e⟩ rest := by
  have h1 := loopBody_start ID MAX ⟨s, d0, m, k0, st, e⟩ hst1 hst2
  rw [readLoop_cons_continue _ _ _ _ _ (by rw [h1]), h1]
  have h2 := loopBody_destination ID MAX ⟨s, d0, m, k0, State.WAIT_DESTINATION_ID, e⟩ d hd rfl
  have hcond : ¬ (ID > 0 ∧ (d > 0 ∧ (d : Int) ≠ ID)) := by
    rintro ⟨a1, a2, a3⟩
    rcases hacc with h | h | h
    · omega
    · omega
    · exact a3 h
  rw [if_neg hcond] at h2
  dsimp only at h2 ⊢
  rw [readLoop_cons_continue _ _ _ _ _ (by rw [h2]), h2]
  have h3 := readLoop_payload ID MAX s d e rest data m 0 (by simpa using hlen) (by simpa using hmax)
  simp only [Nat.cast_zero, zero_add] at h3
  exact h3

theorem readLoop_frame_no_tag (ID MAX : Int) (s : Bool) (d0 : Nat) (m : List Nat) (k0 : Int)
    (e : Bool) (st : State) (hst1 : st ≠ State.WAIT_CRC) (hst2 : st ≠ State.WAIT_CRC_WITH_TAG)
    (d : Nat) (hd : d < 16) (hacc : ID ≤ 0 ∨ d = 0 ∨ (d : Int) = ID)
    (data rest : List Nat) (hbytes : ∀ b ∈ data, b < 256) (hlen : data.length ≤ m.length)
    (hmax : (data.length : Int) ≤ MAX + 2) :
    readLoop ID MAX ⟨s, d0, m, k0, st, e⟩
        (MESSAGE_START_BYTE :: encodeNibble d :: (data.flatMap sendByte ++
          MESSAGE_END_BYTE :: computeCRC8 (computeCRC8 0 [d]) data :: rest)) =
      (⟨s, d, storeBytes m 0 data, (data.length : Int), State.MESSAGE_RECEIVED, e⟩, rest) := by
  rw [readLoop_frame_data ID MAX s d0 m k0 e st hst1 hst2 d hd hacc data _ hlen hmax]
  rw [readLoop_cons_continue _ _ _ _ _ (by rw [loopBody_end]), loopBody_end]
  dsimp only
  have htake : (storeBytes m 0 data).take ((data.length : Int).toNat) = data := by
    have := storeBytes_take data m 0 hbytes (by simpa using hlen)
    simpa using this
  have h4 := loopBody_crc_match ID MAX s d (storeBytes m 0 data) (data.length : Int) e
  rw [htake] at h4
  rw [readLoop_cons_break _ _ _ _ _ (by rw [h4]), h4]

theorem readLoop_frame_with_tag (ID MAX : Int) (s : Bool) (d0 : Nat) (m : List Nat) (k0 : Int)
    (e : Bool) (st : State) (hst1 : st ≠ State.WAIT_CRC) (hst2 : st ≠ State.WAIT_CRC_WITH_TAG)
    (d : Nat) (hd : d < 16) (hacc : ID ≤ 0 ∨ d = 0 ∨ (d : Int) = ID)
    (data rest : List Nat) (hbytes : ∀ b ∈ data, b < 256) (hlen : data.length ≤ m.length)
    (hmax : (data.length : Int) ≤ MAX + 2) (h2 : 2 ≤ data.length) :
    readLoop ID MAX ⟨s, d0, m, k0, st, e⟩
        (MESSAGE_START_BYTE :: encodeNibble d :: (data.flatMap sendByte ++
          MESSAGE_END_WITH_TAG_BYTE :: computeCRC8 (computeCRC8 0 [d]) data :: rest)) =
      (⟨s, d, storeBytes m 0 data, (data.length : Int) - 2,
        State.MESSAGE_RECEIVED_WITH_TAG, e⟩, rest) := by
  rw [readLoop_frame_data ID MAX s d0 m k0 e st hst1 hst2 d hd hacc data _ hlen hmax]
  have hk : (data.length : Int) ≥ 2 := by omega
  rw [readLoop_cons_continue _ _ _ _ _ (by rw [loopBody_end_with_tag]), loopBody_end_with_tag]
  simp only [hk, if_true]
  have htake : (storeBytes m 0 data).take ((data.length : Int).toNat) = data := by
    have := storeBytes_take data m 0 hbytes (by simpa using hlen)
    simpa using this
  have h4 := loopBody_crc_with_tag_match ID MAX s d (storeBytes m 0 data) (data.length : Int) e
  rw [htake] at h4
  rw [readLoop_cons_break _ _ _ _ _ (by rw [h4]), h4]

theorem encodeNibble_eq_ENC : ∀ n < 16, encodeNibble n = ENC n := by decide

theorem sendByte_eq (b : Nat) (hb : b < 256) : sendByte b = [ENC (b / 16), ENC (b % 16)] := by
  simp only [sendByte, Nat.mod_eq_of_lt hb]
  rw [encodeNibble_eq_ENC _ (by omega), encodeNibble_eq_ENC _ (by omega)]

theorem flatMap_sendByte_eq (p : List Nat) (hp : ∀ b ∈ p, b < 256) :
    p.flatMap sendByte = p.flatMap (fun b => [ENC (b / 16), ENC (b % 16)]) := by
  induction p with
  | nil => rfl
  | cons b bs ih =>
    simp only [List.flatMap_cons]
    rw [sendByte_eq b (hp b (by simp)), ih (fun x hx => hp x (by simp [hx]))]

theorem sendMessage_no_tag (d : Nat) (hd : d < 16) (p : List Nat) (t : Int) (ht : t < 0) :
    sendMessage true d (some p) p.length t =
      MESSAGE_START_BYTE :: encodeNibble d :: (p.flatMap sendByte ++
        MESSAGE_END_BYTE :: computeCRC8 (computeCRC8 0 [d]) p :: []) := by
  have h1 : d % 256 = d := Nat.mod_eq_of_lt (by omega)
  have h2 : ¬ (16 ≤ d) := by omega
  simp [sendMessage, ht, h1, h2]

theorem sendMessage_with_tag (d : Nat) (hd : d < 16) (p : List Nat) (t : Int) (ht : 0 ≤ t) :
    sendMessage true d (some p) p.length t =
      MESSAGE_START_BYTE :: encodeNibble d ::
        ((p ++ [((t / 256) % 256).toNat, ((t % 256) % 256).toNat]).flatMap sendByte ++
        MESSAGE_END_WITH_TAG_BYTE :: computeCRC8 (computeCRC8 0 [d])
          (p ++ [((t / 256) % 256).toNat, ((t % 256) % 256).toNat]) :: []) := by
  have h1 : d % 256 = d := Nat.mod_eq_of_lt (by omega)
  have h2 : ¬ (16 ≤ d) := by omega
  have h3 : ¬ (t < 0) := by omega
  simp [sendMessage, h3, h1, h2, computeCRC8_append]

/-- Claim C2 (frame layout).  For every destination id (a `uint8_t`), every payload of bytes
and every tag `t` (absent when negative, else a 16-bit value), `sendMessage` writes exactly
the byte sequence `frameLayout` describes: `0x0C`, `ENC(d')`, the two encoded nibbles of
each payload byte, then `0x03` or the four encoded tag nibbles and `0x06`, then the CRC
(seed 0) of the raw bytes `d'`, payload and tag bytes. -/
theorem frame_layout (d : Nat) (p : List Nat) (t : Int) (hd : d < 256)
    (hp : ∀ b ∈ p, b < 256) (ht : t ≤ 65535) :
    sendMessage true d (some p) p.length t = frameLayout d p t := by
  have hlen : ¬ ((p.length : Int) < 0) := by omega
  have hd1 : d % 256 = d := Nat.mod_eq_of_lt hd
  have hcrc : ∀ x : Nat, ∀ l : List Nat, computeCRC8 (computeCRC8 0 [x]) l
      = computeCRC8 0 (x :: l) := fun x l => computeCRC8_append 0 [x] l
  by_cases h16 : d < 16
  · have h2 : ¬ (16 ≤ d) := by omega
    by_cases htag : t < 0
    · simp [sendMessage, frameLayout, htag, hd1, h2, h16, hcrc, flatMap_sendByte_eq p hp,
        encodeNibble_eq_ENC d h16, MESSAGE_START_BYTE, MESSAGE_END_BYTE]
    · have e1 : ((t / 256) % 256).toNat = (t / 256).toNat := by omega
      have e2 : ((t % 256) % 256).toNat = (t % 256).toNat := by omega
      have b1 : (t / 256).toNat < 256 := by omega
      have b2 : (t % 256).toNat < 256 := by omega
      simp [sendMessage, frameLayout, htag, hd1, h2, h16, hcrc, flatMap_sendByte_eq p hp,
        encodeNibble_eq_ENC d h16, MESSAGE_START_BYTE, MESSAGE_END_WITH_TAG_BYTE, e1, e2,
        sendByte_eq _ b1, sendByte_eq _ b2, computeCRC8_append]
  · have h2 : 16 ≤ d := by omega
    by_cases htag : t < 0
    · simp [sendMessage, frameLayout, htag, hd1, h2, h16, hcrc, flatMap_sendByte_eq p hp,
        encodeNibble_eq_ENC 0 (by norm_num), MESSAGE_START_BYTE, MESSAGE_END_BYTE]
    · have e1 : ((t / 256) % 256).toNat = (t / 256).toNat := by omega
      have e2 : ((t % 256) % 256).toNat = (t % 256).toNat := by omega
      have b1 : (t / 256).toNat < 256 := by omega
      have b2 : (t % 256).toNat < 256 := by omega
      simp [sendMessage, frameLayout, htag, hd1, h2, h16, hcrc, flatMap_sendByte_eq p hp,
        encodeNibble_eq_ENC 0 (by norm_num), MESSAGE_START_BYTE, MESSAGE_END_WITH_TAG_BYTE,
        e1, e2, sendByte_eq _ b1, sendByte_eq _ b2, computeCRC8_append]

/-- Claim C2 at the example (dest = 2, payload = "AB", no tag). -/
theorem frame_layout_witness :
    sendMessage true 2 (some [0x41, 0x42]) 2 (-1) =
      [0x0C, ENC 2, ENC 4, ENC 1, ENC 4, ENC 2, 0x03, computeCRC8 0 [2, 0x41, 0x42]] :=
  frame_layout 2 [0x41, 0x42] (-1) (by decide) (by decide) (by decide)

theorem loopUntilConsumed_of_loop (ID MAX : Int) (c c1 : GEPStreamController)
    (input : List Nat) (calls : List Call) (fuel : Nat) (hfuel : 0 < fuel)
    (h : loop ID MAX c input = (c1, [], calls)) (hin : input ≠ []) :
    loopUntilConsumed ID MAX fuel c input = (c1, calls) := by
  obtain ⟨f, rfl⟩ := Nat.exists_eq_succ_of_ne_zero (Nat.pos_iff_ne_zero.mp hfuel)
  cases input with
  | nil => exact absurd rfl hin
  | cons b rest =>
    simp only [loopUntilConsumed, h]
    cases f <;> simp [loopUntilConsumed]

theorem getD_append_pair_fst (p : List Nat) (a b : Nat) :
    (p ++ [a, b]).getD p.length 0 = a := by
  induction p with
  | nil => rfl
  | cons x xs ih => simpa using ih

theorem getD_append_pair_snd (p : List Nat) (a b : Nat) :
    (p ++ [a, b]).getD (p.length + 1) 0 = b := by
  induction p with
  | nil => rfl
  | cons x xs ih => simpa using ih

theorem loop_frame_no_tag (ID MAX : Int) (d0 : Nat) (m : List Nat) (k0 : Int)
    (d : Nat) (hd : d < 16) (hacc : ID ≤ 0 ∨ d = 0 ∨ (d : Int) = ID)
    (p : List Nat) (t : Int) (ht : t < 0)
    (hbytes : ∀ b ∈ p, b < 256) (hlen : p.length ≤ m.length)
    (hmax : (p.length : Int) ≤ MAX + 2) :
    loop ID MAX ⟨true, d0, m, k0, State.WAIT_START, true⟩
        (sendMessage true d (some p) p.length t) =
      (⟨true, d, (storeBytes m 0 p).set p.length 0, (p.length : Int), State.WAIT_START, true⟩,
        [], [⟨(storeBytes m 0 p).set p.length 0, (p.length : Int), -1⟩]) := by
  rw [sendMessage_no_tag d hd p t ht]
  have h := readLoop_frame_no_tag ID MAX true d0 m k0 true State.WAIT_START (by decide)
    (by decide) d hd hacc p [] hbytes hlen hmax
  simp [loop, h, notifyNoTag, notifyWithTag]

theorem loop_frame_with_tag (ID MAX : Int) (d0 : Nat) (m : List Nat) (k0 : Int)
    (d : Nat) (hd : d < 16) (hacc : ID ≤ 0 ∨ d = 0 ∨ (d : Int) = ID)
    (p : List Nat) (t : Int) (ht : 0 ≤ t) (ht2 : t ≤ 65535)
    (hbytes : ∀ b ∈ p, b < 256) (hlen : p.length + 2 ≤ m.length)
    (hmax : (p.length : Int) ≤ MAX) :
    loop ID MAX ⟨true, d0, m, k0, State.WAIT_START, true⟩
        (sendMessage true d (some p) p.length t) =
      (⟨true, d, (storeBytes m 0 (p ++ [((t / 256) % 256).toNat, ((t % 256) % 256).toNat])).set
          p.length 0, (p.length : Int), State.WAIT_START, true⟩,
        [], [⟨(storeBytes m 0 (p ++ [((t / 256) % 256).toNat, ((t % 256) % 256).toNat])).set
          p.length 0, (p.length : Int), t⟩]) := by
  rw [sendMessage_with_tag d hd p t ht]
  set hi := ((t / 256) % 256).toNat with hhi
  set lo := ((t % 256) % 256).toNat with hlo
  have b1 : hi < 256 := by omega
  have b2 : lo < 256 := by omega
  have hbytes2 : ∀ b ∈ p ++ [hi, lo], b < 256 := by
    intro b hb
    simp only [List.mem_append, List.mem_cons, List.mem_singleton, List.not_mem_nil,
      or_false] at hb
    rcases hb with hb | hb | hb
    · exact hbytes b hb
    · rw [hb]; exact b1
    · rw [hb]; exact b2
  have hl : (p ++ [hi, lo]).length = p.length + 2 := by simp
  have h := readLoop_frame_with_tag ID MAX true d0 m k0 true State.WAIT_START (by decide)
    (by decide) d hd hacc (p ++ [hi, lo]) [] hbytes2 (by rw [hl]; exact hlen)
    (by rw [hl]; push_cast; omega) (by rw [hl]; omega)
  have htake := storeBytes_take (p ++ [hi, lo]) m 0 hbytes2 (by rw [hl]; omega)
  simp only [hl, Nat.zero_add, List.take_zero, List.nil_append] at htake
  have hlenS : (storeBytes m 0 (p ++ [hi, lo])).length = m.length := storeBytes_length _ _ _
  have g0 : (storeBytes m 0 (p ++ [hi, lo])).getD p.length 0 = hi := by
    have : (storeBytes m 0 (p ++ [hi, lo])).getD p.length 0
        = ((storeBytes m 0 (p ++ [hi, lo])).take (p.length + 2)).getD p.length 0 := by
      simp [List.getD_eq_getElem?_getD, List.getElem?_take]
    rw [this, htake, getD_append_pair_fst]
  have g1 : (storeBytes m 0 (p ++ [hi, lo])).getD (p.length + 1) 0 = lo := by
    have : (storeBytes m 0 (p ++ [hi, lo])).getD (p.length + 1) 0
        = ((storeBytes m 0 (p ++ [hi, lo])).take (p.length + 2)).getD (p.length + 1) 0 := by
      simp [List.getD_eq_getElem?_getD, List.getElem?_take]
    rw [this, htake, getD_append_pair_snd]
  have htagv : (((hi * 256 + lo) % 65536 : Nat) : Int) = t := by omega
  rw [hl] at h
  have e1 : ((p.length + 2 : Nat) : Int) - 2 = (p.length : Int) := by push_cast; omega
  rw [e1] at h
  simp only [loop, if_true, h]
  rw [List.getD_eq_getElem?_getD] at g0 g1
  push_cast at htagv
  simp [notifyNoTag, notifyWithTag, g0, g1, htagv]

theorem take_set_self (l : List Nat) (n a : Nat) : (l.set n a).take n = l.take n := by
  rw [List.set_take, List.set_eq_of_length_le]
  simp

theorem sendMessage_ne_nil (d : Nat) (p : List Nat) (t : Int) :
    sendMessage true d (some p) p.length t ≠ [] := by
  have hlen : ¬ ((p.length : Int) < 0) := by omega
  by_cases ht : t < 0 <;> simp [sendMessage, ht]

/-- Claim C1 (round trip).  For a destination id `d < 16` that the receiver accepts
(`MESSENGER_ID = 0`, `d = 0` or `d = MESSENGER_ID`), a payload of at most `MAX_MESSAGE_SIZE`
bytes and a tag that is absent (negative) or at most 65535, one call of `loop()` on exactly
the bytes written by `sendMessage`, from a receiver in `WAIT_START` with a stream, a
callback and a buffer of `MAX_MESSAGE_SIZE + 2` bytes, reads all the bytes and invokes the
callback exactly once, with the payload bytes, the payload length and the tag (`-1` when
absent); the receiver is back in `WAIT_START`.  Calling `loop()` until the bytes are
consumed gives the same single invocation. -/
theorem round_trip (ID MAX : Int) (c : GEPStreamController) (d : Nat) (payload : List Nat)
    (tag : Int) (hd : d < 16) (hacc : ID = 0 ∨ d = 0 ∨ (d : Int) = ID)
    (hlen : (payload.length : Int) ≤ MAX) (hbytes : ∀ b ∈ payload, b < 256)
    (htag : tag < 0 ∨ tag ≤ 65535)
    (hstate : c.state = State.WAIT_START) (hstream : c.stream = true)
    (hev : c.messageReceivedEvent = true) (hbuf : (c.message.length : Int) = MAX + 2) :
    ∃ (c1 : GEPStreamController) (call : Call),
      loop ID MAX c (sendMessage true d (some payload) payload.length tag) = (c1, [], [call]) ∧
      (∀ fuel : Nat, 0 < fuel →
        loopUntilConsumed ID MAX fuel c (sendMessage true d (some payload) payload.length tag)
          = (c1, [call])) ∧
      c1.state = State.WAIT_START ∧
      call.message.take payload.length = payload ∧
      call.messageLength = payload.length ∧
      call.messageTag = (if tag < 0 then -1 else tag) := by
  obtain ⟨s, d0, m, k0, st, e⟩ := c
  simp only at hstate hstream hev hbuf
  subst hstate hstream hev
  have hacc2 : ID ≤ 0 ∨ d = 0 ∨ (d : Int) = ID := by
    rcases hacc with h | h | h
    · exact Or.inl (by omega)
    · exact Or.inr (Or.inl h)
    · exact Or.inr (Or.inr h)
  by_cases ht : tag < 0
  · have h := loop_frame_no_tag ID MAX d0 m k0 d hd hacc2 payload tag ht hbytes (by omega)
      (by omega)
    refine ⟨_, _, h, fun fuel hf => loopUntilConsumed_of_loop ID MAX _ _ _ _ fuel hf h
      (sendMessage_ne_nil d payload tag), rfl, ?_, rfl, by simp [ht]⟩
    have := storeBytes_take payload m 0 hbytes (by omega)
    simp only [Nat.zero_add, List.take_zero, List.nil_append] at this
    simp only [take_set_self, this]
  · have ht0 : 0 ≤ tag := by omega
    have ht2 : tag ≤ 65535 := by
      rcases htag with h | h
      · exact absurd h ht
      · exact h
    have h := loop_frame_with_tag ID MAX d0 m k0 d hd hacc2 payload tag ht0 ht2 hbytes
      (by omega) hlen
    refine ⟨_, _, h, fun fuel hf => loopUntilConsumed_of_loop ID MAX _ _ _ _ fuel hf h
      (sendMessage_ne_nil d payload tag), rfl, ?_, rfl, by simp [ht]⟩
    have hb1 : ((tag / 256) % 256).toNat < 256 := by omega
    have hb2 : ((tag % 256) % 256).toNat < 256 := by omega
    have := storeBytes_take (payload ++ [((tag / 256) % 256).toNat, ((tag % 256) % 256).toNat])
      m 0 (by
        intro b hb
        simp only [List.mem_append, List.mem_cons, List.mem_singleton, List.not_mem_nil,
          or_false] at hb
        rcases hb with hb | hb | hb
        · exact hbytes b hb
        · rw [hb]; exact hb1
        · rw [hb]; exact hb2) (by simp; omega)
    simp only [Nat.zero_add, List.take_zero, List.nil_append] at this
    simp only [take_set_self]
    have h2 := congrArg (List.take payload.length) this
    rw [List.take_take] at h2
    simpa using h2

/-- Claim C1 at the example of the specification: destination 2, payload "AB", no tag,
receiver with identity 2. -/
theorem round_trip_witness :
    ∃ (c1 : GEPStreamController) (call : Call),
      loop 2 50 controller_1 (sendMessage true 2 (some [0x41, 0x42]) 2 (-1)) = (c1, [], [call]) ∧
      (∀ fuel : Nat, 0 < fuel →
        loopUntilConsumed 2 50 fuel controller_1 (sendMessage true 2 (some [0x41, 0x42]) 2 (-1))
          = (c1, [call])) ∧
      c1.state = State.WAIT_START ∧
      call.message.take 2 = [0x41, 0x42] ∧
      call.messageLength = 2 ∧
      call.messageTag = -1 :=
  round_trip 2 50 controller_1 2 [0x41, 0x42] (-1) (by decide) (by decide) (by decide)
    (by decide) (by decide) rfl rfl rfl (by decide)

/-- Claim C4, evaluated on the code: the callback IS invoked with a length above
`MAX_MESSAGE_SIZE`.  A receiver in `WAIT_CRC` with `messageLength > MAX_MESSAGE_SIZE` that
reads the computed CRC invokes the callback with that length (line 169 overwrites the
`WAIT_START` of line 167); and the frame `sendMessage` writes for an untagged payload of
`MAX_MESSAGE_SIZE + 1` or `MAX_MESSAGE_SIZE + 2` bytes is delivered to the callback with
that length. -/
theorem over_length_delivered (ID MAX : Int) :
    (∀ c : GEPStreamController, c.state = State.WAIT_CRC → MAX < c.messageLength →
      c.stream = true → c.messageReceivedEvent = true →
      loop ID MAX c [expectedCRC c] =
        ({ c with message := c.message.set c.messageLength.toNat 0, state := State.WAIT_START },
          [], [⟨c.message.set c.messageLength.toNat 0, c.messageLength, -1⟩])) ∧
    (∀ (c : GEPStreamController) (d : Nat) (payload : List Nat), d < 16 →
      (ID = 0 ∨ d = 0 ∨ (d : Int) = ID) →
      MAX < (payload.length : Int) → (payload.length : Int) ≤ MAX + 2 →
      (∀ b ∈ payload, b < 256) → c.state = State.WAIT_START → c.stream = true →
      c.messageReceivedEvent = true → (c.message.length : Int) = MAX + 2 →
      ∃ (c1 : GEPStreamController) (call : Call),
        loop ID MAX c (sendMessage true d (some payload) payload.length (-1))
          = (c1, [], [call]) ∧
        call.messageLength = payload.length ∧ MAX < call.messageLength) := by
  constructor
  · intro c hstate _ hstream hev
    obtain ⟨s, d0, m, k0, st, e⟩ := c
    simp only at hstate hstream hev
    subst hstate hstream hev
    have h := loopBody_crc_match ID MAX true d0 m k0 true
    have hr : readLoop ID MAX ⟨true, d0, m, k0, State.WAIT_CRC, true⟩
        [expectedCRC ⟨true, d0, m, k0, State.WAIT_CRC, true⟩]
        = (⟨true, d0, m, k0, State.MESSAGE_RECEIVED, true⟩, []) := by
      unfold expectedCRC
      rw [readLoop_cons_break _ _ _ _ _ (by rw [h]), h]
    simp only [loop, if_true, hr]
    simp [notifyNoTag, notifyWithTag]
  · intro c d payload hd hacc hlen hlen2 hbytes hstate hstream hev hbuf
    obtain ⟨s, d0, m, k0, st, e⟩ := c
    simp only at hstate hstream hev hbuf
    subst hstate hstream hev
    have hacc2 : ID ≤ 0 ∨ d = 0 ∨ (d : Int) = ID := by
      rcases hacc with h | h | h
      · exact Or.inl (by omega)
      · exact Or.inr (Or.inl h)
      · exact Or.inr (Or.inr h)
    have h := loop_frame_no_tag ID MAX d0 m k0 d hd hacc2 payload (-1) (by decide) hbytes
      (by omega) hlen2
    exact ⟨_, _, h, rfl, hlen⟩

/-- Claim C4 at the build `GEPStreamController<0, 50>`: a frame with 51 payload bytes
reaches the callback with length 51. -/
theorem over_length_delivered_witness :
    ∃ (c1 : GEPStreamController) (call : Call),
      loop 0 50 controller_1 (sendMessage true 0 (some (List.replicate 51 0x41)) 51 (-1))
        = (c1, [], [call]) ∧
      call.messageLength = 51 ∧ 50 < call.messageLength :=
  (over_length_delivered 0 50).2 controller_1 0 (List.replicate 51 0x41) (by decide) (by decide)
    (by decide) (by decide) (by decide) rfl rfl rfl (by decide)

theorem take_eq_iff_agree (m1 m2 : List Nat) (k : Nat) :
    m1.take k = m2.take k ↔ ∀ i < k, m1[i]? = m2[i]? := by
  constructor
  · intro h i hi
    have := congrArg (fun l => l[i]?) h
    simpa [List.getElem?_take, hi] using this
  · intro h
    apply List.ext_getElem?
    intro i
    by_cases hi : i < k
    · simp [List.getElem?_take, hi, h i hi]
    · simp [List.getElem?_take, hi]

theorem take_set_agree (m1 m2 : List Nat) (k j v : Nat) (hl : m1.length = m2.length)
    (h : ∀ i < k, i ≠ j → m1[i]? = m2[i]?) :
    (m1.set j v).take k = (m2.set j v).take k := by
  rw [take_eq_iff_agree]
  intro i hi
  rw [List.getElem?_set, List.getElem?_set, hl]
  by_cases hji : j = i
  · simp [hji]
  · simp only [hji, if_false]
    exact h i hi (fun e => hji e.symm)

theorem loopTail_sameFrame (ID MAX : Int) (c1 c2 : GEPStreamController) (b : Nat)
    (h : sameFrame c1 c2)
    (h1 : c1.state ≠ State.MESSAGE_RECEIVED) (h2 : c1.state ≠ State.MESSAGE_RECEIVED_WITH_TAG)
    (h3 : c1.state ≠ State.WAIT_CRC) (h4 : c1.state ≠ State.WAIT_CRC_WITH_TAG) :
    sameFrame (loopTail ID MAX c1 b).1 (loopTail ID MAX c2 b).1 := by
  obtain ⟨s1, d1, m1, k1, st1, e1⟩ := c1
  obtain ⟨s2, d2, m2, k2, st2, e2⟩ := c2
  obtain ⟨hs, he, hst, hl, hfr⟩ := h
  simp only at hs he hst hl hfr h1 h2 h3 h4
  subst hs he hst
  by_cases hb : b = MESSAGE_START_BYTE
  · simp [loopTail, hb, sameFrame, hl]
  · cases st1 with
    | WAIT_START => simp [loopTail, hb, sameFrame, hl]
    | WAIT_DESTINATION_ID =>
      simp only [loopTail, hb, if_false]
      simp only [reduceCtorEq, if_false, if_true]
      split_ifs <;> simp [sameFrame, hl, GEPStreamController.extent]
    | WAIT_MESSAGE_BYTE_HIGH =>
      simp only [reduceCtorEq, false_or, GEPStreamController.extent, if_false] at hfr
      obtain ⟨hd, hk, htk, -, -⟩ := hfr
      subst hd hk
      simp only [loopTail, hb, if_false, reduceCtorEq, true_and, true_or, if_true]
      split_ifs with g1 g2 g3 g4 g5
      · simp [sameFrame, hl, GEPStreamController.extent, htk]
      · simp [sameFrame, hl, GEPStreamController.extent, htk]
        exact g3
      · simp [sameFrame, hl, GEPStreamController.extent, htk]
      · simp [sameFrame, hl, GEPStreamController.extent, htk]
      · simp [sameFrame, hl, GEPStreamController.extent, htk]
      · simp only [sameFrame, hl, GEPStreamController.extent, reduceCtorEq, if_false, false_or,
          true_and, List.length_set, false_implies, and_true]
        apply take_set_agree _ _ _ _ _ hl
        intro i hi hne
        rw [take_eq_iff_agree] at htk
        exact htk i (by omega)
    | WAIT_MESSAGE_BYTE_LOW =>
      simp only [reduceCtorEq, false_or, GEPStreamController.extent, if_false] at hfr
      obtain ⟨hd, hk, htk, -, -⟩ := hfr
      subst hd hk
      simp only [loopTail, hb, if_false, reduceCtorEq, false_and, or_true, if_true]
      split_ifs
      · simp [sameFrame, hl, GEPStreamController.extent, htk]
      · simp only [sameFrame, hl, GEPStreamController.extent, reduceCtorEq, if_false, false_or,
          true_and, List.length_set, false_implies, and_true]
        rw [take_eq_iff_agree] at htk
        by_cases hk : 1 ≤ k1
        · have hg : m1.getD (k1 - 1).toNat 0 = m2.getD (k1 - 1).toNat 0 := by
            rw [List.getD_eq_getElem?_getD, List.getD_eq_getElem?_getD,
              htk (k1 - 1).toNat (by omega)]
          rw [hg]
          apply take_set_agree _ _ _ _ _ hl
          intro i hi hne
          exact htk i hi
        · have hz : k1.toNat = 0 := by omega
          rw [hz, List.take_zero, List.take_zero]
    | WAIT_CRC => exact absurd rfl h3
    | WAIT_CRC_WITH_TAG => exact absurd rfl h4
    | MESSAGE_RECEIVED => exact absurd rfl h1
    | MESSAGE_RECEIVED_WITH_TAG => exact absurd rfl h2

theorem too_long_overwritten (MAX : Int) (c : GEPStreamController) :
    ({ (if c.messageLength > MAX then { c with state := State.WAIT_START } else c) with
        state := State.MESSAGE_RECEIVED } : GEPStreamController) =
      { c with state := State.MESSAGE_RECEIVED } := by
  split_ifs <;> rfl

theorem sameFrame_wait_start (c1 c2 : GEPStreamController) (hs : c1.stream = c2.stream)
    (he : c1.messageReceivedEvent = c2.messageReceivedEvent)
    (hl : c1.message.length = c2.message.length) :
    sameFrame { c1 with state := State.WAIT_START } { c2 with state := State.WAIT_START } :=
  ⟨hs, he, rfl, hl, Or.inl rfl⟩

theorem loopBody_sameFrame (ID MAX : Int) (c1 c2 : GEPStreamController) (b : Nat)
    (h : sameFrame c1 c2)
    (h1 : c1.state ≠ State.MESSAGE_RECEIVED) (h2 : c1.state ≠ State.MESSAGE_RECEIVED_WITH_TAG) :
    (loopBody ID MAX c1 b).2 = (loopBody ID MAX c2 b).2 ∧
      sameFrame (loopBody ID MAX c1 b).1 (loopBody ID MAX c2 b).1 := by
  have hst : c2.state = c1.state := h.2.2.1.symm
  by_cases g1 : c1.state = State.WAIT_START ∧ b ≠ MESSAGE_START_BYTE
  · have g1' : c2.state = State.WAIT_START ∧ b ≠ MESSAGE_START_BYTE := by rw [hst]; exact g1
    rw [loopBody, loopBody, if_pos g1, if_pos g1']
    exact ⟨rfl, h⟩
  · have g1' : ¬ (c2.state = State.WAIT_START ∧ b ≠ MESSAGE_START_BYTE) := by rw [hst]; exact g1
    by_cases g2 : c1.state = State.WAIT_CRC ∨ c1.state = State.WAIT_CRC_WITH_TAG
    · have g2' : c2.state = State.WAIT_CRC ∨ c2.state = State.WAIT_CRC_WITH_TAG := by
        rw [hst]; exact g2
      obtain ⟨hs, he, -, hl, hfr⟩ := h
      have hfr' : c1.messageDestinationId = c2.messageDestinationId ∧
          c1.messageLength = c2.messageLength ∧
          c1.message.take c1.messageLength.toNat = c2.message.take c1.messageLength.toNat ∧
          (c1.state = State.WAIT_CRC_WITH_TAG → 2 ≤ c1.messageLength) := by
        rcases hfr with hfr | hfr | ⟨a1, a2, a3, a4, -⟩
        · rcases g2 with g | g <;> rw [hfr] at g <;> exact absurd g (by decide)
        · rcases g2 with g | g <;> rw [hfr] at g <;> exact absurd g (by decide)
        · refine ⟨a1, a2, ?_, a4⟩
          have : c1.extent = c1.messageLength.toNat := by
            unfold GEPStreamController.extent
            rw [if_neg h2]
          rw [← this]; exact a3
      obtain ⟨hd, hk, htk, h2k⟩ := hfr'
      have hcrc : expectedCRC c2 = expectedCRC c1 := by
        unfold expectedCRC
        rw [← hd, ← hk, htk]
      by_cases g3 : b = expectedCRC c1
      · have g3' : b = expectedCRC c2 := by rw [hcrc]; exact g3
        unfold expectedCRC at g3 g3'
        rw [loopBody, loopBody, if_neg g1, if_neg g1', if_pos g2, if_pos g2']
        simp only [ne_eq, ← g3, ← g3', not_true_eq_false, if_false]
        by_cases g4 : c1.state = State.WAIT_CRC_WITH_TAG
        · have g4' : c2.state = State.WAIT_CRC_WITH_TAG := by rw [hst]; exact g4
          simp only [g4, g4', if_true, true_and]
          refine ⟨hs, he, rfl, hl, Or.inr (Or.inr ⟨hd, by rw [hk], ?_, by simp, ?_⟩)⟩
          · have e : (c1.messageLength - 2 + 2).toNat = c1.messageLength.toNat := by
              rw [Int.sub_add_cancel]
            simp only [GEPStreamController.extent, if_true, e]
            exact htk
          · intro _
            have := h2k g4
            simp only
            omega
        · have g4' : ¬ c2.state = State.WAIT_CRC_WITH_TAG := by rw [hst]; exact g4
          simp only [g4, g4', if_false, true_and]
          rw [too_long_overwritten, too_long_overwritten]
          refine ⟨hs, he, rfl, hl, Or.inr (Or.inr ⟨hd, hk, ?_, by simp, by simp⟩)⟩
          simp only [GEPStreamController.extent, reduceCtorEq, if_false]
          exact htk
      · have g3' : ¬ b = expectedCRC c2 := by rw [hcrc]; exact g3
        unfold expectedCRC at g3 g3'
        rw [loopBody, loopBody, if_neg g1, if_neg g1', if_pos g2, if_pos g2']
        simp only [ne_eq, g3, g3', not_false_eq_true, if_true]
        refine ⟨by rw [loopTail_snd, loopTail_snd], ?_⟩
        exact loopTail_sameFrame ID MAX _ _ b (sameFrame_wait_start c1 c2 hs he hl)
          (by simp) (by simp) (by simp) (by simp)
    · have g2' : ¬ (c2.state = State.WAIT_CRC ∨ c2.state = State.WAIT_CRC_WITH_TAG) := by
        rw [hst]; exact g2
      push_neg at g2
      rw [loopBody, loopBody, if_neg g1, if_neg g1', if_neg g2']
      simp only [not_or, ne_eq, g2.1, g2.2, not_false_eq_true, and_self, if_false, or_self]
      exact ⟨by rw [loopTail_snd, loopTail_snd], loopTail_sameFrame ID MAX c1 c2 b h h1 h2 g2.1 g2.2⟩

theorem readLoop_sameFrame (ID MAX : Int) (input : List Nat) :
    ∀ c1 c2 : GEPStreamController, sameFrame c1 c2 →
    c1.state ≠ State.MESSAGE_RECEIVED → c1.state ≠ State.MESSAGE_RECEIVED_WITH_TAG →
    (readLoop ID MAX c1 input).2 = (readLoop ID MAX c2 input).2 ∧
      sameFrame (readLoop ID MAX c1 input).1 (readLoop ID MAX c2 input).1 := by
  induction input with
  | nil => intro c1 c2 h _ _; exact ⟨rfl, h⟩
  | cons b rest ih =>
    intro c1 c2 h h1 h2
    obtain ⟨e1, e2⟩ := loopBody_sameFrame ID MAX c1 c2 b h h1 h2
    rcases loopBody_cases ID MAX c1 b h1 h2 with ⟨a1, a2, a3⟩ | ⟨a1, -, -, -⟩
    · rw [readLoop_cons_continue _ _ _ _ _ a1, readLoop_cons_continue _ _ _ _ _ (by rw [← e1, a1])]
      exact ih _ _ e2 a2 a3
    · rw [readLoop_cons_break _ _ _ _ _ a1, readLoop_cons_break _ _ _ _ _ (by rw [← e1, a1])]
      exact ⟨rfl, e2⟩

theorem loop_eq_notify (ID MAX : Int) (c : GEPStreamController) (input : List Nat) :
    loop ID MAX c input =
      ((notify (if c.stream then readLoop ID MAX c input else (c, input)).1).1,
        (if c.stream then readLoop ID MAX c input else (c, input)).2,
        (notify (if c.stream then readLoop ID MAX c input else (c, input)).1).2) := rfl

theorem notify_state (c : GEPStreamController) :
    (notify c).1.state ≠ State.MESSAGE_RECEIVED ∧
      (notify c).1.state ≠ State.MESSAGE_RECEIVED_WITH_TAG := by
  unfold notify notifyNoTag notifyWithTag
  by_cases h1 : c.state = State.MESSAGE_RECEIVED
  · by_cases he : c.messageReceivedEvent = true <;> simp [h1, he]
  · by_cases h2 : c.state = State.MESSAGE_RECEIVED_WITH_TAG
    · by_cases he : c.messageReceivedEvent = true <;> simp [h1, h2, he]
    · simp [h1, h2]

theorem notify_of_not_received (c : GEPStreamController)
    (h1 : c.state ≠ State.MESSAGE_RECEIVED) (h2 : c.state ≠ State.MESSAGE_RECEIVED_WITH_TAG) :
    notify c = (c, []) := by
  simp [notify, notifyNoTag, notifyWithTag, h1, h2]

theorem notify_sameFrame (c1 c2 : GEPStreamController) (h : sameFrame c1 c2) :
    sameFrame (notify c1).1 (notify c2).1 ∧
      (notify c1).2.map Call.observe = (notify c2).2.map Call.observe := by
  obtain ⟨s1, d1, m1, k1, st1, e1⟩ := c1
  obtain ⟨s2, d2, m2, k2, st2, e2⟩ := c2
  obtain ⟨hs, he, hst, hl, hfr⟩ := h
  simp only at hs he hst hl hfr
  subst hs he hst
  by_cases h1 : st1 = State.MESSAGE_RECEIVED
  · subst h1
    simp only [reduceCtorEq, false_or, GEPStreamController.extent, if_false] at hfr
    obtain ⟨hd, hk, htk, -, -⟩ := hfr
    subst hd hk
    cases e1 <;>
      simp [notify, notifyNoTag, notifyWithTag, sameFrame, hl, Call.observe, take_set_self, htk]
  · by_cases h2 : st1 = State.MESSAGE_RECEIVED_WITH_TAG
    · subst h2
      simp only [reduceCtorEq, false_or, GEPStreamController.extent, if_true, true_implies]
        at hfr
      obtain ⟨hd, hk, htk, -, hk0⟩ := hfr
      subst hd hk
      rw [take_eq_iff_agree] at htk
      have g0 : m1.getD k1.toNat 0 = m2.getD k1.toNat 0 := by
        rw [List.getD_eq_getElem?_getD, List.getD_eq_getElem?_getD, htk _ (by omega)]
      have g1 : m1.getD (k1.toNat + 1) 0 = m2.getD (k1.toNat + 1) 0 := by
        rw [List.getD_eq_getElem?_getD, List.getD_eq_getElem?_getD, htk _ (by omega)]
      have g2 : m1.take k1.toNat = m2.take k1.toNat := by
        rw [take_eq_iff_agree]
        intro i hi
        exact htk i (by omega)
      rw [List.getD_eq_getElem?_getD, List.getD_eq_getElem?_getD] at g0 g1
      cases e1 <;>
        simp [notify, notifyNoTag, notifyWithTag, sameFrame, hl, Call.observe, take_set_self,
          g0, g1, g2]
    · rw [notify_of_not_received _ h1 h2, notify_of_not_received _ h1 h2]
      exact ⟨⟨rfl, rfl, rfl, hl, hfr⟩, rfl⟩

theorem loop_sameFrame (ID MAX : Int) (c1 c2 : GEPStreamController) (input : List Nat)
    (h : sameFrame c1 c2)
    (h1 : c1.state ≠ State.MESSAGE_RECEIVED) (h2 : c1.state ≠ State.MESSAGE_RECEIVED_WITH_TAG) :
    sameFrame (loop ID MAX c1 input).1 (loop ID MAX c2 input).1 ∧
      (loop ID MAX c1 input).2.1 = (loop ID MAX c2 input).2.1 ∧
      (loop ID MAX c1 input).2.2.map Call.observe = (loop ID MAX c2 input).2.2.map Call.observe ∧
      (loop ID MAX c1 input).1.state ≠ State.MESSAGE_RECEIVED ∧
      (loop ID MAX c1 input).1.state ≠ State.MESSAGE_RECEIVED_WITH_TAG := by
  rw [loop_eq_notify, loop_eq_notify]
  have hs : c2.stream = c1.stream := h.1.symm
  rw [hs]
  cases hstream : c1.stream
  · simp only [Bool.false_eq_true, if_false]
    exact ⟨(notify_sameFrame c1 c2 h).1, trivial, (notify_sameFrame c1 c2 h).2, notify_state _⟩
  · simp only [if_true]
    obtain ⟨r1, r2⟩ := readLoop_sameFrame ID MAX input c1 c2 h h1 h2
    exact ⟨(notify_sameFrame _ _ r2).1, r1, (notify_sameFrame _ _ r2).2, notify_state _⟩

theorem loopUntilConsumed_sameFrame (ID MAX : Int) (fuel : Nat) :
    ∀ (c1 c2 : GEPStreamController) (input : List Nat), sameFrame c1 c2 →
    c1.state ≠ State.MESSAGE_RECEIVED → c1.state ≠ State.MESSAGE_RECEIVED_WITH_TAG →
    (loopUntilConsumed ID MAX fuel c1 input).2.map Call.observe =
      (loopUntilConsumed ID MAX fuel c2 input).2.map Call.observe := by
  induction fuel with
  | zero => intro c1 c2 input _ _ _; rfl
  | succ n ih =>
    intro c1 c2 input h h1 h2
    cases input with
    | nil => rfl
    | cons b rest =>
      obtain ⟨r1, r2, r3, r4, r5⟩ := loop_sameFrame ID MAX c1 c2 (b :: rest) h h1 h2
      simp only [loopUntilConsumed, List.map_append]
      rw [r3, ← r2, ih _ _ _ r1 r4 r5]

/-- Claim C5 fails as stated: the receiver of the build that has read the frame body
(destination 0, payload `0xAC`) is in `WAIT_CRC` (a state reached by `loop()`), the CRC of
that frame is `0x0C`, and reading the byte `0x0C` delivers the frame to the callback and
leaves the receiver in `WAIT_START`, not in `WAIT_DESTINATION_ID`. -/
theorem resync_counterexample :
    readLoop 0 50 controller_1 [0x0C, 0x0F, 0xA5, 0xC3, 0x03] = (crcIsStartByte, []) ∧
    crcIsStartByte.state = State.WAIT_CRC ∧
    (loop 0 50 crcIsStartByte [MESSAGE_START_BYTE]).1.state = State.WAIT_START ∧
    (loop 0 50 crcIsStartByte [MESSAGE_START_BYTE]).2.2 =
      [⟨0xAC :: List.replicate 51 0, 1, -1⟩] := by
  decide

theorem loop_cons_of_continue (ID MAX : Int) (c c1 : GEPStreamController) (b : Nat)
    (rest : List Nat) (hstream : c.stream = true) (hstream1 : c1.stream = true)
    (h : loopBody ID MAX c b = (c1, false)) :
    loop ID MAX c (b :: rest) = loop ID MAX c1 rest := by
  rw [loop_eq_notify, loop_eq_notify, hstream, hstream1]
  simp only [if_true]
  rw [readLoop_cons_continue _ _ _ _ _ (by rw [h]), h]

theorem loopBody_start_any (ID MAX : Int) (c : GEPStreamController)
    (hcrc : (c.state = State.WAIT_CRC ∨ c.state = State.WAIT_CRC_WITH_TAG) →
      expectedCRC c ≠ MESSAGE_START_BYTE) :
    loopBody ID MAX c MESSAGE_START_BYTE =
      ({ c with state := State.WAIT_DESTINATION_ID }, false) := by
  by_cases g : c.state = State.WAIT_CRC ∨ c.state = State.WAIT_CRC_WITH_TAG
  · have hne := hcrc g
    unfold expectedCRC at hne
    have g1 : ¬ (c.state = State.WAIT_START ∧ MESSAGE_START_BYTE ≠ MESSAGE_START_BYTE) := by
      simp
    rw [loopBody, if_neg g1, if_pos g]
    have hne2 : MESSAGE_START_BYTE ≠ computeCRC8 (computeCRC8 0 [c.messageDestinationId])
        (c.message.take c.messageLength.toNat) := fun h => hne h.symm
    simp only [ne_eq, hne2, not_false_eq_true, if_true]
    simp [loopTail]
  · push_neg at g
    exact loopBody_start ID MAX c g.1 g.2

/-- Claim C5 as amended (resynchronisation).  In every state in which `loop()` reads a byte,
provided that in `WAIT_CRC` and `WAIT_CRC_WITH_TAG` the CRC computed for the buffered frame
is not `0x0C`, reading the start byte puts the receiver in `WAIT_DESTINATION_ID` without
invoking the callback, and the callback invocations for the bytes that follow are those of a
freshly constructed receiver (any buffer content) that reads the same start byte and the
same following bytes. -/
theorem resync (ID MAX : Int) (c : GEPStreamController) (hstream : c.stream = true)
    (hcrc : (c.state = State.WAIT_CRC ∨ c.state = State.WAIT_CRC_WITH_TAG) →
      expectedCRC c ≠ MESSAGE_START_BYTE) :
    loopBody ID MAX c MESSAGE_START_BYTE =
      ({ c with state := State.WAIT_DESTINATION_ID }, false) ∧
    loop ID MAX c [MESSAGE_START_BYTE] =
      ({ c with state := State.WAIT_DESTINATION_ID }, [], []) ∧
    (∀ (m : List Nat) (fuel : Nat) (rest : List Nat), m.length = c.message.length →
      (loopUntilConsumed ID MAX fuel c (MESSAGE_START_BYTE :: rest)).2.map Call.observe =
        (loopUntilConsumed ID MAX fuel
          { GEPStreamController.new m with
              stream := true, messageReceivedEvent := c.messageReceivedEvent }
          (MESSAGE_START_BYTE :: rest)).2.map Call.observe) := by
  have key := loopBody_start_any ID MAX c hcrc
  refine ⟨key, ?_, ?_⟩
  · apply loop_of_readLoop _ _ _ _ _ _ hstream
    · rw [readLoop_cons_continue _ _ _ _ _ (by rw [key]), key]; rfl
    · simp
    · simp
  · intro m fuel rest hm
    cases fuel with
    | zero => rfl
    | succ n =>
      have key2 := loopBody_start ID MAX
        { GEPStreamController.new m with
              stream := true, messageReceivedEvent := c.messageReceivedEvent }
        (by simp [GEPStreamController.new]) (by simp [GEPStreamController.new])
      have e1 := loop_cons_of_continue ID MAX c { c with state := State.WAIT_DESTINATION_ID }
        _ rest hstream hstream key
      have e2 := loop_cons_of_continue ID MAX _ _ _ rest rfl rfl key2
      have hsf : sameFrame { c with state := State.WAIT_DESTINATION_ID }
          { ({ GEPStreamController.new m with
              stream := true, messageReceivedEvent := c.messageReceivedEvent } :
              GEPStreamController) with state := State.WAIT_DESTINATION_ID } :=
        ⟨hstream, rfl, rfl, hm.symm, Or.inr (Or.inl rfl)⟩
      obtain ⟨r1, r2, r3, r4, r5⟩ := loop_sameFrame ID MAX _ _ rest hsf (by simp) (by simp)
      simp only [loopUntilConsumed, List.map_append]
      rw [e1, e2, r3, ← r2, loopUntilConsumed_sameFrame ID MAX n _ _ _ r1 r4 r5]

/-- Claim C5 (amended) at a receiver of the build interrupted in `WAIT_MESSAGE_BYTE_LOW`. -/
theorem resync_witness :
    loopBody 0 50 { controller_1 with state := State.WAIT_MESSAGE_BYTE_LOW, messageLength := 1 }
        MESSAGE_START_BYTE =
      ({ controller_1 with state := State.WAIT_DESTINATION_ID, messageLength := 1 }, false) :=
  (resync 0 50 { controller_1 with state := State.WAIT_MESSAGE_BYTE_LOW, messageLength := 1 }
    rfl (by decide)).1

set_option maxRecDepth 100000 in
theorem crcUnshift_crcShift : ∀ x < 256, crcUnshift (crcShift x) = x ∧ crcShift x < 256 := by
  decide

theorem shiftRight_one_xor (a b : Nat) : (a ^^^ b) >>> 1 = (a >>> 1) ^^^ (b >>> 1) := by
  apply Nat.eq_of_testBit_eq
  intro i
  simp [Nat.testBit_shiftRight, Nat.testBit_xor]

theorem crcBit_xor (p : Nat × Nat) : (crcBit p).1 ^^^ (crcBit p).2 = crcShift (p.1 ^^^ p.2) := by
  unfold crcBit crcShift
  dsimp only
  rw [shiftRight_one_xor]
  split_ifs
  · rw [Nat.xor_assoc, Nat.xor_comm 0x8C, ← Nat.xor_assoc]
  · rfl

theorem crcBit_snd (p : Nat × Nat) : (crcBit p).2 = p.2 >>> 1 := rfl

theorem crcBit_iterate (k : Nat) : ∀ p : Nat × Nat,
    (crcBit^[k] p).1 ^^^ (crcBit^[k] p).2 = crcShift^[k] (p.1 ^^^ p.2) ∧
      (crcBit^[k] p).2 = p.2 >>> k := by
  induction k with
  | zero => intro p; simp
  | succ k ih =>
    intro p
    rw [Function.iterate_succ_apply, Function.iterate_succ_apply]
    obtain ⟨h1, h2⟩ := ih (crcBit p)
    refine ⟨by rw [h1, crcBit_xor], ?_⟩
    rw [h2, crcBit_snd, ← Nat.shiftRight_add, Nat.add_comm]

theorem crcByte_eq (crc b : Nat) : crcByte crc b = crcShift^[8] (crc ^^^ (b % 256)) := by
  unfold crcByte
  obtain ⟨h1, h2⟩ := crcBit_iterate 8 (crc, b % 256)
  have hz : (b % 256) >>> 8 = 0 := by
    rw [Nat.shiftRight_eq_div_pow]; omega
  simp only at h1 h2
  rw [h2, hz, Nat.xor_zero] at h1
  exact h1

theorem crcShift_iterate_inj (k : Nat) : ∀ x y : Nat, x < 256 → y < 256 →
    crcShift^[k] x = crcShift^[k] y → x = y := by
  induction k with
  | zero => intro x y _ _ h; simpa using h
  | succ k ih =>
    intro x y hx hy h
    rw [Function.iterate_succ_apply, Function.iterate_succ_apply] at h
    have h1 := ih _ _ (crcUnshift_crcShift x hx).2 (crcUnshift_crcShift y hy).2 h
    rw [← (crcUnshift_crcShift x hx).1, ← (crcUnshift_crcShift y hy).1, h1]

theorem crcByte_inj_data (crc x y : Nat) (hc : crc < 256) (hx : x < 256) (hy : y < 256)
    (h : crcByte crc x = crcByte crc y) : x = y := by
  rw [crcByte_eq, crcByte_eq, Nat.mod_eq_of_lt hx, Nat.mod_eq_of_lt hy] at h
  have := crcShift_iterate_inj 8 _ _ (@Nat.xor_lt_two_pow crc x 8 hc hx)
    (@Nat.xor_lt_two_pow crc y 8 hc hy) h
  exact Nat.xor_right_injective this

theorem crcByte_inj_crc (c1 c2 b : Nat) (h1 : c1 < 256) (h2 : c2 < 256)
    (h : crcByte c1 b = crcByte c2 b) : c1 = c2 := by
  rw [crcByte_eq, crcByte_eq] at h
  have hb : b % 256 < 2 ^ 8 := Nat.mod_lt _ (by norm_num)
  have := crcShift_iterate_inj 8 _ _ (@Nat.xor_lt_two_pow c1 (b % 256) 8 h1 hb)
    (@Nat.xor_lt_two_pow c2 (b % 256) 8 h2 hb) h
  exact Nat.xor_left_injective this

theorem crcLoop_inj (data : List Nat) : ∀ c1 c2 : Nat, c1 < 256 → c2 < 256 →
    crcLoop c1 data = crcLoop c2 data → c1 = c2 := by
  induction data with
  | nil => intro c1 c2 _ _ h; exact h
  | cons b rest ih =>
    intro c1 c2 h1 h2 h
    exact crcByte_inj_crc c1 c2 b h1 h2
      (ih _ _ (crcByte_lt c1 b h1) (crcByte_lt c2 b h2) h)

theorem computeCRC8_single_byte (seed : Nat) (pre post : List Nat) (x y : Nat)
    (hx : x < 256) (hy : y < 256) (hxy : x ≠ y) :
    computeCRC8 seed (pre ++ x :: post) ≠ computeCRC8 seed (pre ++ y :: post) := by
  intro h
  unfold computeCRC8 at h
  rw [crcLoop_append, crcLoop_append] at h
  simp only [crcLoop] at h
  have hc : crcLoop (seed % 256) pre < 256 := crcLoop_lt pre _ (Nat.mod_lt _ (by norm_num))
  have h1 := crcLoop_inj post _ _ (crcByte_lt _ x hc) (crcByte_lt _ y hc) h
  exact hxy (crcByte_inj_data _ x y hc hx hy h1)

theorem expectedCRC_eq (c : GEPStreamController) :
    expectedCRC c = computeCRC8 0 (c.messageDestinationId :: c.message.take c.messageLength.toNat) := by
  unfold expectedCRC
  rw [computeCRC8_append]
  rfl

/-- Claim C8 (CRC sensitivity).  For every seed and two byte sequences that differ in
exactly one position (`x ≠ y` between the same bytes before and after), `computeCRC8`
returns different values; hence a receiver in a CRC state whose raw bytes (destination id,
payload, tag) are the corrupted sequence and that reads the CRC byte of the original
sequence does not accept the frame: no `MESSAGE_RECEIVED` state, no `break`, no callback. -/
theorem crc_sensitivity (seed : Nat) (pre post : List Nat) (x y : Nat)
    (hx : x < 256) (hy : y < 256) (hxy : x ≠ y) :
    computeCRC8 seed (pre ++ x :: post) ≠ computeCRC8 seed (pre ++ y :: post) ∧
    (∀ (ID MAX : Int) (c : GEPStreamController),
      (c.state = State.WAIT_CRC ∨ c.state = State.WAIT_CRC_WITH_TAG) →
      c.messageDestinationId :: c.message.take c.messageLength.toNat = pre ++ y :: post →
      (loopBody ID MAX c (computeCRC8 0 (pre ++ x :: post))).2 = false ∧
      (loopBody ID MAX c (computeCRC8 0 (pre ++ x :: post))).1.state ≠ State.MESSAGE_RECEIVED ∧
      (loopBody ID MAX c (computeCRC8 0 (pre ++ x :: post))).1.state
        ≠ State.MESSAGE_RECEIVED_WITH_TAG ∧
      (loop ID MAX c [computeCRC8 0 (pre ++ x :: post)]).2.2 = []) := by
  refine ⟨computeCRC8_single_byte seed pre post x y hx hy hxy, ?_⟩
  intro ID MAX c hs hraw
  have n1 : c.state ≠ State.MESSAGE_RECEIVED := by
    rcases hs with h | h <;> rw [h] <;> decide
  have n2 : c.state ≠ State.MESSAGE_RECEIVED_WITH_TAG := by
    rcases hs with h | h <;> rw [h] <;> decide
  have hne : computeCRC8 0 (pre ++ x :: post) ≠ expectedCRC c := by
    rw [expectedCRC_eq, hraw]
    exact computeCRC8_single_byte 0 pre post x y hx hy hxy
  rcases loopBody_cases ID MAX c (computeCRC8 0 (pre ++ x :: post)) n1 n2 with
    ⟨a1, a2, a3⟩ | ⟨-, -, a3, -⟩
  · refine ⟨a1, a2, a3, ?_⟩
    by_contra hcalls
    obtain ⟨-, -, hr⟩ := loop_calls_of_ne_nil ID MAX c _ n1 n2 hcalls
    rw [readLoop_cons_continue _ _ _ _ _ a1] at hr
    simp only [readLoop] at hr
    rcases hr with hr | hr
    · exact a2 hr
    · exact a3 hr
  · exact absurd a3 hne

/-- Claim C8 at the frame (2, "AB") with the letter A corrupted to the letter a. -/
theorem crc_sensitivity_witness :
    computeCRC8 0 ([2] ++ 0x41 :: [0x42]) ≠ computeCRC8 0 ([2] ++ 0x61 :: [0x42]) :=
  (crc_sensitivity 0 [2] [0x42] 0x41 0x61 (by decide) (by decide) (by decide)).1

theorem loopBody_malformed (ID MAX : Int) (c : GEPStreamController) (b : Nat)
    (hwf : ¬ wellFormed b) (h1 : b ≠ MESSAGE_START_BYTE) (h2 : b ≠ MESSAGE_END_BYTE)
    (h3 : b ≠ MESSAGE_END_WITH_TAG_BYTE)
    (hs : c.state = State.WAIT_DESTINATION_ID ∨ c.state = State.WAIT_MESSAGE_BYTE_HIGH ∨
      c.state = State.WAIT_MESSAGE_BYTE_LOW) :
    (loopBody ID MAX c b).2 = false ∧ (loopBody ID MAX c b).1.state = State.WAIT_START := by
  unfold wellFormed at hwf
  rcases hs with hs | hs | hs <;>
    simp [loopBody, loopTail, hs, h1, h2, h3, hwf]

/-- Claim C7 (self-check rejection).  For every nibble `n < 16` and bit position `i < 8` the
byte `ENC(n) XOR 2^i` fails the well-formedness test of the receiver and is none of the
control bytes `0x0C`, `0x03`, `0x06`; a receiver in `WAIT_DESTINATION_ID`,
`WAIT_MESSAGE_BYTE_HIGH` or `WAIT_MESSAGE_BYTE_LOW` that reads it goes to `WAIT_START`, and
`loop()` invokes no callback for it and for the following bytes up to the next start byte.
-/
theorem self_check_rejection (n i : Nat) (hn : n < 16) (hi : i < 8) :
    ¬ wellFormed (encodeNibble n ^^^ 2 ^ i) ∧
    (encodeNibble n ^^^ 2 ^ i) ≠ MESSAGE_START_BYTE ∧
    (encodeNibble n ^^^ 2 ^ i) ≠ MESSAGE_END_BYTE ∧
    (encodeNibble n ^^^ 2 ^ i) ≠ MESSAGE_END_WITH_TAG_BYTE ∧
    (∀ (ID MAX : Int) (c : GEPStreamController),
      (c.state = State.WAIT_DESTINATION_ID ∨ c.state = State.WAIT_MESSAGE_BYTE_HIGH ∨
        c.state = State.WAIT_MESSAGE_BYTE_LOW) →
      (loopBody ID MAX c (encodeNibble n ^^^ 2 ^ i)).2 = false ∧
      (loopBody ID MAX c (encodeNibble n ^^^ 2 ^ i)).1.state = State.WAIT_START ∧
      (c.stream = true → ∀ rest : List Nat, (∀ x ∈ rest, x ≠ MESSAGE_START_BYTE) →
        (loop ID MAX c ((encodeNibble n ^^^ 2 ^ i) :: rest)).1.state = State.WAIT_START ∧
        (loop ID MAX c ((encodeNibble n ^^^ 2 ^ i) :: rest)).2.2 = [])) := by
  obtain ⟨f1, f2, f3, f4⟩ := flipped_facts n hn i hi
  refine ⟨f1, f2, f3, f4, ?_⟩
  intro ID MAX c hs
  obtain ⟨g1, g2⟩ := loopBody_malformed ID MAX c _ f1 f2 f3 f4 hs
  refine ⟨g1, g2, ?_⟩
  intro hstream rest hrest
  have := loop_reject ID MAX c (loopBody ID MAX c (encodeNibble n ^^^ 2 ^ i)).1 _ rest hstream
    (by rw [← g1]) g2 hrest
  rw [this]
  exact ⟨g2, rfl⟩

/-- Claim C7 at the high nibble of the letter A with bit 0 flipped. -/
theorem self_check_rejection_witness :
    ¬ wellFormed (encodeNibble 4 ^^^ 2 ^ 0) ∧
    (encodeNibble 4 ^^^ 2 ^ 0) ≠ MESSAGE_START_BYTE ∧
    (encodeNibble 4 ^^^ 2 ^ 0) ≠ MESSAGE_END_BYTE ∧
    (encodeNibble 4 ^^^ 2 ^ 0) ≠ MESSAGE_END_WITH_TAG_BYTE :=
  ⟨(self_check_rejection 4 0 (by decide) (by decide)).1,
    (self_check_rejection 4 0 (by decide) (by decide)).2.1,
    (self_check_rejection 4 0 (by decide) (by decide)).2.2.1,
    (self_check_rejection 4 0 (by decide) (by decide)).2.2.2.1⟩

/-- Claim C6 at the receiver `waitingForCrc` and the byte 0. -/
theorem checksum_mismatch_witness :
    loopBody 2 50 waitingForCrc 0 = ({ waitingForCrc with state := State.WAIT_START }, false) :=
  ((checksum_mismatch 2 50 waitingForCrc).1 0 (Or.inl rfl) (by decide) (by decide)).1

end acp_messenger_gep_stream

namespace acp_private

open acp

theorem findLooper_spec (a : Nat) (pre : List Nat) : ∀ (post : List Nat) (k : Nat), a ∉ pre →
    findLooper a (pre ++ a :: post) k = some (k + pre.length) := by
  induction pre with
  | nil => intro post k _; simp [findLooper]
  | cons x xs ih =>
    intro post k h
    have hx : x ≠ a := fun e => h (by simp [e])
    have hxs : a ∉ xs := fun e => h (by simp [e])
    show (if x ≠ a then findLooper a (xs ++ a :: post) (k + 1) else some k) = _
    rw [if_pos hx, ih post (k + 1) hxs, List.length_cons]
    congr 1
    omega

theorem shiftLeft_spec (tail : List Nat) (mid : List Nat) : ∀ (pre : List Nat) (x : Nat)
    (fuel : Nat), mid.length < fuel →
    shiftLeft fuel ((pre.length + 1 + mid.length : Nat) : Int) (pre ++ x :: mid ++ tail)
        (pre.length + 1) =
      some (pre ++ mid ++ [(x :: mid).getLast (by simp)] ++ tail) := by
  induction mid with
  | nil =>
    intro pre x fuel hf
    obtain ⟨f, rfl⟩ := Nat.exists_eq_succ_of_ne_zero (by omega : fuel ≠ 0)
    simp [shiftLeft]
  | cons m mid ih =>
    intro pre x fuel hf
    obtain ⟨f, rfl⟩ := Nat.exists_eq_succ_of_ne_zero (by omega : fuel ≠ 0)
    simp only [List.length_cons] at hf
    have hne : ((pre.length + 1 : Nat) : Int) ≠ ((pre.length + 1 + (mid.length + 1) : Nat) : Int) := by
      omega
    have hget : (pre ++ x :: (m :: mid) ++ tail)[pre.length + 1]? = some m := by
      rw [List.append_assoc, List.getElem?_append_right (by omega)]
      simp
    have hset : (pre ++ x :: (m :: mid) ++ tail).set (pre.length + 1 - 1) m
        = (pre ++ [m]) ++ m :: mid ++ tail := by
      simp [List.set_append]
    simp only [shiftLeft, List.length_cons, hne, ne_eq, not_false_eq_true, if_true, hget, hset]
    have := ih (pre ++ [m]) m f (by omega)
    simp only [List.length_append, List.length_singleton] at this
    rw [show pre.length + 1 + (mid.length + 1) = pre.length + 1 + 1 + mid.length by omega, this]
    simp

theorem shiftLeftWhile_spec (loopers : List Looper) (nc : Nat) (end_ : Int) (rest : List Nat)
    (mid : List Nat) : ∀ (pre : List Nat) (x : Nat) (fuel : Nat), mid.length < fuel →
    ((pre.length + 1 + mid.length : Nat) : Int) ≤ end_ →
    (∀ m ∈ mid, ∃ lp, loopers[m]? = some lp ∧ lp.nextCall ≤ nc) →
    (((pre.length + 1 + mid.length : Nat) : Int) = end_ ∨
      ∃ m2 rest2 lp, rest = m2 :: rest2 ∧ loopers[m2]? = some lp ∧ nc < lp.nextCall) →
    shiftLeftWhile loopers nc fuel end_ (pre ++ x :: mid ++ rest) (pre.length + 1) =
      some (pre ++ mid ++ [(x :: mid).getLast (by simp)] ++ rest, pre.length + mid.length) := by
  induction mid with
  | nil =>
    intro pre x fuel hf hend _ hstop
    obtain ⟨f, rfl⟩ := Nat.exists_eq_succ_of_ne_zero (by omega : fuel ≠ 0)
    by_cases he : ((pre.length + 1 : Nat) : Int) = end_
    · simp [shiftLeftWhile, he]
    · rcases hstop with h | ⟨m2, rest2, lp, h1, h2, h3⟩
      · exact absurd h (by simpa using he)
      · subst h1
        have hget : (pre ++ x :: [] ++ m2 :: rest2)[pre.length + 1]? = some m2 := by
          rw [List.append_assoc, List.getElem?_append_right (by omega)]
          simp
        have h4 : ¬ lp.nextCall ≤ nc := by omega
        simp only [shiftLeftWhile, he, ne_eq, not_false_eq_true, if_true, hget, h2, h4, if_false]
        simp
  | cons m mid ih =>
    intro pre x fuel hf hend hmid hstop
    obtain ⟨f, rfl⟩ := Nat.exists_eq_succ_of_ne_zero (by omega : fuel ≠ 0)
    simp only [List.length_cons] at hf hend hstop
    have hne : ((pre.length + 1 : Nat) : Int) ≠ end_ := by omega
    have hget : (pre ++ x :: (m :: mid) ++ rest)[pre.length + 1]? = some m := by
      rw [List.append_assoc, List.getElem?_append_right (by omega)]
      simp
    have hset : (pre ++ x :: (m :: mid) ++ rest).set (pre.length + 1 - 1) m
        = (pre ++ [m]) ++ m :: mid ++ rest := by
      simp [List.set_append]
    obtain ⟨lp, hlp, hle⟩ := hmid m (by simp)
    simp only [shiftLeftWhile, hne, ne_eq, not_false_eq_true, if_true, hget, hlp, hle, hset]
    have := ih (pre ++ [m]) m f (by omega)
      (by simp only [List.length_append, List.length_singleton]; omega)
      (fun y hy => hmid y (by simp [hy]))
      (by
        rcases hstop with h | h
        · left; simp only [List.length_append, List.length_singleton]; omega
        · right; exact h)
    simp only [List.length_append, List.length_singleton] at this
    rw [this]
    simp
    omega

theorem shiftRight_spec (act : List Nat) : ∀ (x : Nat) (tail : List Nat),
    shiftRight (act ++ x :: tail) act.length = some (act.headD x :: act ++ tail) := by
  induction act using List.reverseRecOn with
  | nil => intro x tail; simp [shiftRight]
  | append_singleton act b ih =>
    intro x tail
    have hget : (act ++ [b] ++ x :: tail)[act.length]? = some b := by
      rw [List.append_assoc, List.getElem?_append_right (by omega)]
      simp
    have hlt : act.length + 1 < (act ++ [b] ++ x :: tail).length := by simp
    have hset : (act ++ [b] ++ x :: tail).set (act.length + 1) b = act ++ b :: (b :: tail) := by
      rw [List.append_assoc, List.set_append_right _ _ (by omega)]
      simp
    simp only [List.length_append, List.length_singleton, shiftRight, hget]
    simp only [List.length_append, List.length_singleton] at hlt
    rw [if_pos (by simp), hset, ih b (b :: tail)]
    cases act <;> simp

theorem nodup_length_lt (l : List Nat) (n i : Nat) (hn : l.Nodup) (hl : ∀ x ∈ l, x < n)
    (hi : i < n) (hni : i ∉ l) : l.length < n := by
  have h1 : (i :: l).Nodup := List.nodup_cons.mpr ⟨hni, hn⟩
  have h2 : (i :: l).toFinset ⊆ Finset.range n := by
    intro x hx
    simp only [List.toFinset_cons, Finset.mem_insert, List.mem_toFinset] at hx
    rcases hx with hx | hx
    · simp [hx, hi]
    · simpa using hl x hx
  have h3 := Finset.card_le_card h2
  rw [List.toFinset_card_of_nodup h1, Finset.card_range, List.length_cons] at h3
  omega

theorem Scheduler.active_length (s : Scheduler) (h1 : 0 ≤ s.pqSize)
    (h2 : s.pqSize ≤ s.pq.length) : (s.active.length : Int) = s.pqSize := by
  unfold Scheduler.active
  rw [List.length_take]
  omega

theorem Scheduler.pq_eq (s : Scheduler) : s.pq = s.active ++ s.pq.drop s.pqSize.toNat := by
  unfold Scheduler.active
  rw [List.take_append_drop]

theorem Scheduler.stateOf_eq (s : Scheduler) (i : Nat) (lp : Looper)
    (h : s.loopers[i]? = some lp) : s.stateOf i = some lp.state := by
  simp [Scheduler.stateOf, h]

theorem lt_of_getElem?_eq_some {α : Type} (l : List α) (i : Nat) (x : α)
    (h : l[i]? = some x) : i < l.length := by
  by_contra hn
  rw [List.getElem?_eq_none (by omega)] at h
  exact absurd h (by simp)

/-- The scheduler with the state (and `nextCall`) of looper `i` replaced. -/
theorem stateOf_set (s : Scheduler) (i j : Nat) (lp : Looper) (pq : List Nat) (n : Int)
    (hi : i < s.loopers.length) :
    Scheduler.stateOf { s with loopers := s.loopers.set i lp, pq := pq, pqSize := n } j =
      if i = j then some lp.state else s.stateOf j := by
  unfold Scheduler.stateOf
  simp only [List.getElem?_set, hi, if_true]
  split_ifs <;> rfl

/-- Changing only the state of a looper that stays on its side of the ordering
keeps the tables consistent. -/
theorem consistent_set_state (s : Scheduler) (hc : s.Consistent) (i : Nat) (lp lp2 : Looper)
    (hlp : s.loopers[i]? = some lp) (h3 : lp2.state ≤ 3)
    (hsame : lp.state ≠ DISABLED ↔ lp2.state ≠ DISABLED) :
    Scheduler.Consistent { s with loopers := s.loopers.set i lp2 } := by
  obtain ⟨c1, c2, c3, c4, c5, c6⟩ := hc
  have hi := lt_of_getElem?_eq_some _ _ _ hlp
  refine ⟨by simpa using c1, c2, c3, c4, by simpa using c5, ?_⟩
  intro j st hj
  have := stateOf_set s i j lp2 s.pq s.pqSize hi
  simp only at this
  rw [this] at hj
  by_cases hij : i = j
  · subst hij
    simp only [if_true, Option.some.injEq] at hj
    subst hj
    refine ⟨h3, ?_⟩
    have := (c6 i lp.state (s.stateOf_eq i lp hlp)).2
    exact this.trans hsame
  · rw [if_neg hij] at hj
    exact c6 j st hj

/-- Effect of `enableLooper` on a looper that is `DISABLED`. -/
theorem enableLooper_disabled (s : Scheduler) (hc : s.Consistent) (i : Nat) (lp : Looper)
    (hlp : s.loopers[i]? = some lp) (hst : lp.state = DISABLED) :
    ∃ pq, enableLooper s i = some { s with
        loopers := s.loopers.set i { nextCall := s.now, state := ENABLED }
        pq := pq, pqSize := s.pqSize + 1 } ∧
      pq.length = s.pq.length ∧ pq.take (s.pqSize + 1).toNat = i :: s.active ∧
      s.pqSize + 1 ≤ s.pq.length ∧ i ∉ s.active := by
  obtain ⟨c1, c2, c3, c4, c5, c6⟩ := hc
  have hi := lt_of_getElem?_eq_some _ _ _ hlp
  have hni : i ∉ s.active := by
    intro hmem
    have := (c6 i lp.state (s.stateOf_eq i lp hlp)).2.mp hmem
    exact this hst
  have hlen := nodup_length_lt s.active s.loopers.length i c4 c5 hi hni
  have hal := s.active_length c2 c3
  have hdrop : s.pq.drop s.pqSize.toNat ≠ [] := by
    intro h
    have := congrArg List.length h
    simp only [List.length_drop, List.length_nil] at this
    omega
  obtain ⟨x, tail, hxt⟩ := List.exists_cons_of_ne_nil hdrop
  have hpq : s.pq = s.active ++ x :: tail := by rw [← hxt]; exact s.pq_eq
  have hsize : s.pqSize.toNat = s.active.length := by omega
  have e1 : lp.state ≠ ENABLED ∧ lp.state ≠ EXECUTED_ENABLED ∧ lp.state ≠ EXECUTED_DISABLED := by
    rw [hst]; decide
  have hshift := shiftRight_spec s.active x tail
  refine ⟨i :: s.active ++ tail, ?_, ?_, ?_, by omega, hni⟩
  · unfold enableLooper
    simp only [hlp, e1.1, e1.2.1, e1.2.2, or_self, if_false, not_lt.mpr c2]
    rw [hsize]
    conv_lhs => rw [hpq]
    simp only [hshift]
    simp
  · rw [hpq]; simp; omega
  · have : (s.pqSize + 1).toNat = s.active.length + 1 := by omega
    rw [this]
    simp

theorem split_active (s : Scheduler) (a : Nat) (ha : a ∈ s.active) (hn : s.active.Nodup) :
    ∃ pre mid tail, s.active = pre ++ a :: mid ∧ a ∉ pre ∧ a ∉ mid ∧
      s.pq = pre ++ a :: mid ++ tail := by
  obtain ⟨pre, mid, h⟩ := List.append_of_mem ha
  rw [h] at hn
  have h1 : a ∉ pre := by
    intro hp
    have := (List.nodup_append.mp hn).2.2
    exact this hp (by simp)
  have h2 : a ∉ mid := by
    have := (List.nodup_append.mp hn).2.1
    exact (List.nodup_cons.mp this).1
  refine ⟨pre, mid, s.pq.drop s.pqSize.toNat, h, h1, h2, ?_⟩
  have := s.pq_eq
  rw [h] at this
  exact this

/-- The search and the removal loop shared by `disableLooper` and the
`EXECUTED_DISABLED` branch of `processLoopers`. -/
theorem remove_spec (s : Scheduler) (a : Nat) (ha : a ∈ s.active) (hn : s.active.Nodup)
    (h0 : 0 ≤ s.pqSize) (hle : s.pqSize ≤ s.pq.length) :
    ∃ pos pq, findLooper a s.pq 0 = some pos ∧
      shiftLeft (s.pq.length + 1) s.pqSize s.pq (pos + 1) = some pq ∧
      pq.length = s.pq.length ∧ pq.take (s.pqSize - 1).toNat = s.active.erase a ∧
      1 ≤ s.pqSize := by
  obtain ⟨pre, mid, tail, h1, h2, -, h4⟩ := split_active s a ha hn
  have hal := s.active_length h0 hle
  rw [h1] at hal
  simp only [List.length_append, List.length_cons] at hal
  have hend : s.pqSize = ((pre.length + 1 + mid.length : Nat) : Int) := by
    push_cast; omega
  have hfind : findLooper a s.pq 0 = some pre.length := by
    rw [h4, List.append_assoc]
    have := findLooper_spec a pre (mid ++ tail) 0 h2
    simpa using this
  have hshift := shiftLeft_spec tail mid pre a (s.pq.length + 1) (by
    have := congrArg List.length h4
    simp only [List.length_append, List.length_cons] at this
    omega)
  refine ⟨pre.length, pre ++ mid ++ [(a :: mid).getLast (by simp)] ++ tail,
    hfind, ?_, ?_, ?_, by omega⟩
  · rw [hend]
    rw [h4] at hshift ⊢
    exact hshift
  · rw [h4]
    simp only [List.length_append, List.length_cons, List.length_singleton, List.length_nil]
    omega
  · rw [h1, List.erase_append_right _ h2, List.erase_cons_head]
    have : (s.pqSize - 1).toNat = (pre ++ mid).length := by
      simp only [List.length_append]; omega
    rw [this, List.append_assoc (pre ++ mid), List.take_left']
    rfl

/-- The search and the reinsertion loop of the `EXECUTED_ENABLED` branch of
`processLoopers`. -/
theorem reinsert_spec (s : Scheduler) (a : Nat) (nc : Nat) (ha : a ∈ s.active)
    (hn : s.active.Nodup) (h0 : 0 ≤ s.pqSize) (hle : s.pqSize ≤ s.pq.length)
    (hvalid : ∀ i ∈ s.active, i < s.loopers.length) :
    ∃ pos pq writePos pre mid, findLooper a s.pq 0 = some pos ∧
      shiftLeftWhile s.loopers nc (s.pq.length + 1) s.pqSize s.pq (pos + 1)
        = some (pq, writePos) ∧
      s.active = pre ++ a :: mid ∧ a ∉ pre ∧ a ∉ mid ∧
      (pq.set writePos a).length = s.pq.length ∧
      (pq.set writePos a).take s.pqSize.toNat =
        pre ++ mid.takeWhile (dueBefore s.loopers nc) ++ a ::
          mid.dropWhile (dueBefore s.loopers nc) := by
  obtain ⟨pre, mid, tail, h1, h2, h3, h4⟩ := split_active s a ha hn
  have hal := s.active_length h0 hle
  rw [h1] at hal
  simp only [List.length_append, List.length_cons] at hal
  have hfind : findLooper a s.pq 0 = some pre.length := by
    rw [h4, List.append_assoc]
    have := findLooper_spec a pre (mid ++ tail) 0 h2
    simpa using this
  set mid1 := mid.takeWhile (dueBefore s.loopers nc) with hm1
  set mid2 := mid.dropWhile (dueBefore s.loopers nc) with hm2
  have hmid : mid = mid1 ++ mid2 := (List.takeWhile_append_dropWhile _ _).symm
  have hmidlen : mid.length = mid1.length + mid2.length := by
    conv_lhs => rw [hmid]
    simp
  have hpqlen : pre.length + 1 + mid.length ≤ s.pq.length := by
    have := congrArg List.length h4
    simp only [List.length_append, List.length_cons] at this
    omega
  have hshift := shiftLeftWhile_spec s.loopers nc s.pqSize
    (mid2 ++ tail) mid1 pre a (s.pq.length + 1) (by omega)
    (by push_cast; omega)
    (by
      intro m hm
      have hp : dueBefore s.loopers nc m = true := List.mem_takeWhile_imp hm
      unfold dueBefore at hp
      cases hlp : s.loopers[m]? with
      | none => rw [hlp] at hp; exact absurd hp (by simp)
      | some lp =>
        rw [hlp] at hp
        exact ⟨lp, rfl, by simpa using hp⟩)
    (by
      cases hmid2 : mid2 with
      | nil =>
        left
        rw [hmid2] at hmidlen
        simp only [List.length_nil] at hmidlen
        push_cast; omega
      | cons m2 rest2 =>
        right
        have hm2mem : m2 ∈ s.active := by
          rw [h1, hmid, hmid2]; simp
        have hv := hvalid m2 hm2mem
        have hnot : dueBefore s.loopers nc m2 = false := by
          have := List.head_dropWhile_not (dueBefore s.loopers nc) mid
            (by rw [← hm2, hmid2]; simp)
          simpa [← hm2, hmid2] using this
        unfold dueBefore at hnot
        rw [List.getElem?_eq_getElem hv] at hnot
        refine ⟨m2, rest2 ++ tail, s.loopers[m2], by simp,
          List.getElem?_eq_getElem hv, ?_⟩
        simpa using hnot)
  have hpq2 : s.pq = pre ++ a :: mid1 ++ (mid2 ++ tail) := by
    rw [h4, hmid]; simp
  refine ⟨pre.length,
    pre ++ mid1 ++ [(a :: mid1).getLast (by simp)] ++ (mid2 ++ tail),
    pre.length + mid1.length, pre, mid, hfind, ?_, h1, h2, h3, ?_, ?_⟩
  · rw [hpq2] at hshift ⊢
    exact hshift
  · rw [h4]
    simp only [List.length_set, List.length_append, List.length_cons, List.length_singleton,
      List.length_nil]
    omega
  · have e : s.pqSize.toNat = (pre ++ mid1 ++ a :: mid2).length := by
      simp only [List.length_append, List.length_cons]; omega
    rw [e]
    have : (pre ++ mid1 ++ [(a :: mid1).getLast (by simp)] ++
        (mid2 ++ tail)).set (pre.length + mid1.length) a
        = (pre ++ mid1 ++ a :: mid2) ++ tail := by
      rw [List.append_assoc (pre ++ mid1), List.set_append_right _ _ (by simp)]
      simp
    rw [this, List.take_left']
    rfl

theorem consistent_update (s : Scheduler) (hc : s.Consistent) (i : Nat) (lp2 : Looper)
    (pq : List Nat) (n : Int) (hi : i < s.loopers.length) (h3 : lp2.state ≤ 3)
    (hlen : pq.length = s.pq.length) (h0 : 0 ≤ n) (hn : n ≤ pq.length)
    (hnodup : (pq.take n.toNat).Nodup)
    (hmem : ∀ j, j ∈ pq.take n.toNat ↔ (if i = j then lp2.state ≠ DISABLED else j ∈ s.active)) :
    Scheduler.Consistent { s with loopers := s.loopers.set i lp2, pq := pq, pqSize := n } := by
  obtain ⟨c1, c2, c3, c4, c5, c6⟩ := hc
  refine ⟨by simp [hlen, c1], h0, hn, hnodup, ?_, ?_⟩
  · intro j hj
    simp only [Scheduler.active] at hj
    simp only [List.length_set]
    have := (hmem j).mp hj
    by_cases hij : i = j
    · rw [← hij]; exact hi
    · rw [if_neg hij] at this
      exact c5 j this
  · intro j st hj
    rw [stateOf_set s i j lp2 pq n hi] at hj
    simp only [Scheduler.active]
    by_cases hij : i = j
    · rw [if_pos hij, Option.some.injEq] at hj
      subst hj
      refine ⟨h3, ?_⟩
      rw [hmem j, if_pos hij]
    · rw [if_neg hij] at hj
      refine ⟨(c6 j st hj).1, ?_⟩
      rw [hmem j, if_neg hij]
      exact (c6 j st hj).2

theorem takeWhile_congr_mem (p q : Nat → Bool) (l : List Nat) (h : ∀ x ∈ l, p x = q x) :
    l.takeWhile p = l.takeWhile q ∧ l.dropWhile p = l.dropWhile q := by
  induction l with
  | nil => exact ⟨rfl, rfl⟩
  | cons x xs ih =>
    have hx := h x (by simp)
    obtain ⟨i1, i2⟩ := ih (fun y hy => h y (by simp [hy]))
    simp only [List.takeWhile_cons, List.dropWhile_cons, hx, i1, i2]
    exact ⟨trivial, trivial⟩

theorem dueBefore_set (loopers : List Looper) (a : Nat) (lp : Looper) (nc m : Nat)
    (h : m ≠ a) : dueBefore (loopers.set a lp) nc m = dueBefore loopers nc m := by
  unfold dueBefore
  rw [List.getElem?_set_ne (fun e => h e.symm)]

/-- The part of an iteration of `processLoopers` that follows the return of the
handler, on the tables `s2` the handler left behind. -/
theorem passIteration_due {W : Type} (handlers : Handlers W) (p : Pass W) (a : Nat)
    (lp : Looper) (s2 : Scheduler) (lp2 : Looper)
    (hpq0 : p.sched.pq[0]? = some a) (hsize : p.sched.pqSize ≠ 0)
    (hlp : p.sched.loopers[a]? = some lp) (hdue : lp.nextCall ≤ p.sched.now)
    (hrun : runCalls (handlers a p.world).calls
      { p.sched with loopers := p.sched.loopers.set a { lp with state := EXECUTED_ENABLED } }
        = some s2)
    (hc2 : s2.Consistent) (hlp2 : s2.loopers[a]? = some lp2)
    (hst2 : lp2.state = EXECUTED_ENABLED ∨ lp2.state = EXECUTED_DISABLED) :
    ∃ p1, passIteration handlers p = some p1 ∧ p1.trace = p.trace ++ [a] ∧
      p1.world = (handlers a p.world).world ∧ p1.returned = false ∧
      p1.sched.Consistent ∧ p1.sched.now = s2.now ∧
      (lp2.state = EXECUTED_ENABLED →
        p1.sched.loopers = s2.loopers.set a
          ⟨(s2.now + (handlers a p.world).result) % ULONG_RANGE, ENABLED⟩ ∧
        p1.sched.pqSize = s2.pqSize ∧
        ∃ pre mid, s2.active = pre ++ a :: mid ∧ a ∉ pre ∧ a ∉ mid ∧
          p1.sched.active = pre
            ++ mid.takeWhile (dueBefore s2.loopers
                ((s2.now + (handlers a p.world).result) % ULONG_RANGE))
            ++ a :: mid.dropWhile (dueBefore s2.loopers
                ((s2.now + (handlers a p.world).result) % ULONG_RANGE))) ∧
      (lp2.state = EXECUTED_DISABLED →
        p1.sched.loopers = s2.loopers.set a
          ⟨(s2.now + (handlers a p.world).result) % ULONG_RANGE, DISABLED⟩ ∧
        p1.sched.pqSize = s2.pqSize - 1 ∧
        p1.sched.active = s2.active.erase a) := by
  set nc := (s2.now + (handlers a p.world).result) % ULONG_RANGE with hnc
  have ha2 : a < s2.loopers.length := lt_of_getElem?_eq_some _ _ _ hlp2
  -- the tables after the assignment of `nextCall`
  set s3 : Scheduler := { s2 with loopers := s2.loopers.set a { lp2 with nextCall := nc } }
    with hs3
  have hc3 : s3.Consistent :=
    consistent_set_state s2 hc2 a lp2 { lp2 with nextCall := nc } hlp2
      (by rcases hst2 with h | h <;> rw [h] <;> decide) Iff.rfl
  have hact3 : s3.active = s2.active := rfl
  have hmem : a ∈ s2.active := by
    have := (hc2.2.2.2.2.2 a lp2.state (s2.stateOf_eq a lp2 hlp2)).2
    rw [this]
    rcases hst2 with h | h <;> rw [h] <;> decide
  obtain ⟨c1, c2, c3, c4, c5, c6⟩ := hc3
  have hnotdue : ¬ (lp.nextCall > p.sched.now) := by omega
  have hget3 : (s2.loopers.set a { lp2 with nextCall := nc })[a]?
      = some { lp2 with nextCall := nc } := by
    rw [List.getElem?_set_self ha2]
  by_cases hst : lp2.state = EXECUTED_ENABLED
  · obtain ⟨pos, pq, writePos, pre, mid, f1, f2, f3, f4, f5, f6, f7⟩ :=
      reinsert_spec s3 a nc hmem c4 c2 c3 c5
    have hiter : passIteration handlers p = some
        { sched := { s3 with
            loopers := s3.loopers.set a { nextCall := nc, state := ENABLED }
            pq := pq.set writePos a }
          world := (handlers a p.world).world
          trace := p.trace ++ [a]
          returned := false } := by
      unfold passIteration
      simp only [hpq0, hsize, if_false, hlp, hnotdue, hrun, hlp2, hst, if_true]
      simp only [hs3, hst] at f1 f2
      simp only [← hnc, f1, f2]
    refine ⟨_, hiter, rfl, rfl, rfl, ?_, rfl, ?_, ?_⟩
    · have := consistent_update s3 ⟨c1, c2, c3, c4, c5, c6⟩ a { nextCall := nc, state := ENABLED }
        (pq.set writePos a) s3.pqSize (by simpa [hs3] using ha2)
        (by show ENABLED ≤ 3; decide) f6 c2
        (by rw [f6]; exact c3) (by
          rw [f7]
          have h1 := c4
          rw [f3] at h1
          have hperm : (pre ++ mid.takeWhile (dueBefore s3.loopers nc) ++ a ::
              mid.dropWhile (dueBefore s3.loopers nc)).Perm (pre ++ a :: mid) := by
            rw [List.append_assoc]
            apply List.Perm.append_left
            have := List.takeWhile_append_dropWhile (dueBefore s3.loopers nc) mid
            conv_rhs => rw [← this]
            exact List.perm_middle
          exact hperm.nodup_iff.mpr h1)
        (by
          intro j
          rw [f7]
          have hperm : (pre ++ mid.takeWhile (dueBefore s3.loopers nc) ++ a ::
              mid.dropWhile (dueBefore s3.loopers nc)).Perm (pre ++ a :: mid) := by
            rw [List.append_assoc]
            apply List.Perm.append_left
            have := List.takeWhile_append_dropWhile (dueBefore s3.loopers nc) mid
            conv_rhs => rw [← this]
            exact List.perm_middle
          rw [hperm.mem_iff, ← f3]
          by_cases haj : a = j
          · subst haj
            simp only [if_true]
            exact ⟨fun _ => by decide, fun _ => hmem⟩
          · rw [if_neg haj])
      exact this
    · intro _
      refine ⟨by simp [hs3], rfl, pre, mid, f3, f4, f5, ?_⟩
      have hcongr := takeWhile_congr_mem (dueBefore s3.loopers nc) (dueBefore s2.loopers nc) mid
        (fun m hm => dueBefore_set s2.loopers a _ nc m (fun e => f5 (e ▸ hm)))
      rw [← hcongr.1, ← hcongr.2]
      exact f7
    · intro h
      rw [hst] at h
      exact absurd h (by decide)
  · have hst3 : lp2.state = EXECUTED_DISABLED := by
      rcases hst2 with h | h
      · exact absurd h hst
      · exact h
    obtain ⟨pos, pq, f1, f2, f3, f4, f5⟩ := remove_spec s3 a hmem c4 c2 c3
    have hiter : passIteration handlers p = some
        { sched := { s3 with
            loopers := s3.loopers.set a { nextCall := nc, state := DISABLED }
            pq := pq
            pqSize := s3.pqSize - 1 }
          world := (handlers a p.world).world
          trace := p.trace ++ [a]
          returned := false } := by
      unfold passIteration
      simp only [hpq0, hsize, if_false, hlp, hnotdue, hrun, hlp2, hst]
      simp only [hs3] at f1 f2
      simp only [← hnc, f1, f2]
    refine ⟨_, hiter, rfl, rfl, rfl, ?_, rfl, ?_, ?_⟩
    · have := consistent_update s3 ⟨c1, c2, c3, c4, c5, c6⟩ a { nextCall := nc, state := DISABLED }
        pq (s3.pqSize - 1) (by simpa [hs3] using ha2)
        (by show DISABLED ≤ 3; decide) f3 (by omega)
        (by rw [f3]; omega) (by rw [f4]; exact c4.erase a)
        (by
          intro j
          rw [f4]
          by_cases haj : a = j
          · subst haj
            simp only [if_true]
            constructor
            · intro hm
              exact absurd hm (List.Nodup.not_mem_erase c4)
            · intro hm
              exact absurd rfl hm
          · rw [if_neg haj]
            exact List.mem_erase_of_ne (fun e => haj e.symm))
      exact this
    · intro h
      exact absurd h hst
    · intro _
      exact ⟨by simp [hs3], rfl, f4⟩

theorem nextCallOf_eq (s : Scheduler) (i : Nat) (lp : Looper) (h : s.loopers[i]? = some lp) :
    s.nextCallOf i = lp.nextCall := by
  simp [Scheduler.nextCallOf, h]

theorem nextCallOf_set_ne (s : Scheduler) (a i : Nat) (lp : Looper) (pq : List Nat) (n : Int)
    (t : Nat) (h : i ≠ a) :
    Scheduler.nextCallOf { loopers := s.loopers.set a lp, pq := pq, pqSize := n, now := t } i
      = s.nextCallOf i := by
  unfold Scheduler.nextCallOf
  simp only
  rw [List.getElem?_set_ne (fun e => h e.symm)]

theorem dueBefore_eq (s : Scheduler) (nc i : Nat) (hi : i < s.loopers.length) :
    dueBefore s.loopers nc i = decide (s.nextCallOf i ≤ nc) := by
  unfold dueBefore Scheduler.nextCallOf
  rw [List.getElem?_eq_getElem hi]

theorem active_head (s : Scheduler) (a : Nat) (rest : List Nat) (h : s.active = a :: rest) :
    s.pq[0]? = some a ∧ s.pqSize ≠ 0 := by
  unfold Scheduler.active at h
  constructor
  · have := congrArg (fun l => l[0]?) h
    simp only [List.getElem?_cons_zero] at this
    rw [List.getElem?_take] at this
    split_ifs at this with h0
    exact this
  · intro h0
    rw [h0] at h
    simp at h

theorem passLoop_returned {W : Type} (handlers : Handlers W) (fuel : Nat) (p : Pass W)
    (h : p.returned = true) : passLoop handlers fuel p = some p := by
  cases fuel <;> simp [passLoop, h]

theorem passLoop_step {W : Type} (handlers : Handlers W) (fuel : Nat) (p p1 : Pass W)
    (h : p.returned = false) (h1 : passIteration handlers p = some p1) :
    passLoop handlers (fuel + 1) p = passLoop handlers fuel p1 := by
  simp [passLoop, h, h1]

/-- An iteration on tables whose ordering is empty or starts with a looper
that is not due returns. -/
theorem passIteration_stop {W : Type} (handlers : Handlers W) (p : Pass W)
    (hc : p.sched.Consistent) (hpq : 0 < p.sched.pq.length)
    (h : ∀ i ∈ p.sched.active, p.sched.now < p.sched.nextCallOf i) :
    passIteration handlers p = some { p with returned := true } := by
  obtain ⟨x, hx⟩ : ∃ x, p.sched.pq[0]? = some x := ⟨_, List.getElem?_eq_getElem hpq⟩
  unfold passIteration
  simp only [hx]
  by_cases h0 : p.sched.pqSize = 0
  · simp [h0]
  · simp only [h0, if_false]
    have hmem : x ∈ p.sched.active := by
      unfold Scheduler.active
      rw [List.mem_take_iff_getElem]
      refine ⟨0, ?_, ?_⟩
      · have := hc.2.1
        simp only [lt_min_iff]
        omega
      · rw [List.getElem?_eq_getElem hpq] at hx
        exact Option.some.inj hx
    have hv := hc.2.2.2.2.1 x hmem
    have hd := h x hmem
    rw [nextCallOf_eq _ x _ (List.getElem?_eq_getElem hv)] at hd
    simp [List.getElem?_eq_getElem hv, hd]

theorem cons_eq_append_cons (a : Nat) (rest pre mid : List Nat)
    (h : a :: rest = pre ++ a :: mid) (ha : a ∉ pre) : pre = [] ∧ mid = rest := by
  cases pre with
  | nil => simp only [List.nil_append, List.cons.injEq, true_and] at h; exact ⟨rfl, h.symm⟩
  | cons x xs =>
    simp only [List.cons_append, List.cons.injEq] at h
    exact absurd (by rw [← h.1]; simp) ha

theorem passLoop_plain {W : Type} (handlers : Handlers W) (millis : Nat)
    (hh : PlainHandlers handlers millis) (old : List Nat) :
    ∀ (p : Pass W) (new : List Nat) (fuel : Nat), p.returned = false → p.sched.Consistent →
    p.sched.now = millis → 0 < p.sched.pq.length → p.sched.active = old ++ new →
    (∀ i ∈ old, p.sched.nextCallOf i ≤ millis) →
    (∀ i ∈ new, millis < p.sched.nextCallOf i) → old.length < fuel →
    ∃ p1, passLoop handlers fuel p = some p1 ∧ p1.returned = true ∧
      p1.trace = p.trace ++ old ∧ p1.sched.Consistent ∧
      (∀ i ∈ p1.sched.active, millis < p1.sched.nextCallOf i) := by
  induction old with
  | nil =>
    intro p new fuel hret hc hnow hpq hact _ hnew hfuel
    obtain ⟨f, rfl⟩ := Nat.exists_eq_succ_of_ne_zero (by omega : fuel ≠ 0)
    have hstop := passIteration_stop handlers p hc hpq (by
      intro i hi
      rw [hnow]
      rw [hact] at hi
      exact hnew i (by simpa using hi))
    rw [passLoop_step handlers f p _ hret hstop, passLoop_returned handlers f _ rfl]
    refine ⟨_, rfl, rfl, by simp, hc, ?_⟩
    intro i hi
    rw [hact] at hi
    exact hnew i (by simpa using hi)
  | cons a old ih =>
    intro p new fuel hret hc hnow hpq hact hold hnew hfuel
    obtain ⟨f, rfl⟩ := Nat.exists_eq_succ_of_ne_zero (by omega : fuel ≠ 0)
    simp only [List.length_cons] at hfuel
    obtain ⟨hpq0, hsize⟩ := active_head p.sched a (old ++ new) (by rw [hact]; rfl)
    have hamem : a ∈ p.sched.active := by rw [hact]; simp
    have hav := hc.2.2.2.2.1 a hamem
    have hlp := List.getElem?_eq_getElem hav
    set lp := p.sched.loopers[a] with hlpdef
    have hdue : lp.nextCall ≤ p.sched.now := by
      have := hold a (by simp)
      rw [nextCallOf_eq _ a lp hlp] at this
      omega
    obtain ⟨hcalls, hpos, hwrap⟩ := hh a p.world
    -- tables when the handler is called
    have hlp3 : lp.state ≤ 3 ∧ lp.state ≠ DISABLED := by
      have := hc.2.2.2.2.2 a lp.state (p.sched.stateOf_eq a lp hlp)
      exact ⟨this.1, this.2.mp hamem⟩
    have hc1 := consistent_set_state p.sched hc a lp { lp with state := EXECUTED_ENABLED } hlp
      (show EXECUTED_ENABLED ≤ 3 by decide)
      ⟨fun _ => (show EXECUTED_ENABLED ≠ DISABLED by decide), fun _ => hlp3.2⟩
    have hrun : runCalls (handlers a p.world).calls
        { p.sched with loopers := p.sched.loopers.set a { lp with state := EXECUTED_ENABLED } }
        = some { p.sched with
            loopers := p.sched.loopers.set a { lp with state := EXECUTED_ENABLED } } := by
      rw [hcalls]; rfl
    obtain ⟨p1, h1, h2, h3, h4, h5, h6, h7, -⟩ := passIteration_due handlers p a lp _
      { lp with state := EXECUTED_ENABLED } hpq0 hsize hlp hdue hrun hc1
      (by simp only; rw [List.getElem?_set_self hav]) (Or.inl rfl)
    obtain ⟨h71, h72, pre, mid, h73, h74, h75, h76⟩ := h7 rfl
    simp only at h6 h71 h72 h73 h76
    have hact1 : Scheduler.active { p.sched with
        loopers := p.sched.loopers.set a { lp with state := EXECUTED_ENABLED } }
        = p.sched.active := rfl
    rw [hact1, hact] at h73
    obtain ⟨hpre, hmid⟩ := cons_eq_append_cons a (old ++ new) pre mid h73 h74
    subst hpre hmid
    have hnodup : (a :: (old ++ new)).Nodup := by
      have := hc.2.2.2.1
      rw [hact] at this
      exact this
    have hnotin : a ∉ old ++ new := (List.nodup_cons.mp hnodup).1
    rw [hnow] at h76 h71
    set nc := (millis + (handlers a p.world).result) % ULONG_RANGE with hnc
    have hncval : nc = millis + (handlers a p.world).result := Nat.mod_eq_of_lt hwrap
    -- entries of `old` pass the test of the reinsertion loop
    have hq_old : ∀ m ∈ old, dueBefore (p.sched.loopers.set a
        { lp with state := EXECUTED_ENABLED }) nc m = true := by
      intro m hm
      have hma : m ≠ a := fun e => hnotin (by rw [← e]; simp [hm])
      rw [dueBefore_set _ _ _ _ _ hma]
      have hmv := hc.2.2.2.2.1 m (by rw [hact]; simp [hm])
      rw [dueBefore_eq _ _ _ hmv]
      have := hold m (by simp [hm])
      simp only [decide_eq_true_eq]
      omega
    rw [List.takeWhile_append_of_pos hq_old, List.dropWhile_append_of_pos hq_old,
      List.nil_append, List.append_assoc] at h76
    have hnext : ∀ i, i ≠ a → p1.sched.nextCallOf i = p.sched.nextCallOf i := by
      intro i hi
      unfold Scheduler.nextCallOf
      rw [h71, List.getElem?_set_ne (fun e => hi e.symm),
        List.getElem?_set_ne (fun e => hi e.symm)]
    have hnexta : p1.sched.nextCallOf a = nc := by
      unfold Scheduler.nextCallOf
      rw [h71, List.getElem?_set_self (by simpa using hav)]
    have hpq1 : 0 < p1.sched.pq.length := by
      have := h5.1
      rw [this, h71]
      simp only [List.length_set]
      omega
    obtain ⟨p2, g1, g2, g3, g4, g5⟩ := ih p1 _ f h4 h5 (by rw [h6]; exact hnow) hpq1 h76
      (by
        intro i hi
        have hia : i ≠ a := fun e => hnotin (by rw [← e]; simp [hi])
        rw [hnext i hia]
        exact hold i (by simp [hi]))
      (by
        intro i hi
        simp only [List.mem_append, List.mem_cons] at hi
        rcases hi with hi | hi | hi
        · have hin := (List.takeWhile_sublist _).subset hi
          have hia : i ≠ a := fun e => hnotin (by rw [← e]; simp [hin])
          rw [hnext i hia]
          exact hnew i hin
        · rw [hi, hnexta]; omega
        · have hin := (List.dropWhile_sublist _).subset hi
          have hia : i ≠ a := fun e => hnotin (by rw [← e]; simp [hin])
          rw [hnext i hia]
          exact hnew i hin)
      (by omega)
    rw [passLoop_step handlers f p p1 hret h1]
    exact ⟨p2, g1, g2, by rw [g3, h2]; simp, g4, g5⟩

theorem stateOf_set_ne (s : Scheduler) (i j : Nat) (lp : Looper) (pq : List Nat) (n : Int)
    (t : Nat) (h : j ≠ i) :
    Scheduler.stateOf { loopers := s.loopers.set i lp, pq := pq, pqSize := n, now := t } j
      = s.stateOf j := by
  unfold Scheduler.stateOf
  simp only
  rw [List.getElem?_set_ne (fun e => h e.symm)]

theorem stateOf_set_self (s : Scheduler) (i : Nat) (lp : Looper) (pq : List Nat) (n : Int)
    (t : Nat) (h : i < s.loopers.length) :
    Scheduler.stateOf { loopers := s.loopers.set i lp, pq := pq, pqSize := n, now := t } i
      = some lp.state := by
  unfold Scheduler.stateOf
  simp only
  rw [List.getElem?_set_self h]
  rfl

theorem enableLooper_consistent (s s1 : Scheduler) (i : Nat) (hc : s.Consistent)
    (h : enableLooper s i = some s1) :
    s1.Consistent ∧ s1.now = s.now ∧
      (∀ j, j ≠ i → s1.stateOf j = s.stateOf j ∧ s1.nextCallOf j = s.nextCallOf j) ∧
      (∀ st, s.stateOf i = some st → s1.stateOf i = some (enabledState st)) := by
  cases hlp : s.loopers[i]? with
  | none => simp [enableLooper, hlp] at h
  | some lp =>
    have hi := lt_of_getElem?_eq_some _ _ _ hlp
    have hst := s.stateOf_eq i lp hlp
    have h3 := (hc.2.2.2.2.2 i lp.state hst).1
    by_cases c1 : lp.state = ENABLED ∨ lp.state = EXECUTED_ENABLED
    · simp only [enableLooper, hlp, c1, if_true, Option.some.injEq] at h
      subst h
      refine ⟨hc, rfl, fun j _ => ⟨rfl, rfl⟩, ?_⟩
      intro st hs
      rw [hst, Option.some.injEq] at hs
      subst hs
      simp [enabledState, c1, hst]
    · by_cases c2 : lp.state = EXECUTED_DISABLED
      · unfold enableLooper at h
        simp only [hlp] at h
        rw [if_neg c1, if_pos c2, Option.some.injEq] at h
        subst h
        refine ⟨?_, rfl, ?_, ?_⟩
        · exact consistent_set_state s hc i lp _ hlp (show EXECUTED_ENABLED ≤ 3 by decide)
            ⟨fun _ => (show EXECUTED_ENABLED ≠ DISABLED by decide),
              fun _ => by rw [c2]; decide⟩
        · intro j hj
          exact ⟨stateOf_set_ne s i j _ _ _ _ hj, nextCallOf_set_ne s i j _ _ _ _ hj⟩
        · intro st hs
          rw [hst, Option.some.injEq] at hs
          subst hs
          rw [stateOf_set_self s i _ _ _ _ hi]
          simp [enabledState, c2, EXECUTED_DISABLED, ENABLED, EXECUTED_ENABLED]
      · have c0 : lp.state = DISABLED := by
          simp only [ENABLED, EXECUTED_ENABLED, EXECUTED_DISABLED, DISABLED] at c1 c2 ⊢
          omega
        obtain ⟨pq, e1, e2, e3, e4, e5⟩ := enableLooper_disabled s hc i lp hlp c0
        rw [e1, Option.some.injEq] at h
        subst h
        refine ⟨?_, rfl, ?_, ?_⟩
        · apply consistent_update s hc i _ pq (s.pqSize + 1) hi (show ENABLED ≤ 3 by decide) e2
            (by have := hc.2.1; omega) (by rw [e2]; exact e4)
          · rw [e3]
            exact List.nodup_cons.mpr ⟨e5, hc.2.2.2.1⟩
          · intro j
            rw [e3]
            by_cases hij : i = j
            · subst hij
              simp only [List.mem_cons, true_or, if_true, true_iff]
              decide
            · rw [if_neg hij]
              simp only [List.mem_cons]
              exact ⟨fun hh => hh.resolve_left (fun e => hij e.symm), Or.inr⟩
        · intro j hj
          exact ⟨stateOf_set_ne s i j _ _ _ _ hj, nextCallOf_set_ne s i j _ _ _ _ hj⟩
        · intro st hs
          rw [hst, Option.some.injEq] at hs
          subst hs
          rw [stateOf_set_self s i _ _ _ _ hi]
          simp [enabledState, c0, EXECUTED_DISABLED, ENABLED, EXECUTED_ENABLED, DISABLED]

theorem disableLooper_consistent (s s1 : Scheduler) (i : Nat) (hc : s.Consistent)
    (h : disableLooper s i = some s1) :
    s1.Consistent ∧ s1.now = s.now ∧
      (∀ j, j ≠ i → s1.stateOf j = s.stateOf j ∧ s1.nextCallOf j = s.nextCallOf j) ∧
      (∀ st, s.stateOf i = some st → s1.stateOf i = some (disabledState st)) := by
  cases hlp : s.loopers[i]? with
  | none => simp [disableLooper, hlp] at h
  | some lp =>
    have hi := lt_of_getElem?_eq_some _ _ _ hlp
    have hst := s.stateOf_eq i lp hlp
    have h3 := hc.2.2.2.2.2 i lp.state hst
    by_cases c1 : lp.state = DISABLED ∨ lp.state = EXECUTED_DISABLED
    · simp only [disableLooper, hlp, c1, if_true, Option.some.injEq] at h
      subst h
      refine ⟨hc, rfl, fun j _ => ⟨rfl, rfl⟩, ?_⟩
      intro st hs
      rw [hst, Option.some.injEq] at hs
      subst hs
      simp [disabledState, c1, hst]
    · by_cases c2 : lp.state = EXECUTED_ENABLED
      · unfold disableLooper at h
        simp only [hlp] at h
        rw [if_neg c1, if_pos c2, Option.some.injEq] at h
        subst h
        refine ⟨?_, rfl, ?_, ?_⟩
        · exact consistent_set_state s hc i lp _ hlp (show EXECUTED_DISABLED ≤ 3 by decide)
            ⟨fun _ => (show EXECUTED_DISABLED ≠ DISABLED by decide),
              fun _ => by rw [c2]; decide⟩
        · intro j hj
          exact ⟨stateOf_set_ne s i j _ _ _ _ hj, nextCallOf_set_ne s i j _ _ _ _ hj⟩
        · intro st hs
          rw [hst, Option.some.injEq] at hs
          subst hs
          rw [stateOf_set_self s i _ _ _ _ hi]
          simp [disabledState, c2, EXECUTED_DISABLED, DISABLED, EXECUTED_ENABLED]
      · have c0 : lp.state ≠ DISABLED := fun e => c1 (Or.inl e)
        have hmem : i ∈ s.active := h3.2.mpr c0
        obtain ⟨pos, pq, f1, f2, f3, f4, f5⟩ := remove_spec s i hmem hc.2.2.2.1 hc.2.1 hc.2.2.1
        unfold disableLooper at h
        simp only [hlp] at h
        rw [if_neg c1, if_neg c2] at h
        simp only [f1, f2, Option.some.injEq] at h
        subst h
        refine ⟨?_, rfl, ?_, ?_⟩
        · apply consistent_update s hc i _ pq (s.pqSize - 1) hi (show DISABLED ≤ 3 by decide) f3
            (by omega) (by rw [f3]; have := hc.2.2.1; omega)
          · rw [f4]; exact hc.2.2.2.1.erase i
          · intro j
            rw [f4]
            by_cases hij : i = j
            · subst hij
              simp only [if_true]
              constructor
              · intro hm
                exact absurd hm (List.Nodup.not_mem_erase hc.2.2.2.1)
              · intro hm
                exact absurd rfl hm
            · rw [if_neg hij]
              exact List.mem_erase_of_ne (fun e => hij e.symm)
        · intro j hj
          exact ⟨stateOf_set_ne s i j _ _ _ _ hj, nextCallOf_set_ne s i j _ _ _ _ hj⟩
        · intro st hs
          rw [hst, Option.some.injEq] at hs
          subst hs
          rw [stateOf_set_self s i _ _ _ _ hi]
          simp [disabledState, c1, c2]

theorem runCalls_consistent (calls : List LooperCall) : ∀ (s s1 : Scheduler),
    s.Consistent → runCalls calls s = some s1 →
    s1.Consistent ∧ s1.now = s.now ∧
      (∀ a, (s.stateOf a = some EXECUTED_ENABLED ∨ s.stateOf a = some EXECUTED_DISABLED) →
        (s1.stateOf a = some EXECUTED_ENABLED ∨ s1.stateOf a = some EXECUTED_DISABLED)) ∧
      (∀ L, LooperCall.enable L ∉ calls → s.stateOf L = some DISABLED →
        s1.stateOf L = some DISABLED) := by
  induction calls with
  | nil =>
    intro s s1 hc h
    simp only [runCalls, Option.some.injEq] at h
    subst h
    exact ⟨hc, rfl, fun _ h => h, fun _ _ h => h⟩
  | cons c calls ih =>
    intro s s1 hc h
    cases c with
    | enable i =>
      cases he : enableLooper s i with
      | none => simp [runCalls, he] at h
      | some s2 =>
        simp only [runCalls, he] at h
        obtain ⟨e1, e2, e3, e4⟩ := enableLooper_consistent s s2 i hc he
        obtain ⟨r1, r2, r3, r4⟩ := ih s2 s1 e1 h
        refine ⟨r1, by rw [r2, e2], ?_, ?_⟩
        · intro a ha
          apply r3
          by_cases hai : a = i
          · subst hai
            rcases ha with ha | ha
            · left; rw [e4 _ ha]; rfl
            · left; rw [e4 _ ha]; rfl
          · rw [(e3 a hai).1]; exact ha
        · intro L hL hst
          have hLi : L ≠ i := fun e => hL (by rw [e]; simp)
          apply r4 L (fun hm => hL (by simp [hm]))
          rw [(e3 L hLi).1]; exact hst
    | disable i =>
      cases he : disableLooper s i with
      | none => simp [runCalls, he] at h
      | some s2 =>
        simp only [runCalls, he] at h
        obtain ⟨e1, e2, e3, e4⟩ := disableLooper_consistent s s2 i hc he
        obtain ⟨r1, r2, r3, r4⟩ := ih s2 s1 e1 h
        refine ⟨r1, by rw [r2, e2], ?_, ?_⟩
        · intro a ha
          apply r3
          by_cases hai : a = i
          · subst hai
            rcases ha with ha | ha
            · right; rw [e4 _ ha]; rfl
            · right; rw [e4 _ ha]; rfl
          · rw [(e3 a hai).1]; exact ha
        · intro L hL hst
          apply r4 L (fun hm => hL (by simp [hm]))
          by_cases hLi : L = i
          · subst hLi
            rw [e4 _ hst]; rfl
          · rw [(e3 L hLi).1]; exact hst

theorem mem_active_of_head (s : Scheduler) (a : Nat) (hc : s.Consistent)
    (h0 : s.pq[0]? = some a) (hsize : s.pqSize ≠ 0) : a ∈ s.active := by
  unfold Scheduler.active
  have hpq := lt_of_getElem?_eq_some _ _ _ h0
  rw [List.mem_take_iff_getElem]
  refine ⟨0, ?_, ?_⟩
  · have := hc.2.1
    simp only [lt_min_iff]
    omega
  · rw [List.getElem?_eq_getElem hpq] at h0
    exact Option.some.inj h0

theorem stateOf_some (s : Scheduler) (a st : Nat) (h : s.stateOf a = some st) :
    ∃ lp, s.loopers[a]? = some lp ∧ lp.state = st := by
  unfold Scheduler.stateOf at h
  cases hlp : s.loopers[a]? with
  | none => rw [hlp] at h; exact absurd h (by simp)
  | some lp =>
    rw [hlp] at h
    exact ⟨lp, rfl, by simpa using h⟩

/-- An iteration of `processLoopers` keeps the tables consistent and does not
invoke the handler of a `DISABLED` looper that no handler enables. -/
theorem passIteration_safe {W : Type} (handlers : Handlers W) (L : Nat)
    (hne : ∀ i w, LooperCall.enable L ∉ (handlers i w).calls) (p p1 : Pass W)
    (hc : p.sched.Consistent) (hL : p.sched.stateOf L = some DISABLED)
    (h : passIteration handlers p = some p1) :
    p1.sched.Consistent ∧ p1.sched.stateOf L = some DISABLED ∧
      ∃ t, p1.trace = p.trace ++ t ∧ L ∉ t := by
  cases h0 : p.sched.pq[0]? with
  | none => simp [passIteration, h0] at h
  | some a =>
    by_cases hsize : p.sched.pqSize = 0
    · simp only [passIteration, h0, hsize, if_true, Option.some.injEq] at h
      subst h
      exact ⟨hc, hL, [], by simp, by simp⟩
    · cases hlp : p.sched.loopers[a]? with
      | none => simp [passIteration, h0, hsize, hlp] at h
      | some lp =>
        by_cases hdue : lp.nextCall > p.sched.now
        · simp only [passIteration, h0, hsize, if_false, hlp, hdue, if_true,
            Option.some.injEq] at h
          subst h
          exact ⟨hc, hL, [], by simp, by simp⟩
        · have hamem := mem_active_of_head p.sched a hc h0 hsize
          have hav := lt_of_getElem?_eq_some _ _ _ hlp
          have hLa : L ≠ a := by
            intro e
            subst e
            have := (hc.2.2.2.2.2 L DISABLED hL).2.mp hamem
            exact this rfl
          have hlpst : lp.state ≠ DISABLED :=
            (hc.2.2.2.2.2 a lp.state (p.sched.stateOf_eq a lp hlp)).2.mp hamem
          have hc1 := consistent_set_state p.sched hc a lp { lp with state := EXECUTED_ENABLED }
            hlp (show EXECUTED_ENABLED ≤ 3 by decide)
            ⟨fun _ => (show EXECUTED_ENABLED ≠ DISABLED by decide), fun _ => hlpst⟩
          cases hrun : runCalls (handlers a p.world).calls
              { p.sched with
                loopers := p.sched.loopers.set a { lp with state := EXECUTED_ENABLED } } with
          | none =>
            simp only [passIteration, h0, hsize, if_false, hlp, hdue, hrun] at h
            exact absurd h (by simp)
          | some s2 =>
            obtain ⟨r1, r2, r3, r4⟩ := runCalls_consistent _ _ s2 hc1 hrun
            have hex := r3 a (Or.inl (stateOf_set_self p.sched a _ _ _ _ hav))
            have hL2 := r4 L (hne a p.world) (by
              rw [stateOf_set_ne p.sched a L _ _ _ _ hLa]; exact hL)
            obtain ⟨lp2, hlp2, hst2⟩ : ∃ lp2, s2.loopers[a]? = some lp2 ∧
                (lp2.state = EXECUTED_ENABLED ∨ lp2.state = EXECUTED_DISABLED) := by
              rcases hex with hex | hex
              · obtain ⟨lp2, g1, g2⟩ := stateOf_some s2 a _ hex
                exact ⟨lp2, g1, Or.inl g2⟩
              · obtain ⟨lp2, g1, g2⟩ := stateOf_some s2 a _ hex
                exact ⟨lp2, g1, Or.inr g2⟩
            obtain ⟨q, q1, q2, q3, q4, q5, q6, q7, q8⟩ := passIteration_due handlers p a lp s2 lp2
              h0 hsize hlp (by omega) hrun r1 hlp2 hst2
            rw [q1, Option.some.injEq] at h
            subst h
            refine ⟨q5, ?_, [a], q2, by simpa using hLa⟩
            have hloop : ∃ lp3, q.sched.loopers = s2.loopers.set a lp3 := by
              rcases hst2 with g | g
              · exact ⟨_, (q7 g).1⟩
              · exact ⟨_, (q8 g).1⟩
            obtain ⟨lp3, hlp3⟩ := hloop
            unfold Scheduler.stateOf at hL2 ⊢
            rw [hlp3, List.getElem?_set_ne (fun e => hLa e.symm)]
            exact hL2

theorem consistent_now (s : Scheduler) (t : Nat) (hc : s.Consistent) :
    Scheduler.Consistent { s with now := t } := hc

theorem passLoop_safe {W : Type} (handlers : Handlers W) (L : Nat)
    (hne : ∀ i w, LooperCall.enable L ∉ (handlers i w).calls) (fuel : Nat) :
    ∀ (p p1 : Pass W), p.sched.Consistent → p.sched.stateOf L = some DISABLED →
    passLoop handlers fuel p = some p1 →
    p1.sched.Consistent ∧ p1.sched.stateOf L = some DISABLED ∧
      ∃ t, p1.trace = p.trace ++ t ∧ L ∉ t := by
  induction fuel with
  | zero =>
    intro p p1 hc hL h
    simp only [passLoop, Option.some.injEq] at h
    subst h
    exact ⟨hc, hL, [], by simp, by simp⟩
  | succ f ih =>
    intro p p1 hc hL h
    by_cases hret : p.returned = true
    · simp only [passLoop, hret, if_true, Option.some.injEq] at h
      subst h
      exact ⟨hc, hL, [], by simp, by simp⟩
    · cases hit : passIteration handlers p with
      | none => simp [passLoop, hret, hit] at h
      | some q =>
        simp only [passLoop, hret, hit] at h
        obtain ⟨a1, a2, t1, a3, a4⟩ := passIteration_safe handlers L hne p q hc hL hit
        obtain ⟨b1, b2, t2, b3, b4⟩ := ih q p1 a1 a2 (by simpa using h)
        refine ⟨b1, b2, t1 ++ t2, by rw [b3, a3, List.append_assoc], ?_⟩
        simp only [List.mem_append, not_or]
        exact ⟨a4, b4⟩

theorem processLoopers_safe {W : Type} (handlers : Handlers W) (L : Nat)
    (hne : ∀ i w, LooperCall.enable L ∉ (handlers i w).calls) (millis fuel : Nat)
    (s : Scheduler) (w : W) (p : Pass W) (hc : s.Consistent)
    (hL : s.stateOf L = some DISABLED) (h : processLoopers handlers millis fuel s w = some p) :
    p.sched.Consistent ∧ p.sched.stateOf L = some DISABLED ∧ L ∉ p.trace := by
  unfold processLoopers at h
  by_cases h0 : s.pqSize = 0
  · simp only [h0, if_true, Option.some.injEq] at h
    subst h
    exact ⟨hc, hL, by simp⟩
  · simp only [h0, if_false] at h
    obtain ⟨a1, a2, t, a3, a4⟩ := passLoop_safe handlers L hne fuel _ p
      (consistent_now s _ hc) hL h
    refine ⟨a1, a2, ?_⟩
    rw [a3]
    simpa using a4

theorem runEvents_safe {W : Type} (handlers : Handlers W) (L : Nat)
    (hne : ∀ i w, LooperCall.enable L ∉ (handlers i w).calls) (events : List Event) :
    ∀ (s : Scheduler) (w : W) (r : Scheduler × W × List Nat), s.Consistent →
    s.stateOf L = some DISABLED → Event.call (LooperCall.enable L) ∉ events →
    runEvents handlers events s w = some r → L ∉ r.2.2 := by
  induction events with
  | nil =>
    intro s w r _ _ _ h
    simp only [runEvents, Option.some.injEq] at h
    subst h
    simp
  | cons e events ih =>
    intro s w r hc hL hev h
    have hev2 : Event.call (LooperCall.enable L) ∉ events := fun hm => hev (by simp [hm])
    cases e with
    | pass millis fuel =>
      cases hp : processLoopers handlers millis fuel s w with
      | none => simp [runEvents, hp] at h
      | some p =>
        obtain ⟨a1, a2, a3⟩ := processLoopers_safe handlers L hne millis fuel s w p hc hL hp
        simp only [runEvents, hp] at h
        by_cases hret : p.returned = true
        · simp only [hret, if_true] at h
          cases hr : runEvents handlers events p.sched p.world with
          | none => simp [hr] at h
          | some r2 =>
            simp only [hr, Option.some.injEq] at h
            subst h
            have := ih p.sched p.world r2 a1 a2 hev2 hr
            simp only [List.mem_append, not_or]
            exact ⟨a3, this⟩
        · simp only [hret, Bool.false_eq_true, if_false, Option.some.injEq] at h
          subst h
          exact a3
    | call c =>
      cases hr : runCalls [c] s with
      | none => simp [runEvents, hr] at h
      | some s1 =>
        simp only [runEvents, hr] at h
        have hc' : LooperCall.enable L ∉ [c] := by
          intro hm
          simp only [List.mem_singleton] at hm
          exact hev (by rw [← hm]; simp)
        obtain ⟨a1, -, -, a4⟩ := runCalls_consistent [c] s s1 hc hr
        exact ih s1 w r a1 (a4 L hc' hL) hev2 h

theorem runCalls_disable_self (calls : List LooperCall) (L : Nat)
    (hall : ∀ c ∈ calls, c = LooperCall.disable L) (s : Scheduler) (lp : Looper)
    (hlp : s.loopers[L]? = some lp) (hst : lp.state = EXECUTED_DISABLED) :
    runCalls calls s = some s := by
  induction calls with
  | nil => rfl
  | cons c calls ih =>
    have hc := hall c (by simp)
    subst hc
    have : disableLooper s L = some s := by
      simp [disableLooper, hlp, hst]
    simp only [runCalls, this]
    exact ih (fun c hc => hall c (by simp [hc]))

theorem consistent_of_decide (s : Scheduler)
    (h : s.pq.length = s.loopers.length ∧ 0 ≤ s.pqSize ∧ s.pqSize ≤ s.pq.length ∧
      s.active.Nodup ∧ (∀ i ∈ s.active, i < s.loopers.length) ∧
      (∀ i ∈ List.range s.loopers.length, (s.loopers.getD i ⟨0, 0⟩).state ≤ 3 ∧
        (i ∈ s.active ↔ (s.loopers.getD i ⟨0, 0⟩).state ≠ DISABLED))) : s.Consistent := by
  obtain ⟨c1, c2, c3, c4, c5, c6⟩ := h
  refine ⟨c1, c2, c3, c4, c5, ?_⟩
  intro i st hst
  obtain ⟨lp, hlp, hs⟩ := stateOf_some s i st hst
  have hi := lt_of_getElem?_eq_some _ _ _ hlp
  have := c6 i (List.mem_range.mpr hi)
  rw [List.getD_eq_getElem?_getD, hlp, Option.getD_some, hs] at this
  exact this

/-- Claim C9 (scheduler ordering).  On consistent tables whose `pq[0..pqSize)` is in
strictly ascending `nextCall` order with every due time at most `millis`, and with handlers
that make no `enableLooper` / `disableLooper` call and return positive delays that do not
wrap around, `processLoopers` returns after at most `pqSize + 1` iterations, having invoked
the handlers of exactly the loopers of `pq[0..pqSize)`, each once, in the order of `pq`,
which is the ascending order of their due times. -/
theorem scheduler_ordering {W : Type} (handlers : Handlers W) (s : Scheduler) (w : W)
    (millis fuel : Nat) (hc : s.Consistent)
    (hsorted : s.active.Pairwise (fun i j => s.nextCallOf i < s.nextCallOf j))
    (hdue : ∀ i ∈ s.active, s.nextCallOf i ≤ millis) (hmillis : millis < ULONG_RANGE)
    (hh : PlainHandlers handlers millis) (hfuel : s.active.length < fuel) :
    ∃ p, processLoopers handlers millis fuel s w = some p ∧ p.returned = true ∧
      p.trace = s.active ∧ p.trace.Nodup ∧
      p.trace.Pairwise (fun i j => s.nextCallOf i < s.nextCallOf j) := by
  by_cases h0 : s.pqSize = 0
  · have hact : s.active = [] := by simp [Scheduler.active, h0]
    refine ⟨{ sched := s, world := w, trace := [], returned := true }, ?_, rfl, ?_, ?_, ?_⟩
    · simp [processLoopers, h0]
    · rw [hact]
    · simp
    · simp
  · have hpq : 0 < s.pq.length := by
      have h1 := hc.2.1
      have h2 := hc.2.2.1
      omega
    obtain ⟨p1, a1, a2, a3, -, -⟩ := passLoop_plain handlers millis hh s.active
      { sched := { s with now := millis % ULONG_RANGE }, world := w, trace := [],
        returned := false } [] fuel rfl (consistent_now s _ hc)
      (Nat.mod_eq_of_lt hmillis) hpq (by simp [Scheduler.active]) hdue (by simp) hfuel
    refine ⟨p1, ?_, a2, ?_, ?_, ?_⟩
    · simp only [processLoopers, h0, if_false]
      exact a1
    · simpa using a3
    · rw [a3]; simpa using hc.2.2.2.1
    · rw [a3]; simpa using hsorted

/-- Claim C9 at three loopers due at 3, 5 and 7 and a pass at time 8. -/
theorem scheduler_ordering_witness :
    ∃ p, processLoopers delayTen 8 4 threeLoopers () = some p ∧ p.returned = true ∧
      p.trace = [1, 0, 2] ∧ p.trace.Nodup ∧
      p.trace.Pairwise (fun i j => threeLoopers.nextCallOf i < threeLoopers.nextCallOf j) :=
  scheduler_ordering delayTen threeLoopers () 8 4 (consistent_of_decide _ (by decide))
    (by decide) (by decide) (by decide)
    (fun _ _ => ⟨rfl, (show 0 < 10 by decide), (show 8 + 10 < ULONG_RANGE by decide)⟩)
    (by decide)

/-- Claim C10 (self-disable safety).  On consistent tables whose first looper `L` is due,
when the handler of `L` calls `disableLooper(L)` (one or more times, and nothing else), the
iteration of `processLoopers` that runs it leaves `L` in state `DISABLED` and outside
`pq[0..pqSize)`, `pqSize` one smaller, and the other loopers of the ordering in it, once
each, in the same order.  If moreover no handler calls `enableLooper(L)`, the handler of `L`
is not invoked in the rest of the pass, nor in any later pass or call sequence that does not
call `enableLooper(L)`. -/
theorem self_disable_safety {W : Type} (handlers : Handlers W) (p : Pass W) (L : Nat)
    (rest : List Nat) (hc : p.sched.Consistent) (hact : p.sched.active = L :: rest)
    (hdue : p.sched.nextCallOf L ≤ p.sched.now)
    (hcalls : (handlers L p.world).calls ≠ [])
    (hself : ∀ c ∈ (handlers L p.world).calls, c = LooperCall.disable L) :
    ∃ p1, passIteration handlers p = some p1 ∧ p1.trace = p.trace ++ [L] ∧
      p1.sched.stateOf L = some DISABLED ∧ L ∉ p1.sched.active ∧
      p1.sched.pqSize = p.sched.pqSize - 1 ∧ p1.sched.active = rest ∧ rest.Nodup ∧
      p1.sched.Consistent ∧
      ((∀ i w, LooperCall.enable L ∉ (handlers i w).calls) →
        ∀ (fuel : Nat) (p2 : Pass W), passLoop handlers fuel p1 = some p2 →
          (∃ t, p2.trace = p1.trace ++ t ∧ L ∉ t) ∧
          ∀ (events : List Event) (r : Scheduler × W × List Nat),
            Event.call (LooperCall.enable L) ∉ events →
            runEvents handlers events p2.sched p2.world = some r → L ∉ r.2.2) := by
  obtain ⟨hpq0, hsize⟩ := active_head p.sched L rest hact
  have hmem : L ∈ p.sched.active := by rw [hact]; simp
  have hav := hc.2.2.2.2.1 L hmem
  have hlp := List.getElem?_eq_getElem hav
  set lp := p.sched.loopers[L] with hlpdef
  have hdue2 : lp.nextCall ≤ p.sched.now := by
    rw [nextCallOf_eq _ L lp hlp] at hdue
    exact hdue
  have hlpst : lp.state ≠ DISABLED :=
    (hc.2.2.2.2.2 L lp.state (p.sched.stateOf_eq L lp hlp)).2.mp hmem
  -- the calls of the handler: the first one marks the looper, the others do nothing
  obtain ⟨c, calls, hcs⟩ := List.exists_cons_of_ne_nil hcalls
  have hc0 : c = LooperCall.disable L := hself c (by rw [hcs]; simp)
  set s1 : Scheduler := { p.sched with
    loopers := p.sched.loopers.set L { lp with state := EXECUTED_ENABLED } } with hs1
  set s2 : Scheduler := { s1 with
    loopers := s1.loopers.set L { lp with state := EXECUTED_DISABLED } } with hs2
  have hget1 : s1.loopers[L]? = some { lp with state := EXECUTED_ENABLED } := by
    simp only [hs1]; rw [List.getElem?_set_self hav]
  have hget2 : s2.loopers[L]? = some { lp with state := EXECUTED_DISABLED } := by
    simp only [hs2, hs1]; rw [List.getElem?_set_self (by simpa using hav)]
  have hfirst : disableLooper s1 L = some s2 := by
    unfold disableLooper
    simp only [hget1]
    rw [if_neg (by decide), if_pos True.intro]
  have hrun : runCalls (handlers L p.world).calls s1 = some s2 := by
    rw [hcs, hc0]
    simp only [runCalls, hfirst]
    exact runCalls_disable_self calls L (fun x hx => hself x (by rw [hcs]; simp [hx])) s2 _
      hget2 rfl
  have hc1 : s1.Consistent := consistent_set_state p.sched hc L lp _ hlp
    (show EXECUTED_ENABLED ≤ 3 by decide)
    ⟨fun _ => (show EXECUTED_ENABLED ≠ DISABLED by decide), fun _ => hlpst⟩
  have hc2 : s2.Consistent := consistent_set_state s1 hc1 L _ _ hget1
    (show EXECUTED_DISABLED ≤ 3 by decide)
    ⟨fun _ => (show EXECUTED_DISABLED ≠ DISABLED by decide),
      fun _ => (show EXECUTED_ENABLED ≠ DISABLED by decide)⟩
  obtain ⟨p1, q1, q2, q3, q4, q5, q6, -, q8⟩ := passIteration_due handlers p L lp s2 _
    hpq0 hsize hlp hdue2 hrun hc2 hget2 (Or.inr rfl)
  obtain ⟨r1, r2, r3⟩ := q8 rfl
  have hact2 : s2.active = L :: rest := hact
  rw [hact2, List.erase_cons_head] at r3
  have hnodup : (L :: rest).Nodup := by rw [← hact]; exact hc.2.2.2.1
  have hstate : p1.sched.stateOf L = some DISABLED := by
    unfold Scheduler.stateOf
    rw [r1, List.getElem?_set_self (by simpa [hs2, hs1] using hav)]
    rfl
  refine ⟨p1, q1, q2, hstate, ?_, r2, r3, (List.nodup_cons.mp hnodup).2, q5, ?_⟩
  · rw [r3]; exact (List.nodup_cons.mp hnodup).1
  · intro hne fuel p2 hp2
    obtain ⟨a1, a2, a3⟩ := passLoop_safe handlers L hne fuel p1 p2 q5 hstate hp2
    refine ⟨a3, ?_⟩
    intro events r hev hr
    exact runEvents_safe handlers L hne events p2.sched p2.world r a1 a2 hev hr

/-- Claim C10 at three loopers of which the first due one disables itself. -/
theorem self_disable_safety_witness :
    ∃ p1, passIteration selfDisabling passAtEight = some p1 ∧ p1.trace = [] ++ [1] ∧
      p1.sched.stateOf 1 = some DISABLED ∧ 1 ∉ p1.sched.active ∧
      p1.sched.pqSize = 3 - 1 ∧ p1.sched.active = [0, 2] ∧ [0, 2].Nodup ∧
      p1.sched.Consistent ∧
      ((∀ i w, LooperCall.enable 1 ∉ (selfDisabling i w).calls) →
        ∀ (fuel : Nat) (p2 : Pass Unit), passLoop selfDisabling fuel p1 = some p2 →
          (∃ t, p2.trace = p1.trace ++ t ∧ 1 ∉ t) ∧
          ∀ (events : List Event) (r : Scheduler × Unit × List Nat),
            Event.call (LooperCall.enable 1) ∉ events →
            runEvents selfDisabling events p2.sched p2.world = some r → 1 ∉ r.2.2) :=
  self_disable_safety selfDisabling passAtEight 1 [0, 2] (consistent_of_decide _ (by decide))
    (by decide) (by decide) (by decide) (by decide)

end acp_private

namespace acp_messenger_gep_stream

/-- Claim C13 (malformed tag framing).  A receiver in `WAIT_MESSAGE_BYTE_HIGH` that reads
the end-with-tag byte `0x06` goes to `WAIT_CRC_WITH_TAG` if and only if `messageLength ≥ 2`;
when `messageLength < 2` it goes to `WAIT_START`, and `loop()` invokes no callback for that
byte and the following bytes up to the next start byte.  Nothing but the state changes. -/
theorem malformed_tag_framing (ID MAX : Int) (c : GEPStreamController)
    (hs : c.state = State.WAIT_MESSAGE_BYTE_HIGH) :
    ((loopBody ID MAX c MESSAGE_END_WITH_TAG_BYTE).1.state = State.WAIT_CRC_WITH_TAG ↔
      c.messageLength ≥ 2) ∧
    (c.messageLength ≥ 2 → loopBody ID MAX c MESSAGE_END_WITH_TAG_BYTE =
      ({ c with state := State.WAIT_CRC_WITH_TAG }, false)) ∧
    (c.messageLength < 2 →
      loopBody ID MAX c MESSAGE_END_WITH_TAG_BYTE = ({ c with state := State.WAIT_START }, false) ∧
      (c.stream = true → ∀ rest : List Nat, (∀ x ∈ rest, x ≠ MESSAGE_START_BYTE) →
        loop ID MAX c (MESSAGE_END_WITH_TAG_BYTE :: rest) =
          ({ c with state := State.WAIT_START }, [], []))) := by
  obtain ⟨s, d, m, k, st, e⟩ := c
  simp only at hs
  subst hs
  have key := loopBody_end_with_tag ID MAX s d m k e
  by_cases hk : k ≥ 2
  · rw [if_pos hk] at key
    refine ⟨?_, fun _ => key, fun h => absurd h (not_lt.mpr hk)⟩
    rw [key]
    exact ⟨fun _ => hk, fun _ => rfl⟩
  · rw [if_neg hk] at key
    refine ⟨?_, fun h => absurd h hk, fun _ => ⟨key, ?_⟩⟩
    · rw [key]
      exact ⟨fun h => by simp at h, fun h => absurd h hk⟩
    · intro hstream rest hrest
      exact loop_reject ID MAX _ _ _ rest hstream key rfl hrest

/-- Claim C13 at a receiver of the build that has stored one payload byte. -/
theorem malformed_tag_framing_witness :
    loopBody 0 50 { controller_1 with state := State.WAIT_MESSAGE_BYTE_HIGH, messageLength := 1 }
        MESSAGE_END_WITH_TAG_BYTE =
      ({ controller_1 with state := State.WAIT_START, messageLength := 1 }, false) :=
  ((malformed_tag_framing 0 50
    { controller_1 with state := State.WAIT_MESSAGE_BYTE_HIGH, messageLength := 1 } rfl).2.2
      (by decide)).1

/-- Claim C15 (CRC chaining).  For every seed `s` and all byte sequences `a` and `b`,
`computeCRC8(computeCRC8(s, a), b) = computeCRC8(s, a ++ b)`; hence the CRC the sender
chains over destination id, payload and tag bytes is the CRC the receiver computes over the
destination id and then over the buffer that holds payload and tag bytes contiguously, for
a receiver whose destination id and buffer hold these bytes. -/
theorem crc_chaining (s : Nat) (a b : List Nat) :
    computeCRC8 (computeCRC8 s a) b = computeCRC8 s (a ++ b) ∧
    (∀ (d : Nat) (p t : List Nat),
      computeCRC8 (computeCRC8 (computeCRC8 0 [d]) p) t
        = computeCRC8 (computeCRC8 0 [d]) (p ++ t)) ∧
    (∀ (c : GEPStreamController) (p t : List Nat),
      c.message.take c.messageLength.toNat = p ++ t →
      computeCRC8 (computeCRC8 (computeCRC8 0 [c.messageDestinationId]) p) t = expectedCRC c) := by
  refine ⟨computeCRC8_append s a b, fun d p t => computeCRC8_append _ p t, ?_⟩
  intro c p t h
  unfold expectedCRC
  rw [h, computeCRC8_append]

/-- Claim C15 at the frame (2, "AB") with the tag bytes 1 and 2. -/
theorem crc_chaining_witness :
    computeCRC8 (computeCRC8 (computeCRC8 0 [2]) [0x41, 0x42]) [1, 2] =
      expectedCRC taggedBody :=
  (crc_chaining 0 [] []).2.2 taggedBody [0x41, 0x42] [1, 2] (by decide)

/-- Claim C16 (data bytes and control bytes are disjoint).  For every nibble `n < 16` the
byte `(n << 4) | (n XOR 0x0F)` that `sendByte` and the destination id encoding produce is
well formed and differs from the start byte `0x0C`, the end byte `0x03` and the
end-with-tag byte `0x06`; none of these three control bytes passes the well-formedness
test of the receiver. -/
theorem data_control_disjoint :
    (∀ n < 16, encodeNibble n = ENC n ∧ wellFormed (encodeNibble n) ∧
      encodeNibble n ≠ MESSAGE_START_BYTE ∧ encodeNibble n ≠ MESSAGE_END_BYTE ∧
      encodeNibble n ≠ MESSAGE_END_WITH_TAG_BYTE) ∧
    (∀ b : Nat, sendByte b = [encodeNibble (b % 256 / 16), encodeNibble (b % 256 % 16)] ∧
      b % 256 / 16 < 16 ∧ b % 256 % 16 < 16) ∧
    ¬ wellFormed MESSAGE_START_BYTE ∧ ¬ wellFormed MESSAGE_END_BYTE ∧
    ¬ wellFormed MESSAGE_END_WITH_TAG_BYTE := by
  refine ⟨by decide, ?_, by decide, by decide, by decide⟩
  intro b
  exact ⟨rfl, by omega, by omega⟩

end acp_messenger_gep_stream

namespace acp_messenger_gep_stream

/-- Claim C16 at the nibble 4 (high nibble of the letter A). -/
theorem data_control_disjoint_witness :
    encodeNibble 4 = ENC 4 ∧ wellFormed (encodeNibble 4) ∧
      encodeNibble 4 ≠ MESSAGE_START_BYTE ∧ encodeNibble 4 ≠ MESSAGE_END_BYTE ∧
      encodeNibble 4 ≠ MESSAGE_END_WITH_TAG_BYTE :=
  data_control_disjoint.1 4 (by decide)

theorem crcLoop_eq_crc8Maxim (data : List Nat) : ∀ crc, crcLoop crc data = crc8Maxim crc data := by
  induction data with
  | nil => intro crc; rfl
  | cons b rest ih =>
    intro crc
    show crcLoop (crcByte crc b) rest = crc8Maxim (crcShift^[8] (crc ^^^ (b % 256))) rest
    rw [crcByte_eq, ih]

theorem computeCRC8_eq_crc8Maxim (data : List Nat) : computeCRC8 0 data = crc8Maxim 0 data :=
  crcLoop_eq_crc8Maxim data 0

theorem sendByte_enc (b : Nat) : sendByte b = [ENC (b % 256 / 16), ENC (b % 256 % 16)] := by
  have h := Nat.mod_lt b (show 0 < 256 by decide)
  simp only [sendByte]
  rw [encodeNibble_eq_ENC _ (by omega), encodeNibble_eq_ENC _ (by omega)]

theorem flatMap_sendByte_enc (p : List Nat) :
    p.flatMap sendByte = p.flatMap (fun b => [ENC (b % 256 / 16), ENC (b % 256 % 16)]) := by
  induction p with
  | nil => rfl
  | cons b bs ih =>
    simp only [List.flatMap_cons]
    rw [sendByte_enc b, ih]

theorem coercedId_lt (d : Nat) : coercedId d < 16 := by
  unfold coercedId
  split_ifs <;> omega

theorem ENC_decode : ∀ n < 16, ENC n / 16 = n ∧ ENC n < 256 := by decide

theorem completeFrame_length (d : Nat) (p : List Nat) (tag : Int) :
    (completeFrame d p tag).length = 4 + 2 * p.length + (if tag < 0 then 0 else 4) := by
  have hfm : ∀ l : List Nat,
      (l.flatMap (fun b => [ENC (b % 256 / 16), ENC (b % 256 % 16)])).length = 2 * l.length := by
    intro l
    induction l with
    | nil => rfl
    | cons x xs ih => simp only [List.flatMap_cons, List.length_append, ih, List.length_cons,
        List.length_nil]; omega
  unfold completeFrame
  by_cases ht : tag < 0
  · simp only [ht, if_true, List.length_append, hfm, List.length_cons, List.length_nil]
    omega
  · simp only [ht, if_false, List.length_append, hfm, List.length_cons, List.length_nil,
      tagBytes, List.flatMap_cons, List.flatMap_nil]
    omega

/-- Claim C14 (invalid send arguments).  `sendMessage` writes no byte at all when the stream
is not set, when `messageLength < 0`, or when `messageLength > 0` and the payload pointer is
null.  For every other argument combination it writes a complete frame: the start byte
`0x0C`, the encoded destination id (coerced to 0 when out of range), two encoded nibbles for
each of the first `messageLength` payload bytes, the end byte `0x03` or the four encoded
nibbles of the two tag bytes and the end-with-tag byte `0x06`, and the CRC-8/MAXIM of the raw
bytes; the output is never empty and has `4 + 2 * messageLength` bytes (4 more with a tag).
Every payload byte is recovered from the high nibbles of its two encoded bytes.  The function
returns nothing to its caller; the bytes written are its only result. -/
theorem invalid_send_arguments (stream : Bool) (d : Nat) (message : Option (List Nat))
    (n : Int) (tag : Int) :
    ((stream = false ∨ n < 0 ∨ (n > 0 ∧ message = none)) →
      sendMessage stream d message n tag = []) ∧
    (¬ (stream = false ∨ n < 0 ∨ (n > 0 ∧ message = none)) →
      sendMessage stream d message n tag
        = completeFrame (coercedId d) (payloadOf message n) tag ∧
      sendMessage stream d message n tag ≠ [] ∧
      (sendMessage stream d message n tag).length
        = 4 + 2 * (payloadOf message n).length + (if tag < 0 then 0 else 4)) ∧
    (∀ b : Nat, ENC (b % 256 / 16) / 16 * 16 + ENC (b % 256 % 16) / 16 = b % 256) := by
  refine ⟨?_, ?_, ?_⟩
  · intro h
    unfold sendMessage
    rw [if_pos h]
  · intro h
    have key : sendMessage stream d message n tag
        = completeFrame (coercedId d) (payloadOf message n) tag := by
      unfold sendMessage
      rw [if_neg h]
      have hid := encodeNibble_eq_ENC (coercedId d) (coercedId_lt d)
      have hcrc : ∀ x : Nat, ∀ l : List Nat, computeCRC8 (computeCRC8 0 [x]) l
          = computeCRC8 0 ([x] ++ l) := fun x l => computeCRC8_append 0 [x] l
      have ht0 : ((tag / 256) % 256).toNat < 256 := by omega
      have ht1 : ((tag % 256) % 256).toNat < 256 := by omega
      by_cases ht : tag < 0
      · simp only [completeFrame, ht, if_true, List.append_nil]
        rw [← computeCRC8_eq_crc8Maxim, ← hcrc, ← flatMap_sendByte_enc, ← hid]
        simp [coercedId, payloadOf, MESSAGE_START_BYTE, MESSAGE_END_BYTE]
      · simp only [completeFrame, ht, if_false, tagBytes, List.flatMap_cons, List.flatMap_nil,
          List.append_nil]
        rw [← computeCRC8_eq_crc8Maxim, ← computeCRC8_append, ← hcrc,
          ← flatMap_sendByte_enc, ← hid, ← sendByte_eq _ ht0, ← sendByte_eq _ ht1]
        simp [coercedId, payloadOf, MESSAGE_START_BYTE, MESSAGE_END_WITH_TAG_BYTE]
    refine ⟨key, ?_, ?_⟩
    · rw [key]
      unfold completeFrame
      simp
    · rw [key]
      exact completeFrame_length _ _ _
  · intro b
    have h := Nat.mod_lt b (show 0 < 256 by decide)
    have h1 := (ENC_decode (b % 256 / 16) (by omega)).1
    have h2 := (ENC_decode (b % 256 % 16) (by omega)).1
    rw [h1, h2]
    omega

set_option maxRecDepth 100000 in
theorem completeFrame_examples :
    completeFrame (coercedId 2) (payloadOf (some [0x41, 0x42]) 2) (-1)
      = [0x0C, 0x2D, 0x4B, 0x1E, 0x4B, 0x2D, 0x03, 0xEA] ∧
    completeFrame (coercedId 2) (payloadOf (some [0x41, 0x42]) 2) 0x0103
      = [0x0C, 0x2D, 0x4B, 0x1E, 0x4B, 0x2D, 0x0F, 0x1E, 0x0F, 0x3C, 0x06, 0xB4] ∧
    completeFrame (coercedId 200) (payloadOf (some [0x41, 0x42]) 1) (-1)
      = [0x0C, 0x0F, 0x4B, 0x1E, 0x03, 0x18] := by
  decide

/-- Claim C14 at a null payload pointer with `messageLength = 3` (nothing written), and at
the payload "AB" for destination 2 without a tag and with the tag `0x0103`, and for the
out-of-range destination 200 with `messageLength = 1`: the bytes written. -/
theorem invalid_send_arguments_witness :
    sendMessage true 2 none 3 (-1) = [] ∧
    sendMessage true 2 (some [0x41, 0x42]) 2 (-1)
      = [0x0C, 0x2D, 0x4B, 0x1E, 0x4B, 0x2D, 0x03, 0xEA] ∧
    sendMessage true 2 (some [0x41, 0x42]) 2 0x0103
      = [0x0C, 0x2D, 0x4B, 0x1E, 0x4B, 0x2D, 0x0F, 0x1E, 0x0F, 0x3C, 0x06, 0xB4] ∧
    sendMessage true 200 (some [0x41, 0x42]) 1 (-1) = [0x0C, 0x0F, 0x4B, 0x1E, 0x03, 0x18] :=
  ⟨(invalid_send_arguments true 2 none 3 (-1)).1 (by decide),
    ((invalid_send_arguments true 2 (some [0x41, 0x42]) 2 (-1)).2.1 (by decide)).1.trans
      completeFrame_examples.1,
    ((invalid_send_arguments true 2 (some [0x41, 0x42]) 2 0x0103).2.1 (by decide)).1.trans
      completeFrame_examples.2.1,
    ((invalid_send_arguments true 200 (some [0x41, 0x42]) 1 (-1)).2.1 (by decide)).1.trans
      completeFrame_examples.2.2⟩

end acp_messenger_gep_stream

namespace acp_common_timer

open acp_private

/-- Claim C17 (timer handler).  For every timer state and every behaviour of the callback,
`looper()` returns exactly the interval configured when it returns, and it invokes the tick
callback if and only if the `enabled` flag is true and the callback is non-null at the time
of the call; when the callback is not invoked the controller is unchanged.  In particular,
with a callback that does not change the interval (or is not invoked), `looper()` returns
the value last set by `init` or by `setInterval`. -/
theorem timer_handler (tick : TimerController → TimerController) (c : TimerController) :
    (c.looper tick).2.2 = (c.looper tick).1.interval ∧
    ((c.looper tick).2.1 = true ↔ (c.enabled = true ∧ c.tickEvent = true)) ∧
    ((c.looper tick).2.1 = false → (c.looper tick).1 = c ∧ (c.looper tick).2.2 = c.interval) ∧
    ((c.looper tick).2.1 = true → (c.looper tick).1 = tick c) ∧
    ((∀ x, (tick x).interval = x.interval) →
      (c.looper tick).2.2 = c.interval ∧
      (∀ (i : Nat) (e : Bool), ((c.init i e).1.looper tick).2.2 = i) ∧
      (∀ j : Nat, ((c.setInterval j).looper tick).2.2 = j) ∧
      (∀ (i j : Nat) (e : Bool), (((c.init i e).1.setInterval j).looper tick).2.2 = j)) := by
  have key : ∀ x : TimerController, (∀ y, (tick y).interval = y.interval) →
      (x.looper tick).2.2 = x.interval := by
    intro x h
    unfold TimerController.looper
    split_ifs
    · exact h x
    · rfl
  refine ⟨?_, ?_, ?_, ?_, ?_⟩
  · unfold TimerController.looper
    split_ifs <;> rfl
  · unfold TimerController.looper
    split_ifs with h
    · simp [h]
    · simp [h]
  · intro h
    unfold TimerController.looper at h ⊢
    split_ifs at h ⊢ with g
    exact ⟨rfl, rfl⟩
  · intro h
    unfold TimerController.looper at h ⊢
    split_ifs at h ⊢ with g
    rfl
  · intro h
    refine ⟨key c h, ?_, ?_, ?_⟩
    · intro i e
      rw [key _ h]
      unfold TimerController.init
      split_ifs <;> rfl
    · intro j
      rw [key _ h]
      rfl
    · intro i j e
      rw [key _ h]
      rfl

/-- Claim C17 at the timer of the build (interval 250, enabled) with a callback that
leaves the controller alone. -/
theorem timer_handler_witness :
    (controller_0.looper id).2.2 = 250 ∧ (controller_0.looper id).2.1 = true :=
  ⟨(((timer_handler id controller_0).2.2.2.2 (fun _ => rfl)).1).trans (by decide),
    (timer_handler id controller_0).2.1.mpr (by decide)⟩

end acp_common_timer

namespace acp_private

open acp

theorem runCalls_disable_enable_self (calls : List LooperCall) (L : Nat) (s : Scheduler)
    (lp : Looper) (hlp : s.loopers[L]? = some lp) (hst : lp.state = EXECUTED_ENABLED) :
    runCalls (LooperCall.disable L :: LooperCall.enable L :: calls) s = runCalls calls s := by
  have hL : L < s.loopers.length := lt_of_getElem?_eq_some _ _ _ hlp
  have h1 : disableLooper s L = some { s with
      loopers := s.loopers.set L { lp with state := EXECUTED_DISABLED } } := by
    unfold disableLooper
    simp only [hlp, hst]
    rw [if_neg (by decide), if_pos True.intro]
  have h2 : enableLooper { s with
      loopers := s.loopers.set L { lp with state := EXECUTED_DISABLED } } L = some s := by
    unfold enableLooper
    simp only [List.getElem?_set_self hL]
    rw [if_neg (by decide), if_pos True.intro]
    have hlp2 : ({ nextCall := lp.nextCall, state := EXECUTED_ENABLED } : Looper) = lp := by
      cases lp
      simp only at hst
      rw [hst]
    have : (s.loopers.set L { lp with state := EXECUTED_DISABLED }).set L
        { nextCall := lp.nextCall, state := EXECUTED_ENABLED } = s.loopers := by
      rw [List.set_set, hlp2]
      apply List.ext_getElem?
      intro i
      by_cases hi : L = i
      · subst hi
        rw [List.getElem?_set_self hL, hlp]
      · rw [List.getElem?_set_ne hi]
    simp only [this]
  simp only [runCalls, h1, h2]

/-- Claim C11 (self-enable after self-disable cancels).  On consistent tables whose first
looper `L` is due, compare a handler of `L` that calls `disableLooper(L)` and then
`enableLooper(L)` with one that makes neither call and returns the same delay (and leaves the
rest of the program in the same state): the iteration of `processLoopers` that runs the
handler ends in the same pass state for both, so every looper state and `nextCall`, the
contents of `pq` and `pqSize` are identical.  In that state `L` is `ENABLED` with
`nextCall = now + delay`, `pqSize` is unchanged, the other loopers keep their state and
`nextCall`, and `L` stands in `pq[0..pqSize)` behind the loopers whose `nextCall` is at most
its new `nextCall` and before the first whose `nextCall` is larger. -/
theorem self_enable_cancels {W : Type} (h1 h2 : Handlers W) (p : Pass W) (L : Nat)
    (rest : List Nat) (hc : p.sched.Consistent) (hact : p.sched.active = L :: rest)
    (hdue : p.sched.nextCallOf L ≤ p.sched.now)
    (hcalls1 : (h1 L p.world).calls = [LooperCall.disable L, LooperCall.enable L])
    (hcalls2 : (h2 L p.world).calls = [])
    (hres : (h1 L p.world).result = (h2 L p.world).result)
    (hworld : (h1 L p.world).world = (h2 L p.world).world) :
    ∃ p1, passIteration h1 p = some p1 ∧ passIteration h2 p = some p1 ∧
      p1.sched.stateOf L = some ENABLED ∧
      p1.sched.nextCallOf L = (p.sched.now + (h2 L p.world).result) % ULONG_RANGE ∧
      p1.sched.pqSize = p.sched.pqSize ∧
      (∀ j, j ≠ L → p1.sched.stateOf j = p.sched.stateOf j ∧
        p1.sched.nextCallOf j = p.sched.nextCallOf j) ∧
      p1.sched.active =
        rest.takeWhile (dueBefore p.sched.loopers
            ((p.sched.now + (h2 L p.world).result) % ULONG_RANGE))
          ++ L :: rest.dropWhile (dueBefore p.sched.loopers
            ((p.sched.now + (h2 L p.world).result) % ULONG_RANGE)) := by
  obtain ⟨hpq0, hsize⟩ := active_head p.sched L rest hact
  have hmem : L ∈ p.sched.active := by rw [hact]; simp
  have hav := hc.2.2.2.2.1 L hmem
  have hlp := List.getElem?_eq_getElem hav
  set lp := p.sched.loopers[L] with hlpdef
  have hdue2 : lp.nextCall ≤ p.sched.now := by
    rw [nextCallOf_eq _ L lp hlp] at hdue
    exact hdue
  have hlpst : lp.state ≠ DISABLED :=
    (hc.2.2.2.2.2 L lp.state (p.sched.stateOf_eq L lp hlp)).2.mp hmem
  set s1 : Scheduler := { p.sched with
    loopers := p.sched.loopers.set L { lp with state := EXECUTED_ENABLED } } with hs1
  have hget1 : s1.loopers[L]? = some { lp with state := EXECUTED_ENABLED } := by
    simp only [hs1]; rw [List.getElem?_set_self hav]
  have hrun2 : runCalls (h2 L p.world).calls s1 = some s1 := by
    rw [hcalls2]; rfl
  have hrun1 : runCalls (h1 L p.world).calls s1 = some s1 := by
    rw [hcalls1, runCalls_disable_enable_self [] L s1 _ hget1 rfl]; rfl
  have hc1 : s1.Consistent := consistent_set_state p.sched hc L lp _ hlp
    (show EXECUTED_ENABLED ≤ 3 by decide)
    ⟨fun _ => (show EXECUTED_ENABLED ≠ DISABLED by decide), fun _ => hlpst⟩
  obtain ⟨p1, q1, q2, q3, q4, q5, q6, q7, -⟩ := passIteration_due h1 p L lp s1 _
    hpq0 hsize hlp hdue2 hrun1 hc1 hget1 (Or.inl rfl)
  obtain ⟨p2, r1, r2, r3, r4, r5, r6, r7, -⟩ := passIteration_due h2 p L lp s1 _
    hpq0 hsize hlp hdue2 hrun2 hc1 hget1 (Or.inl rfl)
  -- both iterations run the same code on the same tables
  have hsame : passIteration h1 p = passIteration h2 p := by
    have hnd : ¬ lp.nextCall > p.sched.now := not_lt.mpr hdue2
    unfold passIteration
    simp only [hpq0, hlp, if_neg hsize, if_neg hnd]
    simp only [← hs1, hrun1, hrun2, hres, hworld]
  obtain ⟨t1, t2, pre, mid, t3, t4, t5, t6⟩ := r7 rfl
  have hact1 : s1.active = L :: rest := hact
  rw [hact1] at t3
  obtain ⟨e1, e2⟩ := cons_eq_append_cons L rest pre mid t3 t4
  subst e1 e2
  have hnow : s1.now = p.sched.now := rfl
  rw [hnow] at t1 t6
  have hL1 : L < s1.loopers.length := by simpa [hs1] using hav
  refine ⟨p2, hsame.trans r1, r1, ?_, ?_, t2, ?_, ?_⟩
  · unfold Scheduler.stateOf
    rw [t1, List.getElem?_set_self hL1]
    rfl
  · unfold Scheduler.nextCallOf
    rw [t1, List.getElem?_set_self hL1]
  · intro j hj
    constructor
    · unfold Scheduler.stateOf
      rw [t1, List.getElem?_set_ne (Ne.symm hj)]
      simp only [hs1]
      rw [List.getElem?_set_ne (Ne.symm hj)]
    · unfold Scheduler.nextCallOf
      rw [t1, List.getElem?_set_ne (Ne.symm hj)]
      simp only [hs1]
      rw [List.getElem?_set_ne (Ne.symm hj)]
  · rw [t6]
    have hnot : L ∉ mid := t5
    obtain ⟨g1, g2⟩ := takeWhile_congr_mem
      (dueBefore s1.loopers ((p.sched.now + (h2 L p.world).result) % ULONG_RANGE))
      (dueBefore p.sched.loopers ((p.sched.now + (h2 L p.world).result) % ULONG_RANGE)) mid
      (fun x hx => dueBefore_set _ L _ _ x (fun h => hnot (h ▸ hx)))
    rw [g1, g2]
    simp

/-- Claim C11 at three loopers of which the first due one disables and enables itself. -/
theorem self_enable_cancels_witness :
    ∃ p1, passIteration selfRestarting passAtEight = some p1 ∧
      passIteration delayTen passAtEight = some p1 ∧
      p1.sched.stateOf 1 = some ENABLED ∧
      p1.sched.nextCallOf 1 = (8 + 10) % ULONG_RANGE ∧
      p1.sched.pqSize = 3 ∧
      (∀ j, j ≠ 1 → p1.sched.stateOf j = passAtEight.sched.stateOf j ∧
        p1.sched.nextCallOf j = passAtEight.sched.nextCallOf j) ∧
      p1.sched.active =
        [0, 2].takeWhile (dueBefore passAtEight.sched.loopers ((8 + 10) % ULONG_RANGE))
          ++ 1 :: [0, 2].dropWhile (dueBefore passAtEight.sched.loopers
            ((8 + 10) % ULONG_RANGE)) :=
  self_enable_cancels selfRestarting delayTen passAtEight 1 [0, 2]
    (consistent_of_decide _ (by decide)) (by decide) (by decide) rfl rfl rfl rfl

end acp_private

namespace acp_messenger_gep_stream

theorem valid_set_state (MAX : Int) (c : GEPStreamController) (st : State)
    (h : c.Valid MAX) (h1 : st ≠ State.WAIT_MESSAGE_BYTE_LOW)
    (h2 : st ≠ State.WAIT_CRC_WITH_TAG) (h3 : st ≠ State.MESSAGE_RECEIVED_WITH_TAG) :
    GEPStreamController.Valid MAX { c with state := st } := by
  obtain ⟨a1, a2, a3, a4, -, -, -⟩ := h
  exact ⟨a1, a2, a3, a4, fun h => absurd h h1, fun h => absurd h h2, fun h => absurd h h3⟩

theorem valid_set_destination (MAX : Int) (c : GEPStreamController) (d : Nat)
    (h : c.Valid MAX) : GEPStreamController.Valid MAX { c with messageDestinationId := d } :=
  h

theorem mem_set_lt (m : List Nat) (i v : Nat) (hm : ∀ x ∈ m, x < 256) (hv : v < 256) :
    ∀ x ∈ m.set i v, x < 256 := by
  intro x hx
  rcases List.mem_or_eq_of_mem_set hx with h | h
  · exact hm x h
  · rw [h]; exact hv

theorem loopTail_message (ID MAX : Int) (c : GEPStreamController) (b : Nat) :
    (loopTail ID MAX c b).1.message = c.message ∨
    (loopTail ID MAX c b).1.message = c.message.set c.messageLength.toNat (b % 256 / 16 * 16) ∨
    (loopTail ID MAX c b).1.message = c.message.set (c.messageLength - 1).toNat
      ((c.message.getD (c.messageLength - 1).toNat 0 + b % 256 / 16) % 256) := by
  unfold loopTail
  dsimp only
  split_ifs <;> simp

theorem loopTail_shape (ID MAX : Int) (c : GEPStreamController) (b : Nat) :
    ((loopTail ID MAX c b).1.messageLength = c.messageLength ∧
      ((loopTail ID MAX c b).1.state = c.state ∨
        (loopTail ID MAX c b).1.state = State.WAIT_START ∨
        (loopTail ID MAX c b).1.state = State.WAIT_DESTINATION_ID ∨
        (loopTail ID MAX c b).1.state = State.WAIT_MESSAGE_BYTE_HIGH ∨
        (loopTail ID MAX c b).1.state = State.WAIT_CRC)) ∨
    ((loopTail ID MAX c b).1.messageLength = c.messageLength ∧
      (loopTail ID MAX c b).1.state = State.WAIT_CRC_WITH_TAG ∧ 2 ≤ c.messageLength) ∨
    ((loopTail ID MAX c b).1.messageLength = 0 ∧
      (loopTail ID MAX c b).1.state = State.WAIT_MESSAGE_BYTE_HIGH) ∨
    ((loopTail ID MAX c b).1.messageLength = c.messageLength + 1 ∧
      (loopTail ID MAX c b).1.state = State.WAIT_MESSAGE_BYTE_LOW ∧
      c.messageLength < MAX + 2) := by
  unfold loopTail
  dsimp only
  split_ifs
  all_goals simp
  · exact Or.inr (by omega)
  · omega

theorem loopTail_valid (ID MAX : Int) (c : GEPStreamController) (b : Nat)
    (h : c.Valid MAX) : (loopTail ID MAX c b).1.Valid MAX := by
  have h0 : (0 : Int) ≤ MAX + 2 := by
    have := h.1
    omega
  obtain ⟨a1, a2, a3, a4, a5, a6, a7⟩ := h
  have hlen : (loopTail ID MAX c b).1.message.length = c.message.length := by
    rcases loopTail_message ID MAX c b with h | h | h <;> rw [h] <;> simp
  have hbytes : ∀ x ∈ (loopTail ID MAX c b).1.message, x < 256 := by
    rcases loopTail_message ID MAX c b with h | h | h <;> rw [h]
    · exact a2
    · exact mem_set_lt _ _ _ a2 (by omega)
    · exact mem_set_lt _ _ _ a2 (Nat.mod_lt _ (by decide))
  have hnr := (loopTail_not_received ID MAX { c with state := State.WAIT_START } b
    (by simp) (by simp)).2.2
  refine ⟨by rw [hlen]; exact a1, hbytes, ?_⟩
  rcases loopTail_shape ID MAX c b with ⟨e1, e2⟩ | ⟨e1, e2, e3⟩ | ⟨e1, e2⟩ | ⟨e1, e2, e3⟩
  · rw [e1]
    refine ⟨a3, a4, ?_, ?_, ?_⟩
    · intro g
      rcases e2 with e | e | e | e | e
      · exact a5 (e ▸ g)
      · rw [e] at g; exact State.noConfusion g
      · rw [e] at g; exact State.noConfusion g
      · rw [e] at g; exact State.noConfusion g
      · rw [e] at g; exact State.noConfusion g
    · intro g
      rcases e2 with e | e | e | e | e
      · exact a6 (e ▸ g)
      · rw [e] at g; exact State.noConfusion g
      · rw [e] at g; exact State.noConfusion g
      · rw [e] at g; exact State.noConfusion g
      · rw [e] at g; exact State.noConfusion g
    · intro g
      rcases e2 with e | e | e | e | e
      · exact a7 (e ▸ g)
      · rw [e] at g; exact State.noConfusion g
      · rw [e] at g; exact State.noConfusion g
      · rw [e] at g; exact State.noConfusion g
      · rw [e] at g; exact State.noConfusion g
  · rw [e1, e2]
    exact ⟨a3, a4, fun g => State.noConfusion g, fun _ => e3, fun g => State.noConfusion g⟩
  · rw [e1, e2]
    exact ⟨le_refl _, h0, fun g => State.noConfusion g, fun g => State.noConfusion g,
      fun g => State.noConfusion g⟩
  · rw [e1, e2]
    exact ⟨by omega, by omega, fun _ => by omega, fun g => State.noConfusion g,
      fun g => State.noConfusion g⟩

theorem loopBody_valid (ID MAX : Int) (c : GEPStreamController) (b : Nat)
    (h : c.Valid MAX) : (loopBody ID MAX c b).1.Valid MAX := by
  unfold loopBody
  dsimp only
  split_ifs with c1 c2 c3 c4
  · exact h
  · exact loopTail_valid ID MAX _ b
      (valid_set_state MAX c _ h (by decide) (by decide) (by decide))
  · obtain ⟨a1, a2, a3, a4, a5, a6, a7⟩ := h
    have := a6 c4
    refine ⟨a1, a2, ?_, ?_, fun h => State.noConfusion h, fun h => State.noConfusion h,
      fun _ => ?_⟩
    · show 0 ≤ c.messageLength - 2
      omega
    · show c.messageLength - 2 ≤ MAX + 2
      omega
    · show c.messageLength - 2 ≤ MAX
      omega
  · exact valid_set_state MAX c State.MESSAGE_RECEIVED h (by decide) (by decide) (by decide)
  · exact valid_set_state MAX c State.MESSAGE_RECEIVED h (by decide) (by decide) (by decide)
  · exact loopTail_valid ID MAX c b h

theorem readLoop_valid (ID MAX : Int) (input : List Nat) : ∀ c : GEPStreamController,
    c.Valid MAX → (readLoop ID MAX c input).1.Valid MAX := by
  induction input with
  | nil => intro c h; exact h
  | cons b rest ih =>
    intro c h
    unfold readLoop
    split_ifs
    · exact loopBody_valid ID MAX c b h
    · exact ih _ (loopBody_valid ID MAX c b h)

theorem notify_valid (MAX : Int) (c : GEPStreamController) (h : c.Valid MAX) :
    (notify c).1.Valid MAX := by
  have hno : (notifyNoTag c).1.Valid MAX := by
    unfold notifyNoTag
    split_ifs
    · obtain ⟨a1, a2, a3, a4, -, -, -⟩ := h
      refine ⟨by simpa using a1, mem_set_lt _ _ _ a2 (by decide), a3, a4,
        fun h => by simp at h, fun h => by simp at h, fun h => by simp at h⟩
    · exact valid_set_state MAX c _ h (by decide) (by decide) (by decide)
    · exact h
  unfold notify
  generalize (notifyNoTag c).1 = c1 at hno
  unfold notifyWithTag
  split_ifs
  · obtain ⟨a1, a2, a3, a4, -, -, -⟩ := hno
    refine ⟨by simpa using a1, mem_set_lt _ _ _ a2 (by decide), a3, a4,
      fun h => by simp at h, fun h => by simp at h, fun h => by simp at h⟩
  · exact valid_set_state MAX c1 _ hno (by decide) (by decide) (by decide)
  · exact hno

theorem loop_valid (ID MAX : Int) (c : GEPStreamController) (input : List Nat)
    (h : c.Valid MAX) : (loop ID MAX c input).1.Valid MAX := by
  rw [loop_eq_notify]
  apply notify_valid
  split_ifs
  · exact readLoop_valid ID MAX input c h
  · exact h

end acp_messenger_gep_stream

namespace acp_messenger_gep_stream

theorem notify_calls_length (c : GEPStreamController) : (notify c).2.length ≤ 1 := by
  unfold notify notifyNoTag notifyWithTag
  dsimp only
  split_ifs <;> simp_all

theorem notify_received (s : Bool) (d : Nat) (m : List Nat) (k : Int) (e : Bool) :
    notify ⟨s, d, m, k, State.MESSAGE_RECEIVED, e⟩ =
      (⟨s, d, if e then m.set k.toNat 0 else m, k, State.WAIT_START, e⟩,
        if e then [⟨m.set k.toNat 0, k, -1⟩] else []) := by
  cases e <;> rfl

theorem notify_received_with_tag (s : Bool) (d : Nat) (m : List Nat) (k : Int) (e : Bool) :
    notify ⟨s, d, m, k, State.MESSAGE_RECEIVED_WITH_TAG, e⟩ =
      (⟨s, d, if e then m.set k.toNat 0 else m, k, State.WAIT_START, e⟩,
        if e then [⟨m.set k.toNat 0, k,
          (((m.getD k.toNat 0 * 256 + m.getD (k.toNat + 1) 0) % 65536 : Nat) : Int)⟩]
        else []) := by
  cases e <;> rfl

theorem getD_lt (m : List Nat) (i : Nat) (h : ∀ x ∈ m, x < 256) : m.getD i 0 < 256 := by
  rw [List.getD_eq_getElem?_getD]
  cases hi : m[i]? with
  | none => simp
  | some v =>
    simp only [Option.getD_some]
    exact h v (List.mem_iff_getElem?.mpr ⟨i, hi⟩)

/-- Claim C19 (one dispatch per receive pass).  For every receiver state other than
`MESSAGE_RECEIVED` and `MESSAGE_RECEIVED_WITH_TAG` and every sequence of available bytes, one
call of `loop()` invokes the callback at most once and returns in a state other than
`MESSAGE_RECEIVED` and `MESSAGE_RECEIVED_WITH_TAG`.  When the read loop completed a frame in
that call, the returned state is `WAIT_START`, the input is the bytes read up to and
including the CRC byte followed by the bytes left unread, the callback (if set) is invoked
exactly once, with tag -1 for an untagged frame and, for a tagged frame in a receiver whose
fields satisfy the receiver invariant, with the length reduced by two and the tag
`message[len] * 256 + message[len + 1]` read from the two stripped bytes, which lie inside
the buffer. -/
theorem one_dispatch_per_pass (ID MAX : Int) (c : GEPStreamController) (input : List Nat)
    (h1 : c.state ≠ State.MESSAGE_RECEIVED) (h2 : c.state ≠ State.MESSAGE_RECEIVED_WITH_TAG) :
    (loop ID MAX c input).2.2.length ≤ 1 ∧
    (loop ID MAX c input).1.state ≠ State.MESSAGE_RECEIVED ∧
    (loop ID MAX c input).1.state ≠ State.MESSAGE_RECEIVED_WITH_TAG ∧
    (c.stream = true →
      ((readLoop ID MAX c input).1.state = State.MESSAGE_RECEIVED ∨
        (readLoop ID MAX c input).1.state = State.MESSAGE_RECEIVED_WITH_TAG) →
      (loop ID MAX c input).1.state = State.WAIT_START ∧
      ∃ (pre : List Nat) (b : Nat) (c0 : GEPStreamController),
        input = pre ++ b :: (loop ID MAX c input).2.1 ∧
        readLoop ID MAX c pre = (c0, []) ∧
        (c0.state = State.WAIT_CRC ∨ c0.state = State.WAIT_CRC_WITH_TAG) ∧
        b = expectedCRC c0 ∧
        (c0.messageReceivedEvent = true → (loop ID MAX c input).2.2.length = 1) ∧
        (c0.state = State.WAIT_CRC → ∀ call ∈ (loop ID MAX c input).2.2,
          call.messageLength = c0.messageLength ∧ call.messageTag = -1) ∧
        (c0.state = State.WAIT_CRC_WITH_TAG → c.Valid MAX →
          0 ≤ c0.messageLength - 2 ∧
          (c0.messageLength - 2).toNat + 1 < c0.message.length ∧
          ∀ call ∈ (loop ID MAX c input).2.2,
            call.messageLength = c0.messageLength - 2 ∧
            call.messageTag =
              (c0.message.getD (c0.messageLength - 2).toNat 0 : Int) * 256
                + (c0.message.getD ((c0.messageLength - 2).toNat + 1) 0 : Int))) := by
  rw [loop_eq_notify]
  refine ⟨notify_calls_length _, (notify_state _).1, (notify_state _).2, ?_⟩
  intro hstream hdone
  simp only [hstream, if_true]
  obtain ⟨pre, b, c0, e1, e2, e3, e4, e5⟩ := readLoop_received ID MAX input c h1 h2 hdone
  have hv0 : c.Valid MAX → c0.Valid MAX := by
    intro hv
    have := readLoop_valid ID MAX pre c hv
    rw [e2] at this
    exact this
  subst e4
  rw [e5]
  obtain ⟨s, d, m, k, st, e⟩ := c0
  simp only at e3 hv0 ⊢
  unfold expectedCRC
  simp only
  rcases e3 with e3 | e3
  · subst e3
    rw [loopBody_crc_match, notify_received]
    refine ⟨rfl, pre, expectedCRC ⟨s, d, m, k, State.WAIT_CRC, e⟩,
      ⟨s, d, m, k, State.WAIT_CRC, e⟩, e1, e2, Or.inl rfl, rfl, ?_, ?_, ?_⟩
    · intro he
      simp only at he
      subst he
      rfl
    · intro _ call hcall
      cases e
      · simp at hcall
      · simp only [if_true, List.mem_singleton] at hcall
        subst hcall
        exact ⟨rfl, rfl⟩
    · intro h
      exact State.noConfusion h
  · subst e3
    rw [loopBody_crc_with_tag_match, notify_received_with_tag]
    refine ⟨rfl, pre, expectedCRC ⟨s, d, m, k, State.WAIT_CRC_WITH_TAG, e⟩,
      ⟨s, d, m, k, State.WAIT_CRC_WITH_TAG, e⟩, e1, e2, Or.inr rfl, rfl, ?_, ?_, ?_⟩
    · intro he
      simp only at he
      subst he
      rfl
    · intro h
      exact State.noConfusion h
    · intro _ hv
      obtain ⟨a1, a2, a3, a4, a5, a6, a7⟩ := hv0 hv
      have hk : 2 ≤ k := a6 rfl
      have hl : (m.length : Int) = MAX + 2 := a1
      have hle : k ≤ MAX + 2 := a4
      have hm : ∀ x ∈ m, x < 256 := a2
      dsimp only
      refine ⟨by omega, by omega, ?_⟩
      intro call hcall
      cases e
      · simp at hcall
      · simp only [if_true, List.mem_singleton] at hcall
        subst hcall
        refine ⟨rfl, ?_⟩
        have g1 := getD_lt m (k - 2).toNat hm
        have g2 := getD_lt m ((k - 2).toNat + 1) hm
        simp only
        rw [Nat.mod_eq_of_lt (by omega)]
        push_cast
        rfl

set_option maxRecDepth 100000 in
theorem taggedBody_completes :
    (readLoop 0 4 taggedBody [expectedCRC taggedBody, 7, 8]).1.state
      = State.MESSAGE_RECEIVED_WITH_TAG := by
  decide

/-- Claim C19 at a receiver that waits for the CRC of a tagged frame (destination 2,
payload "AB", tag bytes 1 and 2) and reads it followed by two more bytes: at most one
callback invocation, and the call returns in `WAIT_START`. -/
theorem one_dispatch_per_pass_witness :
    (loop 0 4 taggedBody [expectedCRC taggedBody, 7, 8]).2.2.length ≤ 1 ∧
    (loop 0 4 taggedBody [expectedCRC taggedBody, 7, 8]).1.state ≠ State.MESSAGE_RECEIVED ∧
    (loop 0 4 taggedBody [expectedCRC taggedBody, 7, 8]).1.state
      ≠ State.MESSAGE_RECEIVED_WITH_TAG ∧
    (loop 0 4 taggedBody [expectedCRC taggedBody, 7, 8]).1.state = State.WAIT_START :=
  ⟨(one_dispatch_per_pass 0 4 taggedBody [expectedCRC taggedBody, 7, 8] (by decide)
      (by decide)).1,
    (one_dispatch_per_pass 0 4 taggedBody [expectedCRC taggedBody, 7, 8] (by decide)
      (by decide)).2.1,
    (one_dispatch_per_pass 0 4 taggedBody [expectedCRC taggedBody, 7, 8] (by decide)
      (by decide)).2.2.1,
    ((one_dispatch_per_pass 0 4 taggedBody [expectedCRC taggedBody, 7, 8] (by decide)
      (by decide)).2.2.2 rfl (Or.inr taggedBody_completes)).1⟩

end acp_messenger_gep_stream

namespace acp_messenger_gep_stream

theorem loopTailAccess_bounds (MAX : Int) (c : GEPStreamController) (b : Nat)
    (h : c.Valid MAX) : ∀ i ∈ loopTailAccess MAX c b, 0 ≤ i ∧ i < MAX + 2 := by
  obtain ⟨-, -, a3, a4, a5, -, -⟩ := h
  intro i hi
  unfold loopTailAccess at hi
  dsimp only at hi
  split_ifs at hi with c1 c2 c3 c4 c5 c6 c7 c8 c9
  all_goals first
    | exact absurd hi (List.not_mem_nil i)
    | skip
  · rw [List.mem_singleton] at hi
    omega
  · rw [List.mem_singleton] at hi
    have hlow : c.state = State.WAIT_MESSAGE_BYTE_LOW := by
      rcases c6 with g | g
      · exact absurd g c8
      · exact g
    have := a5 hlow
    omega

theorem loopBodyAccess_bounds (MAX : Int) (c : GEPStreamController) (b : Nat)
    (h : c.Valid MAX) : ∀ i ∈ loopBodyAccess MAX c b, 0 ≤ i ∧ i < MAX + 2 := by
  intro i hi
  unfold loopBodyAccess at hi
  dsimp only at hi
  split_ifs at hi with c1 c2 c3
  · exact absurd hi (List.not_mem_nil i)
  · rcases List.mem_append.mp hi with g | g
    · obtain ⟨n, hn, rfl⟩ := List.mem_map.mp g
      have hn2 := List.mem_range.mp hn
      have a4 := h.2.2.2.1
      have : ((n : Nat) : Int) < c.messageLength := by omega
      exact ⟨Int.ofNat_nonneg n, by
        show ((n : Nat) : Int) < MAX + 2
        omega⟩
    · exact loopTailAccess_bounds MAX _ b
        (valid_set_state MAX c _ h (by decide) (by decide) (by decide)) i g
  · rw [List.append_nil] at hi
    obtain ⟨n, hn, rfl⟩ := List.mem_map.mp hi
    have hn2 := List.mem_range.mp hn
    have a4 := h.2.2.2.1
    have : ((n : Nat) : Int) < c.messageLength := by omega
    exact ⟨Int.ofNat_nonneg n, by
      show ((n : Nat) : Int) < MAX + 2
      omega⟩
  · exact loopTailAccess_bounds MAX c b h i hi

theorem readLoopAccess_bounds (ID MAX : Int) (input : List Nat) :
    ∀ c : GEPStreamController, c.Valid MAX →
      ∀ i ∈ readLoopAccess ID MAX c input, 0 ≤ i ∧ i < MAX + 2 := by
  induction input with
  | nil =>
    intro c _ i hi
    exact absurd hi (List.not_mem_nil i)
  | cons b rest ih =>
    intro c h i hi
    unfold readLoopAccess at hi
    rcases List.mem_append.mp hi with g | g
    · exact loopBodyAccess_bounds MAX c b h i g
    · split_ifs at g
      · exact absurd g (List.not_mem_nil i)
      · exact ih _ (loopBody_valid ID MAX c b h) i g

/-- Claim C20, evaluated on the code.  The receiver invariant (`message` has
`MAX_MESSAGE_SIZE + 2` bytes and `0 ≤ messageLength ≤ MAX_MESSAGE_SIZE + 2`) holds for the
constructed receiver and is kept by the assignments of the stream and of the callback, by
the read loop and by every call of `loop()`; the indices at which the read loop accesses
`message` (nibble stores, nibble additions, CRC reads) and the indices of the tag reads and
of the terminating write of a tagged frame lie in `0..MAX_MESSAGE_SIZE + 1`.  The
terminating write of an untagged frame is only bounded by `MAX_MESSAGE_SIZE + 2`, and the
bound is reached: after the frame `sendMessage` writes for an untagged payload of
`MAX_MESSAGE_SIZE + 2` bytes, `loop()` writes the terminating 0 at
`message[MAX_MESSAGE_SIZE + 2]`, one element past the end of the buffer. -/
theorem receive_buffer_overrun (ID MAX : Int) :
    (∀ m : List Nat, (m.length : Int) = MAX + 2 → (∀ x ∈ m, x < 256) →
      (GEPStreamController.new m).Valid MAX) ∧
    (∀ (c : GEPStreamController) (s e : Bool), c.Valid MAX →
      GEPStreamController.Valid MAX { c with stream := s, messageReceivedEvent := e }) ∧
    (∀ (c : GEPStreamController) (input : List Nat), c.Valid MAX →
      (readLoop ID MAX c input).1.Valid MAX ∧ (loop ID MAX c input).1.Valid MAX ∧
      0 ≤ (loop ID MAX c input).1.messageLength ∧
      (loop ID MAX c input).1.messageLength ≤ MAX + 2) ∧
    (∀ (c : GEPStreamController) (input : List Nat), c.Valid MAX →
      ∀ i ∈ readLoopAccess ID MAX c input, 0 ≤ i ∧ i < MAX + 2) ∧
    (∀ c : GEPStreamController, c.Valid MAX →
      ∀ i ∈ notifyWithTagAccess c, 0 ≤ i ∧ i < MAX + 2) ∧
    (∀ c : GEPStreamController, c.Valid MAX →
      ∀ i ∈ notifyNoTagAccess c, 0 ≤ i ∧ i ≤ MAX + 2) ∧
    (∀ (c : GEPStreamController) (d : Nat) (payload : List Nat), d < 16 →
      (ID ≤ 0 ∨ d = 0 ∨ (d : Int) = ID) → (payload.length : Int) = MAX + 2 →
      (∀ b ∈ payload, b < 256) → c.Valid MAX → c.state = State.WAIT_START →
      c.stream = true → c.messageReceivedEvent = true →
      notifyNoTagAccess
          (readLoop ID MAX c (sendMessage true d (some payload) payload.length (-1))).1
        = [(c.message.length : Int)]) := by
  refine ⟨?_, ?_, ?_, ?_, ?_, ?_, ?_⟩
  · intro m hlen hbytes
    have h0 : (0 : Int) ≤ MAX + 2 := by omega
    exact ⟨hlen, hbytes, le_refl _, h0, fun h => State.noConfusion h,
      fun h => State.noConfusion h, fun h => State.noConfusion h⟩
  · intro c s e h
    exact h
  · intro c input h
    have hl := loop_valid ID MAX c input h
    exact ⟨readLoop_valid ID MAX input c h, hl, hl.2.2.1, hl.2.2.2.1⟩
  · intro c input h
    exact readLoopAccess_bounds ID MAX input c h
  · intro c h i hi
    obtain ⟨-, -, a3, -, -, -, a7⟩ := h
    unfold notifyWithTagAccess at hi
    split_ifs at hi with g1 g2
    · have := a7 g1
      simp only [List.mem_cons, List.mem_singleton, List.not_mem_nil, or_false] at hi
      rcases hi with hi | hi | hi <;> omega
    · exact absurd hi (List.not_mem_nil i)
    · exact absurd hi (List.not_mem_nil i)
  · intro c h i hi
    obtain ⟨-, -, a3, a4, -, -, -⟩ := h
    unfold notifyNoTagAccess at hi
    split_ifs at hi with g1 g2
    · rw [List.mem_singleton] at hi
      omega
    · exact absurd hi (List.not_mem_nil i)
    · exact absurd hi (List.not_mem_nil i)
  · intro c d payload hd hacc hlen hbytes hv hstate hstream hev
    obtain ⟨s, d0, m, k0, st, e⟩ := c
    simp only at hstate hstream hev
    subst hstate hstream hev
    have hm : (m.length : Int) = MAX + 2 := hv.1
    rw [sendMessage_no_tag d hd payload (-1) (by decide),
      readLoop_frame_no_tag ID MAX true d0 m k0 true State.WAIT_START (by decide) (by decide)
        d hd hacc payload [] hbytes (by omega) (by omega)]
    show (if State.MESSAGE_RECEIVED = State.MESSAGE_RECEIVED then
      if true = true then [(payload.length : Int)] else [] else []) = [(m.length : Int)]
    rw [if_pos rfl, if_pos rfl, hlen, hm]

/-- Claim C20 at the build `GEPStreamController<0, 50>` (a buffer of 52 bytes, indices
0..51): after a frame with 52 payload bytes the terminating 0 is written at index 52. -/
theorem receive_buffer_overrun_witness :
    notifyNoTagAccess
        (readLoop 0 50 controller_1 (sendMessage true 0 (some payload52) 52 (-1))).1 = [52] ∧
    controller_1.message.length = 52 :=
  ⟨(receive_buffer_overrun 0 50).2.2.2.2.2.2 controller_1 0 payload52 (by decide)
      (Or.inl (by decide)) (by decide) (by decide)
      ((receive_buffer_overrun 0 50).2.1 (GEPStreamController.new buffer52) true true
        ((receive_buffer_overrun 0 50).1 buffer52 (by decide) (by decide))) rfl rfl rfl,
    rfl⟩

end acp_messenger_gep_stream

namespace acp_private

open acp

theorem enableLooper_effect (s : Scheduler) (hc : s.Consistent) (i : Nat)
    (hi : i < s.loopers.length) :
    ∃ s1, enableLooper s i = some s1 ∧ s1.loopers.length = s.loopers.length ∧
      (∀ j, j ≠ i → s1.nextCallOf j = s.nextCallOf j) ∧
      ((s.stateOf i = some DISABLED ∧ s1.active = i :: s.active ∧ s1.nextCallOf i = s.now) ∨
        (s.stateOf i ≠ some DISABLED ∧ s1.active = s.active ∧
          s1.nextCallOf i = s.nextCallOf i)) := by
  have hlp := List.getElem?_eq_getElem hi
  set lp := s.loopers[i] with hlpdef
  have hst := s.stateOf_eq i lp hlp
  by_cases c1 : lp.state = ENABLED ∨ lp.state = EXECUTED_ENABLED
  · refine ⟨s, ?_, rfl, fun _ _ => rfl, Or.inr ⟨?_, rfl, rfl⟩⟩
    · simp only [enableLooper, hlp, c1, if_true]
    · rw [hst]
      intro h
      rw [Option.some.injEq] at h
      rcases c1 with c | c <;> rw [c] at h <;> exact absurd h (by decide)
  · by_cases c2 : lp.state = EXECUTED_DISABLED
    · refine ⟨{ s with loopers := s.loopers.set i { lp with state := EXECUTED_ENABLED } },
        ?_, by simp, ?_, Or.inr ⟨?_, rfl, ?_⟩⟩
      · unfold enableLooper
        simp only [hlp]
        rw [if_neg c1, if_pos c2]
      · intro j hj
        exact nextCallOf_set_ne s i j _ _ _ _ hj
      · rw [hst, c2]
        decide
      · unfold Scheduler.nextCallOf
        simp only [List.getElem?_set_self hi, hlp]
    · have c0 : lp.state = DISABLED := by
        have h3 := (hc.2.2.2.2.2 i lp.state hst).1
        simp only [ENABLED, EXECUTED_ENABLED, EXECUTED_DISABLED, DISABLED] at c1 c2 ⊢
        omega
      obtain ⟨pq, e1, e2, e3, e4, e5⟩ := enableLooper_disabled s hc i lp hlp c0
      refine ⟨_, e1, by simp, ?_, Or.inl ⟨by rw [hst, c0], e3, ?_⟩⟩
      · intro j hj
        exact nextCallOf_set_ne s i j _ _ _ _ hj
      · unfold Scheduler.nextCallOf
        simp only [List.getElem?_set_self hi]

theorem disableLooper_effect (s : Scheduler) (hc : s.Consistent) (i : Nat)
    (hi : i < s.loopers.length) :
    ∃ s1, disableLooper s i = some s1 ∧ s1.loopers.length = s.loopers.length ∧
      (∀ j, s1.nextCallOf j = s.nextCallOf j) ∧
      ((s.stateOf i = some ENABLED ∧ s1.active = s.active.erase i) ∨
        (s.stateOf i ≠ some ENABLED ∧ s1.active = s.active)) := by
  have hlp := List.getElem?_eq_getElem hi
  set lp := s.loopers[i] with hlpdef
  have hst := s.stateOf_eq i lp hlp
  have hnc : ∀ (st : Nat) (pq : List Nat) (n : Int) (j : Nat),
      Scheduler.nextCallOf ⟨s.loopers.set i ⟨lp.nextCall, st⟩, pq, n, s.now⟩ j
        = s.nextCallOf j := by
    intro st pq n j
    by_cases hj : j = i
    · subst hj
      unfold Scheduler.nextCallOf
      simp only [List.getElem?_set_self hi, hlp]
    · exact nextCallOf_set_ne s i j _ _ _ _ hj
  by_cases c1 : lp.state = DISABLED ∨ lp.state = EXECUTED_DISABLED
  · refine ⟨s, ?_, rfl, fun _ => rfl, Or.inr ⟨?_, rfl⟩⟩
    · simp only [disableLooper, hlp, c1, if_true]
    · rw [hst]
      intro h
      rw [Option.some.injEq] at h
      rcases c1 with c | c <;> rw [c] at h <;> exact absurd h (by decide)
  · by_cases c2 : lp.state = EXECUTED_ENABLED
    · refine ⟨{ s with loopers := s.loopers.set i { lp with state := EXECUTED_DISABLED } },
        ?_, by simp, hnc _ _ _, Or.inr ⟨?_, rfl⟩⟩
      · unfold disableLooper
        simp only [hlp]
        rw [if_neg c1, if_pos c2]
      · rw [hst, c2]
        decide
    · have h3 := hc.2.2.2.2.2 i lp.state hst
      have c0 : lp.state = ENABLED := by
        have h4 := h3.1
        simp only [ENABLED, EXECUTED_ENABLED, EXECUTED_DISABLED, DISABLED] at c1 c2 ⊢
        omega
      have hmem : i ∈ s.active := h3.2.mpr (fun e => c1 (Or.inl e))
      obtain ⟨pos, pq, f1, f2, f3, f4, f5⟩ := remove_spec s i hmem hc.2.2.2.1 hc.2.1 hc.2.2.1
      refine ⟨⟨s.loopers.set i ⟨lp.nextCall, DISABLED⟩, pq, s.pqSize - 1, s.now⟩, ?_, by simp,
        hnc _ _ _, Or.inl ⟨by rw [hst, c0], f4⟩⟩
      unfold disableLooper
      simp only [hlp]
      rw [if_neg c1, if_neg c2]
      simp only [f1, f2]

end acp_private

namespace acp_private

open acp

theorem stateOf_isSome (s : Scheduler) (i : Nat) (hi : i < s.loopers.length) :
    ∃ st, s.stateOf i = some st :=
  ⟨_, s.stateOf_eq i _ (List.getElem?_eq_getElem hi)⟩

theorem enabledState_settled (st : Nat) (h : st = ENABLED ∨ st = DISABLED) :
    enabledState st = ENABLED ∨ enabledState st = DISABLED := by
  rcases h with h | h <;> rw [h] <;> decide

theorem disabledState_settled (st : Nat) (h : st = ENABLED ∨ st = DISABLED) :
    disabledState st = ENABLED ∨ disabledState st = DISABLED := by
  rcases h with h | h <;> rw [h] <;> decide

/-- What one call of `enableLooper` / `disableLooper` made by the handler of the
executing looper `a` does to the ordering `pre ++ a :: mid`. -/
theorem call_shape (a : Nat) (c : LooperCall) (s : Scheduler) (pre mid : List Nat)
    (hc : s.Consistent) (hslot : c.slot < s.loopers.length)
    (ha : s.stateOf a = some EXECUTED_ENABLED ∨ s.stateOf a = some EXECUTED_DISABLED)
    (hact : s.active = pre ++ a :: mid) (hpre : ∀ j ∈ pre, s.nextCallOf j = s.now) :
    ∃ s1 pre1 mid1, runCalls [c] s = some s1 ∧ s1.Consistent ∧ s1.now = s.now ∧
      s1.loopers.length = s.loopers.length ∧
      (s1.stateOf a = some EXECUTED_ENABLED ∨ s1.stateOf a = some EXECUTED_DISABLED) ∧
      s1.active = pre1 ++ a :: mid1 ∧ (∀ j ∈ pre1, s1.nextCallOf j = s1.now) ∧
      mid1.Sublist mid ∧ (∀ j ∈ mid1, s1.nextCallOf j = s.nextCallOf j) ∧
      s1.nextCallOf a = s.nextCallOf a ∧
      ((c = LooperCall.disable c.slot ∨ c.slot = a) → pre1.Sublist pre) ∧
      ((∀ j st, j ≠ a → s.stateOf j = some st → st = ENABLED ∨ st = DISABLED) →
        ∀ j st, j ≠ a → s1.stateOf j = some st → st = ENABLED ∨ st = DISABLED) := by
  have hnd : (pre ++ a :: mid).Nodup := hact ▸ hc.2.2.2.1
  have hamem : a ∈ s.active := by rw [hact]; simp
  cases c with
  | enable i =>
    have hi : i < s.loopers.length := hslot
    obtain ⟨s1, e1, e2, e3, e4⟩ := enableLooper_effect s hc i hi
    obtain ⟨f1, f2, f3, f4⟩ := enableLooper_consistent s s1 i hc e1
    have hrun : runCalls [LooperCall.enable i] s = some s1 := by
      simp only [runCalls, e1]
    have ha1 : s1.stateOf a = some EXECUTED_ENABLED ∨ s1.stateOf a = some EXECUTED_DISABLED := by
      by_cases hai : a = i
      · subst hai
        rcases ha with h | h
        · left; rw [f4 _ h]; rfl
        · left; rw [f4 _ h]; rfl
      · rw [(f3 a hai).1]; exact ha
    have hset : (∀ j st, j ≠ a → s.stateOf j = some st → st = ENABLED ∨ st = DISABLED) →
        ∀ j st, j ≠ a → s1.stateOf j = some st → st = ENABLED ∨ st = DISABLED := by
      intro hs j st hja hst
      by_cases hji : j = i
      · subst hji
        obtain ⟨st0, h0⟩ := stateOf_isSome s j hi
        rw [f4 st0 h0, Option.some.injEq] at hst
        rw [← hst]
        exact enabledState_settled st0 (hs j st0 hja h0)
      · rw [(f3 j hji).1] at hst
        exact hs j st hja hst
    rcases e4 with ⟨g1, g2, g3⟩ | ⟨g1, g2, g3⟩
    · -- the looper was DISABLED: it is put in front
      have hia : i ≠ a := by
        intro e
        subst e
        rcases ha with h | h <;> rw [h] at g1 <;> exact absurd g1 (by decide)
      have hni : i ∉ s.active := by
        intro hm
        exact (hc.2.2.2.2.2 i DISABLED g1).2.mp hm rfl
      rw [hact] at hni
      refine ⟨s1, i :: pre, mid, hrun, f1, f2, e2, ha1, by rw [g2, hact]; rfl, ?_,
        List.Sublist.refl _, ?_, e3 a (Ne.symm hia), ?_, hset⟩
      · intro j hj
        rcases List.mem_cons.mp hj with h | h
        · rw [h, g3, f2]
        · have hji : j ≠ i := fun e => hni (by rw [← e]; simp [h])
          rw [e3 j hji, f2]
          exact hpre j h
      · intro j hj
        have hji : j ≠ i := fun e => hni (by rw [← e]; simp [hj])
        exact e3 j hji
      · intro hq
        rcases hq with hq | hq
        · exact absurd hq (by simp)
        · exact absurd hq hia
    · -- nothing changes in the ordering
      have hnc : ∀ j, s1.nextCallOf j = s.nextCallOf j := by
        intro j
        by_cases hji : j = i
        · rw [hji]; exact g3
        · exact e3 j hji
      refine ⟨s1, pre, mid, hrun, f1, f2, e2, ha1, by rw [g2, hact], ?_,
        List.Sublist.refl _, fun j _ => hnc j, hnc a, fun _ => List.Sublist.refl _, hset⟩
      intro j hj
      rw [hnc j, f2]
      exact hpre j hj
  | disable i =>
    have hi : i < s.loopers.length := hslot
    obtain ⟨s1, e1, e2, e3, e4⟩ := disableLooper_effect s hc i hi
    obtain ⟨f1, f2, f3, f4⟩ := disableLooper_consistent s s1 i hc e1
    have hrun : runCalls [LooperCall.disable i] s = some s1 := by
      simp only [runCalls, e1]
    have ha1 : s1.stateOf a = some EXECUTED_ENABLED ∨ s1.stateOf a = some EXECUTED_DISABLED := by
      by_cases hai : a = i
      · subst hai
        rcases ha with h | h
        · right; rw [f4 _ h]; rfl
        · right; rw [f4 _ h]; rfl
      · rw [(f3 a hai).1]; exact ha
    have hset : (∀ j st, j ≠ a → s.stateOf j = some st → st = ENABLED ∨ st = DISABLED) →
        ∀ j st, j ≠ a → s1.stateOf j = some st → st = ENABLED ∨ st = DISABLED := by
      intro hs j st hja hst
      by_cases hji : j = i
      · subst hji
        obtain ⟨st0, h0⟩ := stateOf_isSome s j hi
        rw [f4 st0 h0, Option.some.injEq] at hst
        rw [← hst]
        exact disabledState_settled st0 (hs j st0 hja h0)
      · rw [(f3 j hji).1] at hst
        exact hs j st hja hst
    rcases e4 with ⟨g1, g2⟩ | ⟨g1, g2⟩
    · -- the looper was ENABLED: it is taken out
      have hia : i ≠ a := by
        intro e
        subst e
        rcases ha with h | h <;> rw [h] at g1 <;> exact absurd g1 (by decide)
      by_cases hip : i ∈ pre
      · refine ⟨s1, pre.erase i, mid, hrun, f1, f2, e2, ha1, ?_, ?_, List.Sublist.refl _,
          fun j _ => e3 j, e3 a, fun _ => List.erase_sublist i pre, hset⟩
        · rw [g2, hact, List.erase_append_left _ hip]
        · intro j hj
          rw [e3 j, f2]
          exact hpre j (List.mem_of_mem_erase hj)
      · refine ⟨s1, pre, mid.erase i, hrun, f1, f2, e2, ha1, ?_, ?_, List.erase_sublist i mid,
          fun j _ => e3 j, e3 a, fun _ => List.Sublist.refl _, hset⟩
        · rw [g2, hact, List.erase_append_right _ hip, List.erase_cons_tail]
          simpa using Ne.symm hia
        · intro j hj
          rw [e3 j, f2]
          exact hpre j hj
    · refine ⟨s1, pre, mid, hrun, f1, f2, e2, ha1, by rw [g2, hact], ?_,
        List.Sublist.refl _, fun j _ => e3 j, e3 a, fun _ => List.Sublist.refl _, hset⟩
      intro j hj
      rw [e3 j, f2]
      exact hpre j hj

end acp_private

namespace acp_private

open acp

theorem runCalls_cons (c : LooperCall) (calls : List LooperCall) (s s1 : Scheduler)
    (h : runCalls [c] s = some s1) : runCalls (c :: calls) s = runCalls calls s1 := by
  cases c with
  | enable i =>
    cases he : enableLooper s i with
    | none => simp [runCalls, he] at h
    | some s2 =>
      simp only [runCalls, he, Option.some.injEq] at h ⊢
      rw [h]
  | disable i =>
    cases he : disableLooper s i with
    | none => simp [runCalls, he] at h
    | some s2 =>
      simp only [runCalls, he, Option.some.injEq] at h ⊢
      rw [h]

/-- What the calls made by the handler of the executing looper `a` do to the
ordering `pre ++ a :: mid`: loopers are put in front, with `nextCall = now`, or
taken out; the others keep their relative order and their `nextCall`. -/
theorem runCalls_shape (a : Nat) (calls : List LooperCall) :
    ∀ (s : Scheduler) (pre mid : List Nat), s.Consistent →
    (∀ c ∈ calls, c.slot < s.loopers.length) →
    (s.stateOf a = some EXECUTED_ENABLED ∨ s.stateOf a = some EXECUTED_DISABLED) →
    s.active = pre ++ a :: mid → (∀ j ∈ pre, s.nextCallOf j = s.now) →
    ∃ s1 pre1 mid1, runCalls calls s = some s1 ∧ s1.Consistent ∧ s1.now = s.now ∧
      s1.loopers.length = s.loopers.length ∧
      (s1.stateOf a = some EXECUTED_ENABLED ∨ s1.stateOf a = some EXECUTED_DISABLED) ∧
      s1.active = pre1 ++ a :: mid1 ∧ (∀ j ∈ pre1, s1.nextCallOf j = s1.now) ∧
      mid1.Sublist mid ∧ (∀ j ∈ mid1, s1.nextCallOf j = s.nextCallOf j) ∧
      s1.nextCallOf a = s.nextCallOf a ∧
      ((∀ c ∈ calls, c = LooperCall.disable c.slot ∨ c.slot = a) → pre1.Sublist pre) ∧
      ((∀ j st, j ≠ a → s.stateOf j = some st → st = ENABLED ∨ st = DISABLED) →
        ∀ j st, j ≠ a → s1.stateOf j = some st → st = ENABLED ∨ st = DISABLED) := by
  induction calls with
  | nil =>
    intro s pre mid hc _ ha hact hpre
    exact ⟨s, pre, mid, rfl, hc, rfl, rfl, ha, hact, hpre, List.Sublist.refl _,
      fun _ _ => rfl, rfl, fun _ => List.Sublist.refl _, fun h => h⟩
  | cons c calls ih =>
    intro s pre mid hc hslot ha hact hpre
    obtain ⟨s1, pre1, mid1, a1, a2, a3, a4, a5, a6, a7, a8, a9, a10, a11, a12⟩ :=
      call_shape a c s pre mid hc (hslot c (by simp)) ha hact hpre
    obtain ⟨s2, pre2, mid2, b1, b2, b3, b4, b5, b6, b7, b8, b9, b10, b11, b12⟩ :=
      ih s1 pre1 mid1 a2 (fun x hx => by rw [a4]; exact hslot x (by simp [hx])) a5 a6 a7
    refine ⟨s2, pre2, mid2, ?_, b2, b3.trans a3, b4.trans a4, b5, b6, b7, b8.trans a8, ?_,
      b10.trans a10, ?_, fun h => b12 (a12 h)⟩
    · rw [runCalls_cons c calls s s1 a1]
      exact b1
    · intro j hj
      rw [b9 j hj]
      exact a9 j (b8.subset hj)
    · intro hq
      exact (b11 (fun x hx => hq x (by simp [hx]))).trans (a11 (hq c (by simp)))

end acp_private

namespace acp_private

open acp

theorem passIteration_exit {W : Type} (handlers : Handlers W) (p : Pass W)
    (hc : p.sched.Consistent) (hpq : 0 < p.sched.pq.length)
    (h : p.sched.active = [] ∨
      ∃ a rest, p.sched.active = a :: rest ∧ p.sched.now < p.sched.nextCallOf a) :
    passIteration handlers p = some { p with returned := true } := by
  obtain ⟨x, hx⟩ : ∃ x, p.sched.pq[0]? = some x := ⟨_, List.getElem?_eq_getElem hpq⟩
  rcases h with h | ⟨a, rest, h, hd⟩
  · have hlen := p.sched.active_length hc.2.1 hc.2.2.1
    rw [h] at hlen
    have h0 : p.sched.pqSize = 0 := by simpa using hlen.symm
    unfold passIteration
    simp [hx, h0]
  · obtain ⟨hpq0, hsize⟩ := active_head p.sched a rest h
    have hmem : a ∈ p.sched.active := by rw [h]; simp
    have hv := hc.2.2.2.2.1 a hmem
    rw [nextCallOf_eq _ a _ (List.getElem?_eq_getElem hv)] at hd
    unfold passIteration
    simp [hpq0, hsize, List.getElem?_eq_getElem hv, hd]

theorem append_cons_unique (a : Nat) : ∀ (pre pre2 mid mid2 : List Nat),
    pre ++ a :: mid = pre2 ++ a :: mid2 → a ∉ pre → a ∉ pre2 → pre = pre2 ∧ mid = mid2 := by
  intro pre
  induction pre with
  | nil =>
    intro pre2 mid mid2 h _ h2
    obtain ⟨e1, e2⟩ := cons_eq_append_cons a mid pre2 mid2 h h2
    exact ⟨e1.symm, e2.symm⟩
  | cons x xs ih =>
    intro pre2 mid mid2 h h1 h2
    cases pre2 with
    | nil =>
      simp only [List.cons_append, List.nil_append, List.cons.injEq] at h
      exact absurd (by rw [h.1]; simp) h1
    | cons y ys =>
      simp only [List.cons_append, List.cons.injEq] at h
      obtain ⟨e1, e2⟩ := ih ys mid mid2 h.2 (fun hm => h1 (by simp [hm]))
        (fun hm => h2 (by simp [hm]))
      exact ⟨by rw [h.1, e1], e2⟩

/-- One iteration of `processLoopers` that executes the first looper `a` of the
ordering `a :: rest`, for a handler that calls `enableLooper` / `disableLooper`
on valid slots: the resulting ordering is `pre ++ mid` with `a` put back in
`mid` behind the loopers due no later than its new `nextCall` (or left out),
where `pre` holds the loopers the handler enabled, with `nextCall = now`, and
`mid` what is left of `rest`, in the same order. -/
theorem passIteration_shape {W : Type} (handlers : Handlers W) (p : Pass W) (a : Nat)
    (rest : List Nat) (hc : p.sched.Consistent) (hact : p.sched.active = a :: rest)
    (hdue : p.sched.nextCallOf a ≤ p.sched.now)
    (hslot : ∀ c ∈ (handlers a p.world).calls, c.slot < p.sched.loopers.length) :
    ∃ p1 pre mid, passIteration handlers p = some p1 ∧ p1.trace = p.trace ++ [a] ∧
      p1.world = (handlers a p.world).world ∧ p1.returned = false ∧
      p1.sched.Consistent ∧ p1.sched.now = p.sched.now ∧
      p1.sched.loopers.length = p.sched.loopers.length ∧
      a ∉ pre ∧ a ∉ mid ∧ (∀ j ∈ pre, p1.sched.nextCallOf j = p.sched.now) ∧
      mid.Sublist rest ∧ (∀ j ∈ mid, p1.sched.nextCallOf j = p.sched.nextCallOf j) ∧
      ((∀ c ∈ (handlers a p.world).calls, c = LooperCall.disable c.slot ∨ c.slot = a) →
        pre = []) ∧
      p1.sched.nextCallOf a = (p.sched.now + (handlers a p.world).result) % ULONG_RANGE ∧
      ((p1.sched.stateOf a = some ENABLED ∧
          p1.sched.active = pre
            ++ mid.takeWhile (fun j => decide (p.sched.nextCallOf j
                ≤ (p.sched.now + (handlers a p.world).result) % ULONG_RANGE))
            ++ a :: mid.dropWhile (fun j => decide (p.sched.nextCallOf j
                ≤ (p.sched.now + (handlers a p.world).result) % ULONG_RANGE))) ∨
        (p1.sched.stateOf a = some DISABLED ∧ p1.sched.active = pre ++ mid)) ∧
      ((∀ j st, p.sched.stateOf j = some st → st = ENABLED ∨ st = DISABLED) →
        ∀ j st, p1.sched.stateOf j = some st → st = ENABLED ∨ st = DISABLED) := by
  obtain ⟨hpq0, hsize⟩ := active_head p.sched a rest hact
  have hmem : a ∈ p.sched.active := by rw [hact]; simp
  have hav := hc.2.2.2.2.1 a hmem
  have hlp := List.getElem?_eq_getElem hav
  set lp := p.sched.loopers[a] with hlpdef
  have hdue2 : lp.nextCall ≤ p.sched.now := by
    rw [nextCallOf_eq _ a lp hlp] at hdue
    exact hdue
  have hlpst : lp.state ≠ DISABLED :=
    (hc.2.2.2.2.2 a lp.state (p.sched.stateOf_eq a lp hlp)).2.mp hmem
  set s1 : Scheduler := { p.sched with
    loopers := p.sched.loopers.set a { lp with state := EXECUTED_ENABLED } } with hs1
  have hc1 : s1.Consistent := consistent_set_state p.sched hc a lp _ hlp
    (show EXECUTED_ENABLED ≤ 3 by decide)
    ⟨fun _ => (show EXECUTED_ENABLED ≠ DISABLED by decide), fun _ => hlpst⟩
  have hlen1 : s1.loopers.length = p.sched.loopers.length := by simp [hs1]
  have hst1 : s1.stateOf a = some EXECUTED_ENABLED := stateOf_set_self p.sched a _ _ _ _ hav
  have hact1 : s1.active = [] ++ a :: rest := hact
  have hnc1 : ∀ j, j ≠ a → s1.nextCallOf j = p.sched.nextCallOf j :=
    fun j hj => nextCallOf_set_ne p.sched a j _ _ _ _ hj
  have hso1 : ∀ j, j ≠ a → s1.stateOf j = p.sched.stateOf j :=
    fun j hj => stateOf_set_ne p.sched a j _ _ _ _ hj
  obtain ⟨s2, pre, mid, r1, r2, r3, r4, r5, r6, r7, r8, r9, r10, r11, r12⟩ :=
    runCalls_shape a (handlers a p.world).calls s1 [] rest hc1
      (fun c hcm => by rw [hlen1]; exact hslot c hcm) (Or.inl hst1) hact1
      (fun j hj => absurd hj (List.not_mem_nil j))
  have hnow2 : s2.now = p.sched.now := r3
  have hnd2 : (pre ++ a :: mid).Nodup := r6 ▸ r2.2.2.2.1
  have hapre : a ∉ pre := by
    intro hm
    have := (List.nodup_append.mp hnd2).2.2
    exact this hm (by simp) 
  have hamid : a ∉ mid := by
    have := (List.nodup_append.mp hnd2).2.1
    exact (List.nodup_cons.mp this).1
  obtain ⟨lp2, hlp2, hst2⟩ : ∃ lp2, s2.loopers[a]? = some lp2 ∧
      (lp2.state = EXECUTED_ENABLED ∨ lp2.state = EXECUTED_DISABLED) := by
    rcases r5 with hex | hex
    · obtain ⟨lp2, g1, g2⟩ := stateOf_some s2 a _ hex
      exact ⟨lp2, g1, Or.inl g2⟩
    · obtain ⟨lp2, g1, g2⟩ := stateOf_some s2 a _ hex
      exact ⟨lp2, g1, Or.inr g2⟩
  have ha2 : a < s2.loopers.length := lt_of_getElem?_eq_some _ _ _ hlp2
  obtain ⟨p1, q1, q2, q3, q4, q5, q6, q7, q8⟩ := passIteration_due handlers p a lp s2 lp2
    hpq0 hsize hlp hdue2 r1 r2 hlp2 hst2
  rw [hnow2] at q7 q8
  set nc := (p.sched.now + (handlers a p.world).result) % ULONG_RANGE with hnc
  have hloop : ∃ st3, (st3 = ENABLED ∨ st3 = DISABLED) ∧
      p1.sched.loopers = s2.loopers.set a ⟨nc, st3⟩ := by
    rcases hst2 with g | g
    · exact ⟨ENABLED, Or.inl rfl, (q7 g).1⟩
    · exact ⟨DISABLED, Or.inr rfl, (q8 g).1⟩
  obtain ⟨st3, hst3, hlp3⟩ := hloop
  have hnc3 : ∀ j, j ≠ a → p1.sched.nextCallOf j = s2.nextCallOf j := by
    intro j hj
    unfold Scheduler.nextCallOf
    rw [hlp3, List.getElem?_set_ne (Ne.symm hj)]
  have hso3 : ∀ j, j ≠ a → p1.sched.stateOf j = s2.stateOf j := by
    intro j hj
    unfold Scheduler.stateOf
    rw [hlp3, List.getElem?_set_ne (Ne.symm hj)]
  have hmidne : ∀ j ∈ mid, j ≠ a := fun j hj e => hamid (e ▸ hj)
  have hprene : ∀ j ∈ pre, j ≠ a := fun j hj e => hapre (e ▸ hj)
  have hrestne : ∀ j ∈ rest, j ≠ a := by
    intro j hj e
    have hnd : (a :: rest).Nodup := hact ▸ hc.2.2.2.1
    exact (List.nodup_cons.mp hnd).1 (e ▸ hj)
  refine ⟨p1, pre, mid, q1, q2, q3, q4, q5, by rw [q6, hnow2], ?_, hapre, hamid, ?_, r8, ?_,
    ?_, ?_, ?_, ?_⟩
  · rw [hlp3, List.length_set, r4, hlen1]
  · intro j hj
    rw [hnc3 j (hprene j hj), r7 j hj, hnow2]
  · intro j hj
    rw [hnc3 j (hmidne j hj), r9 j hj, hnc1 j (hmidne j hj)]
  · intro hq
    exact List.eq_nil_of_sublist_nil (r11 hq)
  · unfold Scheduler.nextCallOf
    rw [hlp3, List.getElem?_set_self ha2]
  · rcases hst2 with g | g
    · left
      obtain ⟨t1, t2, pre2, mid2, t3, t4, t5, t6⟩ := q7 g
      rw [r6] at t3
      obtain ⟨e1, e2⟩ := append_cons_unique a pre pre2 mid mid2 t3 hapre t4
      subst e1 e2
      refine ⟨?_, ?_⟩
      · unfold Scheduler.stateOf
        rw [t1, List.getElem?_set_self ha2]
        rfl
      · rw [t6]
        obtain ⟨g1, g2⟩ := takeWhile_congr_mem (dueBefore s2.loopers nc)
          (fun j => decide (p.sched.nextCallOf j ≤ nc)) mid (by
            intro x hx
            have hx2 : x < s2.loopers.length := by
              apply r2.2.2.2.2.1 x
              rw [r6]
              simp [hx]
            rw [dueBefore_eq s2 nc x hx2, r9 x hx, hnc1 x (hmidne x hx)])
        rw [g1, g2]
    · right
      obtain ⟨t1, t2, t3⟩ := q8 g
      refine ⟨?_, ?_⟩
      · unfold Scheduler.stateOf
        rw [t1, List.getElem?_set_self ha2]
        rfl
      · rw [t3, r6, List.erase_append_right _ hapre, List.erase_cons_head]
  · intro hs j st hst
    by_cases hja : j = a
    · subst hja
      unfold Scheduler.stateOf at hst
      rw [hlp3, List.getElem?_set_self ha2] at hst
      simp only [Option.map_some', Option.some.injEq] at hst
      rw [← hst]
      exact hst3
    · rw [hso3 j hja] at hst
      exact r12 (fun k st0 hk h0 => hs k st0 (by rw [← hso1 k hk]; exact h0)) j st hja hst

end acp_private

namespace acp_private

open acp

theorem wellFormed_iff (s : Scheduler) :
    s.WellFormed ↔
      s.Consistent ∧ ∀ i st, s.stateOf i = some st → st = ENABLED ∨ st = DISABLED := by
  constructor
  · rintro ⟨w1, w2, w3, w4, w5, w6⟩
    refine ⟨⟨w1, w2, w3, w5, ?_, ?_⟩, w4⟩
    · intro i hi
      obtain ⟨lp, hlp, -⟩ := stateOf_some s i _ ((w6 i).mp hi)
      exact lt_of_getElem?_eq_some _ _ _ hlp
    · intro i st hst
      rw [w6 i, hst, Option.some.injEq]
      rcases w4 i st hst with h | h <;> rw [h] <;> decide
  · rintro ⟨⟨c1, c2, c3, c4, c5, c6⟩, hs⟩
    refine ⟨c1, c2, c3, hs, c4, ?_⟩
    intro i
    constructor
    · intro hi
      obtain ⟨st, hst⟩ := stateOf_isSome s i (c5 i hi)
      have h1 := (c6 i st hst).2.mp hi
      rcases hs i st hst with h | h
      · rw [hst, h]
      · exact absurd h h1
    · intro hst
      exact (c6 i ENABLED hst).2.mpr (by decide)

theorem wellFormed_of_decide (s : Scheduler)
    (h : s.pq.length = s.loopers.length ∧ 0 ≤ s.pqSize ∧ s.pqSize ≤ s.pq.length ∧
      s.active.Nodup ∧ (∀ i ∈ s.active, i < s.loopers.length) ∧
      (∀ i ∈ List.range s.loopers.length,
        ((s.loopers.getD i ⟨0, 0⟩).state = ENABLED ∨ (s.loopers.getD i ⟨0, 0⟩).state = DISABLED) ∧
        (i ∈ s.active ↔ (s.loopers.getD i ⟨0, 0⟩).state ≠ DISABLED))) : s.WellFormed := by
  obtain ⟨c1, c2, c3, c4, c5, c6⟩ := h
  rw [wellFormed_iff]
  refine ⟨consistent_of_decide s ⟨c1, c2, c3, c4, c5, ?_⟩, ?_⟩
  · intro i hi
    refine ⟨?_, (c6 i hi).2⟩
    rcases (c6 i hi).1 with h | h <;> rw [h] <;> decide
  · intro i st hst
    obtain ⟨lp, hlp, hs⟩ := stateOf_some s i st hst
    have hi := lt_of_getElem?_eq_some _ _ _ hlp
    have := (c6 i (List.mem_range.mpr hi)).1
    rw [List.getD_eq_getElem?_getD, hlp, Option.getD_some, hs] at this
    exact this

theorem wellFormed_count (s : Scheduler) (hw : s.WellFormed) :
    s.active.Perm s.enabledSlots ∧ s.pqSize = (s.enabledSlots.length : Int) := by
  obtain ⟨w1, w2, w3, w4, w5, w6⟩ := hw
  have hperm : s.active.Perm s.enabledSlots := by
    have hnd : s.enabledSlots.Nodup := List.Nodup.filter _ (List.nodup_range _)
    rw [List.perm_ext_iff_of_nodup w5 hnd]
    intro i
    rw [w6 i]
    unfold Scheduler.enabledSlots
    simp only [List.mem_filter, List.mem_range, decide_eq_true_eq]
    constructor
    · intro h
      obtain ⟨lp, hlp, -⟩ := stateOf_some s i _ h
      exact ⟨lt_of_getElem?_eq_some _ _ _ hlp, h⟩
    · exact fun h => h.2
  refine ⟨hperm, ?_⟩
  rw [← hperm.length_eq]
  exact (s.active_length w2 w3).symm

theorem passLoop_wellFormed {W : Type} (handlers : Handlers W) (n : Nat)
    (hslot : ∀ i w, ∀ c ∈ (handlers i w).calls, c.slot < n) (fuel : Nat) :
    ∀ p : Pass W, p.sched.WellFormed → p.sched.loopers.length = n → 0 < n →
    ∃ p1, passLoop handlers fuel p = some p1 ∧ p1.sched.WellFormed ∧
      p1.sched.loopers.length = n := by
  induction fuel with
  | zero =>
    intro p hw hn _
    exact ⟨p, rfl, hw, hn⟩
  | succ f ih =>
    intro p hw hn hpos
    by_cases hret : p.returned = true
    · exact ⟨p, by simp only [passLoop, hret, if_true], hw, hn⟩
    · obtain ⟨hc, hs⟩ := (wellFormed_iff p.sched).mp hw
      have hpq : 0 < p.sched.pq.length := by rw [hc.1, hn]; exact hpos
      have hstop : ∀ h : passIteration handlers p = some { p with returned := true },
          ∃ p1, passLoop handlers (f + 1) p = some p1 ∧ p1.sched.WellFormed ∧
            p1.sched.loopers.length = n := by
        intro h
        obtain ⟨p1, a1, a2, a3⟩ := ih { p with returned := true } hw hn hpos
        refine ⟨p1, ?_, a2, a3⟩
        simp only [passLoop, hret, h]
        exact a1
      cases hact : p.sched.active with
      | nil => exact hstop (passIteration_exit handlers p hc hpq (Or.inl hact))
      | cons a rest =>
        by_cases hdue : p.sched.nextCallOf a ≤ p.sched.now
        · obtain ⟨p1, pre, mid, q1, -, -, -, q5, -, q7, -, -, -, -, -, -, -, -, q16⟩ :=
            passIteration_shape handlers p a rest hc hact hdue
              (fun c hcm => by rw [hn]; exact hslot a p.world c hcm)
          have hw1 : p1.sched.WellFormed := (wellFormed_iff p1.sched).mpr ⟨q5, q16 hs⟩
          obtain ⟨p2, a1, a2, a3⟩ := ih p1 hw1 (q7.trans hn) hpos
          refine ⟨p2, ?_, a2, a3⟩
          simp only [passLoop, hret, q1]
          exact a1
        · exact hstop (passIteration_exit handlers p hc hpq
            (Or.inr ⟨a, rest, hact, by omega⟩))

theorem enableLooper_wellFormed (s : Scheduler) (hw : s.WellFormed) (i : Nat)
    (hi : i < s.loopers.length) : ∃ s1, enableLooper s i = some s1 ∧ s1.WellFormed := by
  obtain ⟨hc, hs⟩ := (wellFormed_iff s).mp hw
  obtain ⟨st0, h0⟩ := stateOf_isSome s i hi
  obtain ⟨s1, e1, -⟩ := enableLooper_effect s hc i hi
  obtain ⟨f1, -, f3, f4⟩ := enableLooper_consistent s s1 i hc e1
  refine ⟨s1, e1, (wellFormed_iff s1).mpr ⟨f1, ?_⟩⟩
  intro j st hst
  by_cases hji : j = i
  · subst hji
    rw [f4 st0 h0, Option.some.injEq] at hst
    rw [← hst]
    exact enabledState_settled st0 (hs j st0 h0)
  · rw [(f3 j hji).1] at hst
    exact hs j st hst

theorem disableLooper_wellFormed (s : Scheduler) (hw : s.WellFormed) (i : Nat)
    (hi : i < s.loopers.length) : ∃ s1, disableLooper s i = some s1 ∧ s1.WellFormed := by
  obtain ⟨hc, hs⟩ := (wellFormed_iff s).mp hw
  obtain ⟨st0, h0⟩ := stateOf_isSome s i hi
  obtain ⟨s1, e1, -⟩ := disableLooper_effect s hc i hi
  obtain ⟨f1, -, f3, f4⟩ := disableLooper_consistent s s1 i hc e1
  refine ⟨s1, e1, (wellFormed_iff s1).mpr ⟨f1, ?_⟩⟩
  intro j st hst
  by_cases hji : j = i
  · subst hji
    rw [f4 st0 h0, Option.some.injEq] at hst
    rw [← hst]
    exact disabledState_settled st0 (hs j st0 h0)
  · rw [(f3 j hji).1] at hst
    exact hs j st hst

/-- Claim C18 (scheduler well-formedness invariant).  In a well-formed state `pq[0..pqSize)`
is a rearrangement of the list of `ENABLED` slots, so `pqSize` is the number of `ENABLED`
loopers.  From a well-formed state, `enableLooper(i)` and `disableLooper(i)` on a valid slot
`i` return and end in a well-formed state, and `processLoopers`, with handlers that call
`enableLooper` / `disableLooper` on any valid slots, ends every iteration of its loop (in
particular the one it returns from) in a well-formed state, without access outside the
tables; no looper is left in `EXECUTED_ENABLED` or `EXECUTED_DISABLED`. -/
theorem scheduler_well_formed {W : Type} (handlers : Handlers W) (s : Scheduler)
    (hw : s.WellFormed) :
    (s.active.Perm s.enabledSlots ∧ s.pqSize = (s.enabledSlots.length : Int)) ∧
    (∀ i, i < s.loopers.length →
      (∃ s1, enableLooper s i = some s1 ∧ s1.WellFormed) ∧
      (∃ s1, disableLooper s i = some s1 ∧ s1.WellFormed)) ∧
    ((∀ i w, ∀ c ∈ (handlers i w).calls, c.slot < s.loopers.length) →
      ∀ (millis fuel : Nat) (w : W),
        ∃ p, processLoopers handlers millis fuel s w = some p ∧ p.sched.WellFormed ∧
          ∀ i, p.sched.stateOf i ≠ some EXECUTED_ENABLED ∧
            p.sched.stateOf i ≠ some EXECUTED_DISABLED) := by
  obtain ⟨hc, hs⟩ := (wellFormed_iff s).mp hw
  refine ⟨wellFormed_count s hw, ?_, ?_⟩
  · intro i hi
    exact ⟨enableLooper_wellFormed s hw i hi, disableLooper_wellFormed s hw i hi⟩
  · intro hslot millis fuel w
    have hfin : ∀ p : Pass W, p.sched.WellFormed →
        ∀ i, p.sched.stateOf i ≠ some EXECUTED_ENABLED ∧
          p.sched.stateOf i ≠ some EXECUTED_DISABLED := by
      intro p hp i
      constructor
      · intro h
        rcases hp.2.2.2.1 i _ h with g | g <;> exact absurd g (by decide)
      · intro h
        rcases hp.2.2.2.1 i _ h with g | g <;> exact absurd g (by decide)
    by_cases h0 : s.pqSize = 0
    · refine ⟨{ sched := s, world := w, trace := [], returned := true }, ?_, hw, hfin _ hw⟩
      simp only [processLoopers, h0, if_true]
    · have hpos : 0 < s.loopers.length := by
        have h1 := hc.1
        have h2 := hc.2.1
        have h3 := hc.2.2.1
        omega
      obtain ⟨p1, a1, a2, -⟩ := passLoop_wellFormed handlers s.loopers.length hslot fuel
        { sched := { s with now := millis % ULONG_RANGE }, world := w, trace := [],
          returned := false } hw rfl hpos
      refine ⟨p1, ?_, a2, hfin p1 a2⟩
      simp only [processLoopers, h0, if_false]
      exact a1

theorem crossCalling_slots :
    ∀ (i : Nat) (w : Unit), ∀ c ∈ (crossCalling i w).calls, c.slot < twoOfThree.loopers.length := by
  intro i w c hc
  unfold crossCalling at hc
  split_ifs at hc
  · simp only [List.mem_cons, List.mem_singleton, List.not_mem_nil, or_false] at hc
    rcases hc with h | h | h <;> rw [h] <;> decide
  · simp only [List.mem_cons, List.mem_singleton, List.not_mem_nil, or_false] at hc
    rcases hc with h | h | h <;> rw [h] <;> decide
  · simp only [List.mem_cons, List.mem_singleton, List.not_mem_nil, or_false] at hc
    rcases hc with h | h <;> rw [h] <;> decide

/-- Claim C18 at three loopers (two enabled, one disabled) whose handlers enable and disable
one another: `pqSize` is 2, the number of enabled loopers, and a pass at time 8 ends well
formed. -/
theorem scheduler_well_formed_witness :
    (twoOfThree.active.Perm twoOfThree.enabledSlots ∧
      twoOfThree.pqSize = (twoOfThree.enabledSlots.length : Int)) ∧
    (∃ p, processLoopers crossCalling 8 5 twoOfThree () = some p ∧ p.sched.WellFormed ∧
      ∀ i, p.sched.stateOf i ≠ some EXECUTED_ENABLED ∧
        p.sched.stateOf i ≠ some EXECUTED_DISABLED) :=
  ⟨(scheduler_well_formed crossCalling twoOfThree (wellFormed_of_decide _ (by decide))).1,
    (scheduler_well_formed crossCalling twoOfThree (wellFormed_of_decide _ (by decide))).2.2
      crossCalling_slots 8 5 ()⟩

end acp_private

namespace acp_private

open acp

/-- Putting `a` back into an ascending list behind the entries that are due no
later than `a` gives an ascending list. -/
theorem reinsert_ascending (f : Nat → Nat) (a : Nat) : ∀ mid : List Nat,
    mid.Pairwise (fun i j => f i ≤ f j) →
    (mid.takeWhile (fun j => decide (f j ≤ f a)) ++
      a :: mid.dropWhile (fun j => decide (f j ≤ f a))).Pairwise (fun i j => f i ≤ f j) := by
  intro mid
  induction mid with
  | nil => intro _; simp
  | cons x xs ih =>
    intro h
    obtain ⟨h1, h2⟩ := List.pairwise_cons.mp h
    by_cases hx : f x ≤ f a
    · simp only [List.takeWhile_cons, List.dropWhile_cons, hx, decide_True, if_true,
        List.cons_append]
      refine List.pairwise_cons.mpr ⟨?_, ih h2⟩
      intro j hj
      rcases List.mem_append.mp hj with g | g
      · exact h1 j ((List.takeWhile_sublist _).subset g)
      · rcases List.mem_cons.mp g with g | g
        · rw [g]; exact hx
        · exact h1 j ((List.dropWhile_sublist _).subset g)
    · simp only [List.takeWhile_cons, List.dropWhile_cons, hx, decide_False, List.nil_append]
      refine List.pairwise_cons.mpr ⟨?_, h⟩
      intro j hj
      rcases List.mem_cons.mp hj with g | g
      · rw [g]; omega
      · have := h1 j g
        omega

/-- Claim C12, evaluated on the code: the ordering invariant fails.  The tables with
looper 0 due at 3, looper 1 due at 5 and looper 2 disabled are well formed and in ascending
order.  In a pass at time 8 the handler of looper 0 calls `enableLooper(2)` while looper 1
is still waiting: the call puts looper 2, with `nextCall = 8`, in front of looper 1, and after
the execute-and-reinsert step of looper 0 the ordering is 2, 1, 0 with due times 8, 5, 18,
which is not ascending. -/
theorem ordering_counterexample :
    twoOfThree.WellFormed ∧ twoOfThree.Ascending ∧
    ∃ p1, processLoopers lateStarter 8 1 twoOfThree () = some p1 ∧
      p1.trace = [0] ∧ p1.sched.active = [2, 1, 0] ∧
      p1.sched.nextCallOf 2 = 8 ∧ p1.sched.nextCallOf 1 = 5 ∧ p1.sched.nextCallOf 0 = 18 ∧
      ¬ p1.sched.Ascending :=
  ⟨wellFormed_of_decide _ (by decide), by decide, _, rfl, rfl, by decide, by decide, by decide,
    by decide, by decide⟩

/-- Claim C12, amended.  From a well-formed state whose `pq[0..pqSize)` is in ascending
order of `nextCall`, the ascending order (and well-formedness) is kept by every
`disableLooper` call, by every `enableLooper` call made while no looper of `pq[0..pqSize)`
has `nextCall < now`, and by every execute-and-reinsert step of `processLoopers` whose
handler calls valid slots and either makes only `disableLooper` calls and calls on its own
looper, or runs while no other looper of `pq[0..pqSize)` has `nextCall < now` and returns a
delay for which `now + delay` does not wrap around. -/
theorem ordering_preserved {W : Type} (handlers : Handlers W) (s : Scheduler)
    (hw : s.WellFormed) (hasc : s.Ascending) :
    (∀ i, i < s.loopers.length →
      ∃ s1, disableLooper s i = some s1 ∧ s1.WellFormed ∧ s1.Ascending) ∧
    (∀ i, i < s.loopers.length → (∀ j ∈ s.active, s.now ≤ s.nextCallOf j) →
      ∃ s1, enableLooper s i = some s1 ∧ s1.WellFormed ∧ s1.Ascending ∧
        ∀ j ∈ s1.active, s1.now ≤ s1.nextCallOf j) ∧
    (∀ (w : W) (a : Nat) (rest : List Nat), s.active = a :: rest → s.nextCallOf a ≤ s.now →
      (∀ c ∈ (handlers a w).calls, c.slot < s.loopers.length) →
      ((∀ c ∈ (handlers a w).calls, c = LooperCall.disable c.slot ∨ c.slot = a) ∨
        ((∀ j ∈ rest, s.now ≤ s.nextCallOf j) ∧
          s.now + (handlers a w).result < ULONG_RANGE)) →
      ∃ p1, passIteration handlers ⟨s, w, [], false⟩ = some p1 ∧ p1.trace = [a] ∧
        p1.sched.WellFormed ∧ p1.sched.Ascending) := by
  obtain ⟨hc, hs⟩ := (wellFormed_iff s).mp hw
  refine ⟨?_, ?_, ?_⟩
  · intro i hi
    obtain ⟨s1, e1, e2⟩ := disableLooper_wellFormed s hw i hi
    obtain ⟨s2, g1, -, g3, g4⟩ := disableLooper_effect s hc i hi
    rw [e1, Option.some.injEq] at g1
    subst g1
    refine ⟨s1, e1, e2, ?_⟩
    have hsub : s1.active.Sublist s.active := by
      rcases g4 with ⟨-, g⟩ | ⟨-, g⟩ <;> rw [g]
      exact List.erase_sublist i s.active
    unfold Scheduler.Ascending at hasc ⊢
    simp only [g3]
    exact hasc.sublist hsub
  · intro i hi hnow
    obtain ⟨s1, e1, e2⟩ := enableLooper_wellFormed s hw i hi
    obtain ⟨s2, g1, -, g3, g4⟩ := enableLooper_effect s hc i hi
    rw [e1, Option.some.injEq] at g1
    subst g1
    have hn1 : s1.now = s.now := (enableLooper_consistent s s1 i hc e1).2.1
    refine ⟨s1, e1, e2, ?_⟩
    rcases g4 with ⟨k1, k2, k3⟩ | ⟨k1, k2, k3⟩
    · have hni : i ∉ s.active := by
        intro hm
        exact (hc.2.2.2.2.2 i DISABLED k1).2.mp hm rfl
      have hsame : ∀ j ∈ s.active, s1.nextCallOf j = s.nextCallOf j :=
        fun j hj => g3 j (fun e => hni (e ▸ hj))
      constructor
      · unfold Scheduler.Ascending at hasc ⊢
        rw [k2]
        refine List.pairwise_cons.mpr ⟨?_, ?_⟩
        · intro j hj
          rw [k3, hsame j hj]
          exact hnow j hj
        · refine List.Pairwise.imp_of_mem ?_ hasc
          intro x y hx hy hxy
          rw [hsame x hx, hsame y hy]
          exact hxy
      · intro j hj
        rw [k2] at hj
        rw [hn1]
        rcases List.mem_cons.mp hj with g | g
        · rw [g, k3]
        · rw [hsame j g]
          exact hnow j g
    · have hsame : ∀ j, s1.nextCallOf j = s.nextCallOf j := by
        intro j
        by_cases hji : j = i
        · rw [hji]; exact k3
        · exact g3 j hji
      constructor
      · unfold Scheduler.Ascending at hasc ⊢
        rw [k2]
        simp only [hsame]
        exact hasc
      · intro j hj
        rw [k2] at hj
        rw [hn1, hsame j]
        exact hnow j hj
  · intro w a rest hact hdue hslot hcond
    obtain ⟨p1, pre, mid, q1, q2, -, -, q5, -, -, q8, q9, q10, q11, q12, q13, q14, q15, q16⟩ :=
      passIteration_shape handlers ⟨s, w, [], false⟩ a rest hc hact hdue hslot
    simp only at q10 q12 q13 q14 q15
    set nc := (s.now + (handlers a w).result) % ULONG_RANGE with hnc
    refine ⟨p1, q1, by simpa using q2, (wellFormed_iff p1.sched).mpr ⟨q5, q16 hs⟩, ?_⟩
    have hrest : rest.Pairwise (fun i j => s.nextCallOf i ≤ s.nextCallOf j) := by
      unfold Scheduler.Ascending at hasc
      rw [hact] at hasc
      exact (List.pairwise_cons.mp hasc).2
    have hmid : mid.Pairwise (fun i j => p1.sched.nextCallOf i ≤ p1.sched.nextCallOf j) := by
      refine List.Pairwise.imp_of_mem ?_ (hrest.sublist q11)
      intro x y hx hy hxy
      rw [q12 x hx, q12 y hy]
      exact hxy
    have hprepre : pre.Pairwise
        (fun i j => p1.sched.nextCallOf i ≤ p1.sched.nextCallOf j) := by
      rw [List.pairwise_iff_forall_sublist]
      intro x y hxy
      have hx : x ∈ pre := hxy.subset (by simp)
      have hy : y ∈ pre := hxy.subset (by simp)
      rw [q10 x hx, q10 y hy]
    -- the loopers enabled by the handler are due no later than the others
    have hfront : ∀ i ∈ pre, ∀ j, (j ∈ mid ∨ (j = a ∧ p1.sched.stateOf a = some ENABLED)) →
        p1.sched.nextCallOf i ≤ p1.sched.nextCallOf j := by
      intro i hi j hj
      rcases hcond with hq | ⟨hq1, hq2⟩
      · rw [q13 hq] at hi
        exact absurd hi (List.not_mem_nil i)
      · rw [q10 i hi]
        rcases hj with hj | ⟨hj, -⟩
        · rw [q12 j hj]
          exact hq1 j (q11.subset hj)
        · rw [hj, q14, hnc, Nat.mod_eq_of_lt hq2]
          omega
    unfold Scheduler.Ascending
    rcases q15 with ⟨t1, t2⟩ | ⟨t1, t2⟩
    · rw [t2, List.append_assoc]
      have hcongr := takeWhile_congr_mem (fun j => decide (s.nextCallOf j ≤ nc))
        (fun j => decide (p1.sched.nextCallOf j ≤ p1.sched.nextCallOf a)) mid (by
          intro x hx
          show decide (s.nextCallOf x ≤ nc)
            = decide (p1.sched.nextCallOf x ≤ p1.sched.nextCallOf a)
          rw [q12 x hx, q14])
      rw [hcongr.1, hcongr.2]
      refine List.pairwise_append.mpr ⟨hprepre, reinsert_ascending _ a mid hmid, ?_⟩
      intro i hi j hj
      apply hfront i hi j
      rcases List.mem_append.mp hj with g | g
      · exact Or.inl ((List.takeWhile_sublist _).subset g)
      · rcases List.mem_cons.mp g with g | g
        · exact Or.inr ⟨g, t1⟩
        · exact Or.inl ((List.dropWhile_sublist _).subset g)
    · rw [t2]
      refine List.pairwise_append.mpr ⟨hprepre, hmid, ?_⟩
      intro i hi j hj
      exact hfront i hi j (Or.inl hj)

theorem lateStarter_slots :
    ∀ c ∈ (lateStarter 0 ()).calls, c.slot < twoOfThreeAtFour.loopers.length := by
  intro c hc
  simp only [lateStarter, if_true, List.mem_singleton] at hc
  rw [hc]
  decide

/-- Claim C12 as amended, at the tables with looper 0 due at 3, looper 1 due at 5 and
looper 2 disabled, at time 4: looper 1 is not yet due when the handler of looper 0 calls
`enableLooper(2)`, and the step ends in ascending order. -/
theorem ordering_preserved_witness :
    ∃ p1, passIteration lateStarter ⟨twoOfThreeAtFour, (), [], false⟩ = some p1 ∧
      p1.trace = [0] ∧ p1.sched.WellFormed ∧ p1.sched.Ascending :=
  (ordering_preserved lateStarter twoOfThreeAtFour (wellFormed_of_decide _ (by decide))
    (by decide)).2.2 () 0 [1] (by decide) (by decide) lateStarter_slots
    (Or.inr ⟨by decide, by decide⟩)

end acp_private

namespace acp_private

open acp

theorem takeWhile_append_all (p : Nat → Bool) : ∀ (D F : List Nat), (∀ x ∈ D, p x = true) →
    (D ++ F).takeWhile p = D ++ F.takeWhile p ∧ (D ++ F).dropWhile p = F.dropWhile p := by
  intro D
  induction D with
  | nil => intro F _; exact ⟨rfl, rfl⟩
  | cons x xs ih =>
    intro F h
    have hx : p x = true := h x (by simp)
    obtain ⟨i1, i2⟩ := ih F (fun y hy => h y (by simp [hy]))
    simp only [List.cons_append, List.takeWhile_cons, List.dropWhile_cons, hx, if_true, i1, i2,
      and_self]

theorem takeWhile_none (p : Nat → Bool) (F : List Nat) (h : ∀ x ∈ F, p x = false) :
    F.takeWhile p = [] ∧ F.dropWhile p = F := by
  cases F with
  | nil => exact ⟨rfl, rfl⟩
  | cons x xs =>
    have hx : p x = false := h x (by simp)
    simp [List.takeWhile_cons, List.dropWhile_cons, hx]

theorem ascending_dueFirst (s : Scheduler) (h : s.Ascending) : s.DueFirst := by
  unfold Scheduler.Ascending at h
  refine ⟨s.active.takeWhile (fun j => decide (s.nextCallOf j ≤ s.now)),
    s.active.dropWhile (fun j => decide (s.nextCallOf j ≤ s.now)),
    (List.takeWhile_append_dropWhile _ _).symm, ?_, ?_, h.sublist (List.dropWhile_sublist _)⟩
  · intro j hj
    simpa using List.mem_takeWhile_imp hj
  · intro j hj
    generalize s.active = l at h hj
    induction l with
    | nil => simp at hj
    | cons x xs ih =>
      obtain ⟨h1, h2⟩ := List.pairwise_cons.mp h
      by_cases hx : s.nextCallOf x ≤ s.now
      · simp only [List.dropWhile_cons, hx, decide_True, if_true] at hj
        exact ih h2 hj
      · simp only [List.dropWhile_cons, hx, decide_False] at hj
        rcases List.mem_cons.mp hj with g | g
        · rw [g]; omega
        · have := h1 j g
          omega

theorem passIteration_dueFirst {W : Type} (handlers : Handlers W) (p : Pass W) (a : Nat)
    (rest : List Nat) (hw : p.sched.WellFormed) (hdf : p.sched.DueFirst)
    (hact : p.sched.active = a :: rest) (hdue : p.sched.nextCallOf a ≤ p.sched.now)
    (hslot : ∀ c ∈ (handlers a p.world).calls, c.slot < p.sched.loopers.length)
    (hwrap : p.sched.now + (handlers a p.world).result < ULONG_RANGE) :
    ∃ p1, passIteration handlers p = some p1 ∧ p1.returned = false ∧ p1.sched.WellFormed ∧
      p1.sched.DueFirst ∧ p1.sched.now = p.sched.now ∧
      p1.sched.loopers.length = p.sched.loopers.length := by
  obtain ⟨hc, hs⟩ := (wellFormed_iff p.sched).mp hw
  obtain ⟨D, F, d1, d2, d3, d4⟩ := hdf
  -- the executing looper is the first of the due ones
  obtain ⟨D1, hD, hrest⟩ : ∃ D1, D = a :: D1 ∧ rest = D1 ++ F := by
    cases D with
    | nil =>
      rw [hact, List.nil_append] at d1
      have := d3 a (by rw [← d1]; simp)
      omega
    | cons x xs =>
      rw [hact, List.cons_append, List.cons.injEq] at d1
      exact ⟨xs, by rw [d1.1], d1.2⟩
  obtain ⟨p1, pre, mid, q1, -, -, q4, q5, q6, q7, -, -, q10, q11, q12, -, q14, q15, q16⟩ :=
    passIteration_shape handlers p a rest hc hact hdue hslot
  rw [Nat.mod_eq_of_lt hwrap] at q14 q15
  set nc := p.sched.now + (handlers a p.world).result with hnc
  rw [hrest] at q11
  obtain ⟨Dm, Fm, m1, m2, m3⟩ := List.sublist_append_iff.mp q11
  have hDm : ∀ j ∈ Dm, p1.sched.nextCallOf j ≤ p.sched.now := by
    intro j hj
    rw [q12 j (by rw [m1]; simp [hj])]
    exact d2 j (by rw [hD]; simp [m2.subset hj])
  have hFm : ∀ j ∈ Fm, p.sched.now < p1.sched.nextCallOf j := by
    intro j hj
    rw [q12 j (by rw [m1]; simp [hj])]
    exact d3 j (m3.subset hj)
  have hFmasc : Fm.Pairwise (fun i j => p1.sched.nextCallOf i ≤ p1.sched.nextCallOf j) := by
    refine List.Pairwise.imp_of_mem ?_ (d4.sublist m3)
    intro x y hx hy hxy
    rw [q12 x (by rw [m1]; simp [hx]), q12 y (by rw [m1]; simp [hy])]
    exact hxy
  have hpre : ∀ j ∈ pre, p1.sched.nextCallOf j ≤ p.sched.now := by
    intro j hj
    rw [q10 j hj]
  refine ⟨p1, q1, q4, (wellFormed_iff p1.sched).mpr ⟨q5, q16 hs⟩, ?_, q6, q7⟩
  unfold Scheduler.DueFirst
  rw [q6]
  rcases q15 with ⟨-, t2⟩ | ⟨-, t2⟩
  · -- the looper is put back
    have hDmP : ∀ x ∈ Dm, (fun j => decide (p.sched.nextCallOf j ≤ nc)) x = true := by
      intro x hx
      have := hDm x hx
      rw [q12 x (by rw [m1]; simp [hx])] at this
      simp only [decide_eq_true_eq]
      omega
    obtain ⟨k1, k2⟩ := takeWhile_append_all (fun j => decide (p.sched.nextCallOf j ≤ nc))
      Dm Fm hDmP
    rw [m1, k1, k2] at t2
    by_cases hpos : p.sched.now < nc
    · refine ⟨pre ++ Dm, Fm.takeWhile (fun j => decide (p.sched.nextCallOf j ≤ nc)) ++
        a :: Fm.dropWhile (fun j => decide (p.sched.nextCallOf j ≤ nc)), ?_, ?_, ?_, ?_⟩
      · rw [t2]
        simp only [List.append_assoc]
      · intro j hj
        rcases List.mem_append.mp hj with g | g
        · exact hpre j g
        · exact hDm j g
      · intro j hj
        rcases List.mem_append.mp hj with g | g
        · exact hFm j ((List.takeWhile_sublist _).subset g)
        · rcases List.mem_cons.mp g with g | g
          · rw [g, q14]; exact hpos
          · exact hFm j ((List.dropWhile_sublist _).subset g)
      · have hcongr := takeWhile_congr_mem (fun j => decide (p.sched.nextCallOf j ≤ nc))
          (fun j => decide (p1.sched.nextCallOf j ≤ p1.sched.nextCallOf a)) Fm (by
            intro x hx
            show decide (p.sched.nextCallOf x ≤ nc)
              = decide (p1.sched.nextCallOf x ≤ p1.sched.nextCallOf a)
            rw [q12 x (by rw [m1]; simp [hx]), q14])
        rw [hcongr.1, hcongr.2]
        exact reinsert_ascending _ a Fm hFmasc
    · have hnone : ∀ x ∈ Fm, (fun j => decide (p.sched.nextCallOf j ≤ nc)) x = false := by
        intro x hx
        have := hFm x hx
        rw [q12 x (by rw [m1]; simp [hx])] at this
        simp only [decide_eq_false_iff_not]
        omega
      obtain ⟨n1, n2⟩ := takeWhile_none _ Fm hnone
      rw [n1, n2] at t2
      refine ⟨pre ++ Dm ++ [a], Fm, ?_, ?_, hFm, hFmasc⟩
      · rw [t2]
        simp only [List.append_assoc, List.append_nil, List.singleton_append]
      · intro j hj
        rcases List.mem_append.mp hj with g | g
        · rcases List.mem_append.mp g with g | g
          · exact hpre j g
          · exact hDm j g
        · rw [List.mem_singleton] at g
          rw [g, q14]
          omega
  · -- the looper is taken out
    refine ⟨pre ++ Dm, Fm, ?_, ?_, hFm, hFmasc⟩
    · rw [t2, m1, List.append_assoc]
    · intro j hj
      rcases List.mem_append.mp hj with g | g
      · exact hpre j g
      · exact hDm j g

end acp_private

namespace acp_private

open acp

theorem dueFirst_exit (s : Scheduler) (hdf : s.DueFirst)
    (h : s.active = [] ∨ ∃ a rest, s.active = a :: rest ∧ s.now < s.nextCallOf a) :
    (∀ j ∈ s.active, s.now < s.nextCallOf j) ∧ s.Ascending := by
  obtain ⟨D, F, d1, d2, d3, d4⟩ := hdf
  have hD : D = [] := by
    rcases h with h | ⟨a, rest, h, ha⟩
    · rw [h] at d1
      exact (List.append_eq_nil.mp d1.symm).1
    · cases D with
      | nil => rfl
      | cons x xs =>
        rw [h, List.cons_append, List.cons.injEq] at d1
        have := d2 x (by simp)
        rw [← d1.1] at this
        omega
  rw [hD, List.nil_append] at d1
  unfold Scheduler.Ascending
  rw [d1]
  exact ⟨d3, d4⟩

theorem passLoop_dueFirst {W : Type} (handlers : Handlers W) (n t : Nat)
    (hslot : ∀ i w, ∀ c ∈ (handlers i w).calls, c.slot < n)
    (hwrap : ∀ i w, t + (handlers i w).result < ULONG_RANGE) (fuel : Nat) :
    ∀ p : Pass W, p.sched.WellFormed → p.sched.DueFirst → p.sched.loopers.length = n →
    0 < n → p.sched.now = t →
    (p.returned = true →
      (∀ j ∈ p.sched.active, p.sched.now < p.sched.nextCallOf j) ∧ p.sched.Ascending) →
    ∃ p1, passLoop handlers fuel p = some p1 ∧ p1.sched.WellFormed ∧ p1.sched.now = t ∧
      (p1.returned = true →
        (∀ j ∈ p1.sched.active, p1.sched.now < p1.sched.nextCallOf j) ∧
          p1.sched.Ascending) := by
  induction fuel with
  | zero =>
    intro p hw _ _ _ hnow hret
    exact ⟨p, rfl, hw, hnow, hret⟩
  | succ f ih =>
    intro p hw hdf hn hpos hnow hdone
    by_cases hret : p.returned = true
    · exact ⟨p, by simp only [passLoop, hret, if_true], hw, hnow, hdone⟩
    · obtain ⟨hc, -⟩ := (wellFormed_iff p.sched).mp hw
      have hpq : 0 < p.sched.pq.length := by rw [hc.1, hn]; exact hpos
      have hstop : (p.sched.active = [] ∨
          ∃ a rest, p.sched.active = a :: rest ∧ p.sched.now < p.sched.nextCallOf a) →
          ∃ p1, passLoop handlers (f + 1) p = some p1 ∧ p1.sched.WellFormed ∧
            p1.sched.now = t ∧
            (p1.returned = true →
              (∀ j ∈ p1.sched.active, p1.sched.now < p1.sched.nextCallOf j) ∧
                p1.sched.Ascending) := by
        intro h
        have hit := passIteration_exit handlers p hc hpq h
        obtain ⟨p1, a1, a2, a3, a4⟩ := ih { p with returned := true } hw hdf hn hpos hnow
          (fun _ => dueFirst_exit p.sched hdf h)
        refine ⟨p1, ?_, a2, a3, a4⟩
        simp only [passLoop, hret, hit]
        exact a1
      cases hact : p.sched.active with
      | nil => exact hstop (Or.inl hact)
      | cons a rest =>
        by_cases hdue : p.sched.nextCallOf a ≤ p.sched.now
        · obtain ⟨p1, q1, q2, q3, q4, q5, q6⟩ := passIteration_dueFirst handlers p a rest hw hdf
            hact hdue (fun c hcm => by rw [hn]; exact hslot a p.world c hcm)
            (by rw [hnow]; exact hwrap a p.world)
          obtain ⟨p2, a1, a2, a3, a4⟩ := ih p1 q3 q4 (q6.trans hn) hpos (q5.trans hnow)
            (fun h => by rw [q2] at h; exact absurd h (by decide))
          refine ⟨p2, ?_, a2, a3, a4⟩
          simp only [passLoop, hret, q1]
          exact a1
        · exact hstop (Or.inr ⟨a, rest, hact, by omega⟩)

/-- Claim C21 (no due looper is left behind).  When `processLoopers` is entered in a
well-formed state whose `pq[0..pqSize)` is in ascending order of `nextCall`, with handlers
that call `enableLooper` / `disableLooper` on any valid slots and return delays for which
`now + delay` does not wrap around, it runs without access outside the tables, every
iteration ends in a well-formed state, and when the pass has returned every looper of
`pq[0..pqSize)` has `nextCall > now` and `pq[0..pqSize)` is in ascending order of
`nextCall`. -/
theorem no_due_looper_left_behind {W : Type} (handlers : Handlers W) (s : Scheduler) (w : W)
    (millis fuel : Nat) (hw : s.WellFormed) (hasc : s.Ascending)
    (hslot : ∀ i w, ∀ c ∈ (handlers i w).calls, c.slot < s.loopers.length)
    (hwrap : ∀ i w, millis % ULONG_RANGE + (handlers i w).result < ULONG_RANGE) :
    ∃ p, processLoopers handlers millis fuel s w = some p ∧ p.sched.WellFormed ∧
      (p.returned = true →
        (∀ j ∈ p.sched.active, p.sched.now < p.sched.nextCallOf j) ∧ p.sched.Ascending) := by
  obtain ⟨hc, -⟩ := (wellFormed_iff s).mp hw
  by_cases h0 : s.pqSize = 0
  · refine ⟨{ sched := s, world := w, trace := [], returned := true }, ?_, hw, ?_⟩
    · simp only [processLoopers, h0, if_true]
    · intro _
      refine ⟨?_, hasc⟩
      intro j hj
      have hnil : s.active = [] := by simp [Scheduler.active, h0]
      rw [hnil] at hj
      exact absurd hj (List.not_mem_nil j)
  · have hpos : 0 < s.loopers.length := by
      have h1 := hc.1
      have h2 := hc.2.1
      have h3 := hc.2.2.1
      omega
    have hasc2 : Scheduler.Ascending { s with now := millis % ULONG_RANGE } := hasc
    obtain ⟨p1, a1, a2, -, a4⟩ := passLoop_dueFirst handlers s.loopers.length
      (millis % ULONG_RANGE) hslot hwrap fuel
      { sched := { s with now := millis % ULONG_RANGE }, world := w, trace := [],
        returned := false } hw (ascending_dueFirst _ hasc2) rfl hpos rfl
      (fun h => Bool.noConfusion h)
    refine ⟨p1, ?_, a2, a4⟩
    simp only [processLoopers, h0, if_false]
    exact a1

theorem lateStarter_all_slots :
    ∀ (i : Nat) (w : Unit), ∀ c ∈ (lateStarter i w).calls, c.slot < twoOfThree.loopers.length := by
  intro i w c hc
  unfold lateStarter at hc
  split_ifs at hc
  · rw [List.mem_singleton] at hc
    rw [hc]
    decide
  · exact absurd hc (List.not_mem_nil c)

theorem lateStarter_no_wrap :
    ∀ (i : Nat) (w : Unit), 8 % ULONG_RANGE + (lateStarter i w).result < ULONG_RANGE := by
  intro i w
  unfold lateStarter
  split_ifs
  · show 8 % ULONG_RANGE + 10 < ULONG_RANGE
    decide
  · show 8 % ULONG_RANGE + 10 < ULONG_RANGE
    decide

theorem lateStarter_pass_returns :
    ∃ p0, processLoopers lateStarter 8 5 twoOfThree () = some p0 ∧ p0.returned = true ∧
      p0.trace = [0, 2, 1] ∧ p0.sched.active = [0, 2, 1] :=
  ⟨_, rfl, rfl, rfl, by decide⟩

/-- Claim C21 at the tables with looper 0 due at 3, looper 1 due at 5 and looper 2 disabled,
in a pass at time 8 in which the handler of looper 0 calls `enableLooper(2)` while looper 1
is waiting: the pass runs the loopers 0, 2, 1 and returns with every looper due after 8 and
`pq` in ascending order. -/
theorem no_due_looper_left_behind_witness :
    ∃ p, processLoopers lateStarter 8 5 twoOfThree () = some p ∧ p.returned = true ∧
      p.trace = [0, 2, 1] ∧ (∀ j ∈ p.sched.active, p.sched.now < p.sched.nextCallOf j) ∧
      p.sched.Ascending := by
  obtain ⟨p, h1, -, h3⟩ := no_due_looper_left_behind lateStarter twoOfThree () 8 5
    (wellFormed_of_decide _ (by decide)) (by decide) lateStarter_all_slots lateStarter_no_wrap
  obtain ⟨p0, g1, g2, g3, -⟩ := lateStarter_pass_returns
  have e : p0 = p := Option.some.inj (g1.symm.trans h1)
  subst e
  exact ⟨p0, h1, g2, g3, h3 g2⟩

end acp_private
